import Mathlib

/-!
Downlink channel estimator (`chest_dl.c`).

A shallow embedding of `lte/phy/lib/ch_estimation/src/chest_dl.c`.

* Complex samples (`cf_t`) are pairs of exact rationals (real, imaginary part); filter taps
  (`float`) are rationals.  All statements are therefore statements in exact arithmetic.
* A `cf_t *` buffer is a map from indices to samples; a pointer that may be `NULL` is an
  `Option`.
* Functions whose C code can read outside an array or through `NULL` return `Option`
  (`none` = undefined behaviour).
* The capacities `CHEST_MAX_FILTER_FREQ_LEN` and `CHEST_MAX_FILTER_TIME_LEN` come from a header
  that is not part of the sources; they are parameters of every definition that uses them.
-/

namespace ChestDl

/-! ## Data model -/

/-- Complex sample: (real part, imaginary part). -/
abbrev cf_t := ℚ × ℚ

/-- A `cf_t *` buffer, indexed from the pointer. -/
abbrev Buf := Nat → cf_t

/-- Cyclic prefix type; `CPNORM` is the zero value of the enumeration. -/
inductive lte_cp_t where
  | CPNORM
  | CPEXT
deriving DecidableEq, Repr

/-- Cell descriptor `lte_cell_t`. -/
structure lte_cell_t where
  nof_prb : Nat
  nof_ports : Nat
  id : Nat
  cp : lte_cp_t
deriving DecidableEq, Repr

/-- State of the scalar interpolator object (`interp_lin_t`): pilots per symbol and rate. -/
structure interp_lin_t where
  vector_len : Nat
  M : Nat
deriving DecidableEq, Repr

/-- State of the vector interpolator object (`interp_linvec_t`): length of one row. -/
structure interp_linvec_t where
  vector_len : Nat
deriving DecidableEq, Repr

/-- The estimator object `chest_dl_t`, with the fields `chest_dl.c` uses.
`csr_signal` is the pilot table `pilots[port/2][sf_idx]`; the `Option`s are the pointers. -/
structure chest_dl_t where
  cell : lte_cell_t
  csr_signal : Option (Nat → Nat → Buf)
  pilot_estimates : Nat → Option Buf
  pilot_estimates_average : Nat → Option Buf
  pilot_recv_signal : Nat → Option Buf
  tmp_freqavg : Option Buf
  tmp_noise : Option Buf
  tmp_timeavg : Nat → Option Buf
  filter_freq_len : Nat
  filter_freq : Nat → ℚ
  filter_time_len : Nat
  filter_time : Nat → ℚ
  interp_linvec : Option interp_linvec_t
  interp_lin : Option interp_lin_t
  rssi : Nat → ℚ
  rsrp : Nat → ℚ
  noise_estimate : Nat → ℚ

/-- Modelled from the spec: the return codes of `liblte/config.h` (absent from the sources);
success is one code, every error is a different one. -/
def LIBLTE_SUCCESS : Int := 0

/-- Modelled from the spec: generic error code of `liblte/config.h` (absent from the sources). -/
def LIBLTE_ERROR : Int := -1

/-- Modelled from the spec: invalid-configuration error code of `liblte/config.h` (absent from
the sources). -/
def LIBLTE_ERROR_INVALID_INPUTS : Int := -2

/-- Subcarriers per resource block. -/
def RE_X_RB : Nat := 12

/-- Number of antenna ports the per-port arrays are dimensioned for. -/
def MAX_PORTS : Nat := 4

/-! ## Filter setters -/

/-- The function `chest_dl_set_filter_freq`: returns the code and the updated object. -/
def chest_dl_set_filter_freq (CHEST_MAX_FILTER_FREQ_LEN : Nat) (q : chest_dl_t)
    (filter : Nat → ℚ) (filter_len : Nat) : Int × chest_dl_t :=
  if filter_len ≤ CHEST_MAX_FILTER_FREQ_LEN then
    (LIBLTE_SUCCESS,
      { q with
        filter_freq_len := filter_len
        filter_freq := fun i => if i < filter_len then filter i else q.filter_freq i })
  else
    (LIBLTE_ERROR, q)

/-- The function `chest_dl_set_filter_time`: returns the code and the updated object. -/
def chest_dl_set_filter_time (CHEST_MAX_FILTER_TIME_LEN : Nat) (q : chest_dl_t)
    (filter : Nat → ℚ) (filter_len : Nat) : Int × chest_dl_t :=
  if filter_len ≤ CHEST_MAX_FILTER_TIME_LEN then
    (LIBLTE_SUCCESS,
      { q with
        filter_time_len := filter_len
        filter_time := fun i => if i < filter_len then filter i else q.filter_time i })
  else
    (LIBLTE_ERROR, q)

/-! ## Construction and destruction -/

/-- Modelled from the spec: `lte_cell_isvalid` (absent from the sources).  A cell is valid when
`nof_prb` lies between the minimum 6 and the maximum 100 and `nof_ports` is 1, 2 or 4; the
cyclic prefix is one of the two values of its type. -/
def lte_cell_isvalid (cell : lte_cell_t) : Bool :=
  decide (6 ≤ cell.nof_prb ∧ cell.nof_prb ≤ 100 ∧
    (cell.nof_ports = 1 ∨ cell.nof_ports = 2 ∨ cell.nof_ports = 4))

/-- The object after `bzero(q, sizeof(chest_dl_t))`: null pointers, zero lengths, zero taps. -/
def chest_dl_zero : chest_dl_t where
  cell := ⟨0, 0, 0, lte_cp_t.CPNORM⟩
  csr_signal := none
  pilot_estimates := fun _ => none
  pilot_estimates_average := fun _ => none
  pilot_recv_signal := fun _ => none
  tmp_freqavg := none
  tmp_noise := none
  tmp_timeavg := fun _ => none
  filter_freq_len := 0
  filter_freq := fun _ => 0
  filter_time_len := 0
  filter_time := fun _ => 0
  interp_linvec := none
  interp_lin := none
  rssi := fun _ => 0
  rsrp := fun _ => 0
  noise_estimate := fun _ => 0

/-- The function `chest_dl_free`: every non-null buffer is released (the heap itself is not part of the
model) and the object is zeroed by the final `bzero`. -/
def chest_dl_free (_q : chest_dl_t) : chest_dl_t :=
  chest_dl_zero

/-- Results of the library calls made by `chest_dl_init`: the code and table of
`refsignal_cs_generate`, the pointer returned at each `vec_malloc` site (`none` = `NULL`, the
contents of a fresh block are arbitrary), and the codes of the two interpolator
initialisers (non-zero = failure). -/
structure init_env where
  refsignal_cs_generate : Int × Option (Nat → Nat → Buf)
  vec_malloc_tmp_freqavg : Option Buf
  vec_malloc_tmp_noise : Option Buf
  vec_malloc_tmp_timeavg : Nat → Option Buf
  vec_malloc_pilot_estimates : Nat → Option Buf
  vec_malloc_pilot_estimates_average : Nat → Option Buf
  vec_malloc_pilot_recv_signal : Nat → Option Buf
  interp_linear_vector_init : Int
  interp_linear_init : Int

/-- The loop over `tmp_timeavg[i]` of `chest_dl_init`, `n` iterations starting at `i`: allocate
and zero each history vector.  The flag is `false` when an allocation failed
(`goto clean_exit`). -/
def init_tmp_timeavg (env : init_env) (nof_prb : Nat) : Nat → Nat → chest_dl_t → Bool × chest_dl_t
  | 0, _, q => (true, q)
  | n + 1, i, q =>
    match env.vec_malloc_tmp_timeavg i with
    | none => (false, { q with tmp_timeavg := Function.update q.tmp_timeavg i none })
    | some b =>
      init_tmp_timeavg env nof_prb n (i + 1)
        { q with
          tmp_timeavg :=
            Function.update q.tmp_timeavg i (some (fun j => if j < 2 * nof_prb then 0 else b j)) }

/-- The loop over the ports of `chest_dl_init`, `n` iterations starting at port `i`: the three
per-port pilot buffers.  The flag is `false` when an allocation failed. -/
def init_ports (env : init_env) : Nat → Nat → chest_dl_t → Bool × chest_dl_t
  | 0, _, q => (true, q)
  | n + 1, i, q =>
    let q1 :=
      { q with
        pilot_estimates := Function.update q.pilot_estimates i (env.vec_malloc_pilot_estimates i) }
    if (env.vec_malloc_pilot_estimates i).isNone then (false, q1) else
    let q2 :=
      { q1 with
        pilot_estimates_average :=
          Function.update q1.pilot_estimates_average i (env.vec_malloc_pilot_estimates_average i) }
    if (env.vec_malloc_pilot_estimates_average i).isNone then (false, q2) else
    let q3 :=
      { q2 with
        pilot_recv_signal :=
          Function.update q2.pilot_recv_signal i (env.vec_malloc_pilot_recv_signal i) }
    if (env.vec_malloc_pilot_recv_signal i).isNone then (false, q3) else
    init_ports env n (i + 1) q3

/-- The array `float f[5]` of `chest_dl_init`. -/
def init_f : Nat → ℚ
  | 0 => 5 / 100
  | 1 => 15 / 100
  | 2 => 6 / 10
  | 3 => 15 / 100
  | 4 => 5 / 100
  | _ => 0

/-- The array `float t[2]` of `chest_dl_init`. -/
def init_t : Nat → ℚ
  | 0 => 1 / 10
  | 1 => 9 / 10
  | _ => 0

/-- The label `clean_exit` of `chest_dl_init`: free the object unless `ret` is success. -/
def init_clean_exit (ret : Int) (q : chest_dl_t) : Int × chest_dl_t :=
  if ret ≠ LIBLTE_SUCCESS then (ret, chest_dl_free q) else (ret, q)

/-- The function `chest_dl_init` on a non-null object `q`: returns the code and the object.  `ret` starts as
`LIBLTE_ERROR_INVALID_INPUTS`, is overwritten by the code of `refsignal_cs_generate`, and is
set to `LIBLTE_SUCCESS` after the `if` block; each `goto clean_exit` jumps over that last
assignment with the value `ret` has at that point. -/
def chest_dl_init (CHEST_MAX_FILTER_FREQ_LEN CHEST_MAX_FILTER_TIME_LEN : Nat) (env : init_env)
    (q : chest_dl_t) (cell : lte_cell_t) : Int × chest_dl_t :=
  if lte_cell_isvalid cell then
    let q0 := { chest_dl_zero with csr_signal := env.refsignal_cs_generate.2 }
    let ret := env.refsignal_cs_generate.1
    if ret ≠ LIBLTE_SUCCESS then init_clean_exit ret q0 else
    let q1 := { q0 with tmp_freqavg := env.vec_malloc_tmp_freqavg }
    if env.vec_malloc_tmp_freqavg.isNone then init_clean_exit ret q1 else
    let q2 := { q1 with tmp_noise := env.vec_malloc_tmp_noise }
    if env.vec_malloc_tmp_noise.isNone then init_clean_exit ret q2 else
    let r3 := init_tmp_timeavg env cell.nof_prb CHEST_MAX_FILTER_TIME_LEN 0 q2
    if !r3.1 then init_clean_exit ret r3.2 else
    let r4 := init_ports env cell.nof_ports 0 r3.2
    if !r4.1 then init_clean_exit ret r4.2 else
    if env.interp_linear_vector_init ≠ 0 then init_clean_exit ret r4.2 else
    let q5 := { r4.2 with interp_linvec := some ⟨RE_X_RB * cell.nof_prb⟩ }
    if env.interp_linear_init ≠ 0 then init_clean_exit ret q5 else
    let q6 := { q5 with interp_lin := some ⟨2 * cell.nof_prb, RE_X_RB / 2⟩ }
    let q7 := (chest_dl_set_filter_freq CHEST_MAX_FILTER_FREQ_LEN q6 init_f 5).2
    let q8 := (chest_dl_set_filter_time CHEST_MAX_FILTER_TIME_LEN q7 init_t 0).2
    init_clean_exit LIBLTE_SUCCESS { q8 with cell := cell }
  else
    init_clean_exit LIBLTE_SUCCESS q

/-- An environment in which every library call of `chest_dl_init` succeeds; fresh blocks hold
the sample `7 + 0j`. -/
def env_ok : init_env where
  refsignal_cs_generate := (LIBLTE_SUCCESS, some (fun _ _ _ => (1, 0)))
  vec_malloc_tmp_freqavg := some (fun _ => (7, 0))
  vec_malloc_tmp_noise := some (fun _ => (7, 0))
  vec_malloc_tmp_timeavg := fun _ => some (fun _ => (7, 0))
  vec_malloc_pilot_estimates := fun _ => some (fun _ => (7, 0))
  vec_malloc_pilot_estimates_average := fun _ => some (fun _ => (7, 0))
  vec_malloc_pilot_recv_signal := fun _ => some (fun _ => (7, 0))
  interp_linear_vector_init := 0
  interp_linear_init := 0

/-- The environment `env_ok` except that the first allocation, `tmp_freqavg`, fails. -/
def env_fail_freqavg : init_env :=
  { env_ok with vec_malloc_tmp_freqavg := none }

/-- A valid cell: 6 PRB, one port, normal cyclic prefix. -/
def cell_6prb : lte_cell_t := ⟨6, 1, 0, lte_cp_t.CPNORM⟩

/-- An invalid cell: no resource blocks and no ports. -/
def cell_invalid : lte_cell_t := ⟨0, 0, 0, lte_cp_t.CPNORM⟩

/-! ## Pilot layout and vector kernels -/

/-- Modelled from the spec: `refsignal_cs_nof_symbols` (absent from the sources), the number
of pilot-bearing symbols of a port in a subframe: 4 for ports 0 and 1, 2 for ports 2 and 3. -/
def refsignal_cs_nof_symbols (port_id : Nat) : Nat :=
  if port_id < 2 then 4 else 2

/-- Modelled from the spec: the macro `REFSIGNAL_NUM_SF` (absent from the sources), the number
of pilots of a port in a subframe, `2·nof_prb · nof_pilot_symbols(port)`. -/
def REFSIGNAL_NUM_SF (nof_prb port_id : Nat) : Nat :=
  2 * nof_prb * refsignal_cs_nof_symbols port_id

/-- Modelled from the spec: the macro `REFSIGNAL_PILOT_IDX` (absent from the sources), the flat
index of pilot `i` of pilot symbol `l`: the per-symbol slices of `2·nof_prb` pilots follow one
another in the per-port buffer. -/
def REFSIGNAL_PILOT_IDX (i l : Nat) (cell : lte_cell_t) : Nat :=
  2 * cell.nof_prb * l + i

/-- The pointer `&b[off]`. -/
def view (b : Buf) (off : Nat) : Buf :=
  fun i => b (off + i)

/-- The buffer `b` after `n` samples of `v` were written at `&b[off]`. -/
def store (b : Buf) (off n : Nat) (v : Buf) : Buf :=
  fun i => if off ≤ i ∧ i < off + n then v (i - off) else b i

/-- Reading `a[i]` from a `float` array of capacity `cap`; `none` outside the array. -/
def tap_read (cap : Nat) (a : Nat → ℚ) (i : Nat) : Option ℚ :=
  if i < cap then some (a i) else none

/-- Modelled from the spec: `interp_linear_onesample` (absent from the sources), the
one-sample linear extrapolation `extrap(x0, x1) = 2·x1 − x0`. -/
def interp_linear_onesample (x0 x1 : cf_t) : cf_t :=
  (2 : ℚ) • x1 - x0

/-- Modelled from the spec: `conv_same_cf` (absent from the sources), the same-length centred
convolution: output `i` is `Σ_j x[i+j−K/2]·h[j]` with implicit zeros past both ends. -/
def conv_same_cf (input : Buf) (filter : Nat → ℚ) (input_len filter_len : Nat) : Buf :=
  fun i => ∑ j ∈ Finset.range filter_len,
    if filter_len / 2 ≤ i + j ∧ i + j - filter_len / 2 < input_len then
      filter j • input (i + j - filter_len / 2)
    else 0

/-- Modelled from the spec: `vec_sub_ccc` (absent from the sources), `out[i] = a[i] − b[i]`. -/
def vec_sub_ccc (a b : Buf) : Buf :=
  fun i => a i - b i

/-- Modelled from the spec: `vec_sum_ccc` (absent from the sources), `out[i] = a[i] + b[i]`. -/
def vec_sum_ccc (a b : Buf) : Buf :=
  fun i => a i + b i

/-- Modelled from the spec: `vec_sc_prod_cfc` (absent from the sources), `out[i] = k · v[i]`
for a real `k`. -/
def vec_sc_prod_cfc (v : Buf) (k : ℚ) : Buf :=
  fun i => k • v i

/-- Squared magnitude of a sample. -/
def cf_norm_sq (x : cf_t) : ℚ :=
  x.1 * x.1 + x.2 * x.2

/-- Modelled from the spec: `vec_avg_power_cf` (absent from the sources), the real mean of
`|v[i]|²` over `n` samples, 0 when `n = 0`. -/
def vec_avg_power_cf (v : Buf) (n : Nat) : ℚ :=
  if n = 0 then 0 else (∑ i ∈ Finset.range n, cf_norm_sq (v i)) / n

/-! ## Pilot averaging -/

/-- The function `estimate_noise_port` on the dereferenced buffers: writes the residual into `tmp_noise` and
returns it with its mean power. -/
def estimate_noise_port (q : chest_dl_t) (port_id : Nat) (avg_pilots est noise : Buf) :
    Buf × ℚ :=
  let n := REFSIGNAL_NUM_SF q.cell.nof_prb port_id
  let noise1 := store noise 0 n (vec_sub_ccc avg_pilots est)
  (noise1, vec_avg_power_cf noise1 n)

/-- Body of the first loop of `average_pilots` for pilot symbol `l`: frequency filtering of
the slice of `est` into the slice of `tmp`.  The tap index `filter_freq_len/2-1` is computed
in `uint32_t`; the pilot indices `nref-1` and `nref-2` are those of the C code whenever the
cell has at least one PRB. -/
def average_pilots_freq (F : Nat) (q : chest_dl_t) (est : Buf) (l : Nat) (tmp : Buf) :
    Option Buf :=
  let nref := 2 * q.cell.nof_prb
  let p := fun idx => REFSIGNAL_PILOT_IDX idx l q.cell
  if q.filter_freq_len > 0 then do
    let tmp1 := store tmp (p 0) nref (conv_same_cf (view est (p 0)) q.filter_freq nref q.filter_freq_len)
    let h0 ← tap_read F q.filter_freq ((q.filter_freq_len / 2 + 2 ^ 32 - 1) % 2 ^ 32)
    let tmp2 := Function.update tmp1 (p 0)
      (tmp1 (p 0) + h0 • interp_linear_onesample (est (p 1)) (est (p 0)))
    let h1 ← tap_read F q.filter_freq (q.filter_freq_len / 2 + 1)
    let tmp3 := Function.update tmp2 (p (nref - 1))
      (tmp2 (p (nref - 1)) + h1 • interp_linear_onesample (est (p (nref - 2))) (est (p (nref - 1))))
    pure tmp3
  else
    pure (store tmp (p 0) nref (view est (p 0)))

/-- First loop of `average_pilots`: `n` pilot symbols starting at symbol `l`. -/
def average_pilots_freq_loop (F : Nat) (q : chest_dl_t) (est : Buf) :
    Nat → Nat → Buf → Option Buf
  | 0, _, tmp => some tmp
  | n + 1, l, tmp =>
    (average_pilots_freq F q est l tmp).bind (average_pilots_freq_loop F q est n (l + 1))

/-- The loop "move last symbols": `n` iterations starting at `i` of
`memcpy(tmp_timeavg[i], tmp_timeavg[i+1], nref)`. -/
def average_pilots_shift (nref : Nat) :
    Nat → Nat → (Nat → Option Buf) → Option (Nat → Option Buf)
  | 0, _, ta => some ta
  | n + 1, i, ta => do
    let dst ← ta i
    let src ← ta (i + 1)
    average_pilots_shift nref n (i + 1) (Function.update ta i (some (store dst 0 nref src)))

/-- The loop "multiply all symbols by filter and add them": `n` iterations starting at `i`;
each history vector is scaled in place by its tap and added to the slice of `avg` at `off`. -/
def average_pilots_acc (T : Nat) (q : chest_dl_t) (nref off : Nat) :
    Nat → Nat → (Nat → Option Buf) × Buf → Option ((Nat → Option Buf) × Buf)
  | 0, _, s => some s
  | n + 1, i, (ta, avg) => do
    let x ← ta i
    let h ← tap_read T q.filter_time i
    let x1 := store x 0 nref (vec_sc_prod_cfc x h)
    let avg1 := store avg off nref (vec_sum_ccc x1 (view avg off))
    average_pilots_acc T q nref off n (i + 1) (Function.update ta i (some x1), avg1)

/-- Body of the second loop of `average_pilots` for pilot symbol `l`: time filtering of the
slice of `tmp` into the slice of `avg`, through the history `tmp_timeavg`. -/
def average_pilots_time (T : Nat) (q : chest_dl_t) (tmp : Buf) (l : Nat)
    (s : (Nat → Option Buf) × Buf) : Option ((Nat → Option Buf) × Buf) :=
  let nref := 2 * q.cell.nof_prb
  let p := fun idx => REFSIGNAL_PILOT_IDX idx l q.cell
  if q.filter_time_len > 0 then do
    let ta1 ← average_pilots_shift nref (q.filter_time_len - 1) 0 s.1
    let last ← ta1 (q.filter_time_len - 1)
    let ta2 := Function.update ta1 (q.filter_time_len - 1) (some (store last 0 nref (view tmp (p 0))))
    let avg1 := store s.2 (p 0) nref (fun _ => 0)
    average_pilots_acc T q nref (p 0) q.filter_time_len 0 (ta2, avg1)
  else
    pure (s.1, store s.2 (p 0) nref (view tmp (p 0)))

/-- Second loop of `average_pilots`: `n` pilot symbols starting at symbol `l`. -/
def average_pilots_time_loop (T : Nat) (q : chest_dl_t) (tmp : Buf) :
    Nat → Nat → (Nat → Option Buf) × Buf → Option ((Nat → Option Buf) × Buf)
  | 0, _, s => some s
  | n + 1, l, s =>
    (average_pilots_time T q tmp l s).bind (average_pilots_time_loop T q tmp n (l + 1))

/-- The function `average_pilots` (with `NOISE_POWER_USE_ESTIMATES` defined, as in the source): `none` when
a buffer pointer is `NULL` or a tap is read outside its array. -/
def average_pilots (F T : Nat) (q : chest_dl_t) (port_id : Nat) : Option chest_dl_t := do
  let est ← q.pilot_estimates port_id
  let tmp0 ← q.tmp_freqavg
  let tmp ← average_pilots_freq_loop F q est (refsignal_cs_nof_symbols port_id) 0 tmp0
  let noise0 ← q.tmp_noise
  let r := estimate_noise_port q port_id tmp est noise0
  let avg0 ← q.pilot_estimates_average port_id
  let s ← average_pilots_time_loop T q tmp (refsignal_cs_nof_symbols port_id) 0
    (q.tmp_timeavg, avg0)
  pure { q with
    tmp_freqavg := some tmp
    tmp_noise := some r.1
    noise_estimate := Function.update q.noise_estimate port_id r.2
    tmp_timeavg := s.1
    pilot_estimates_average := Function.update q.pilot_estimates_average port_id (some s.2) }

/-! ## Interpolation -/

/-- Modelled from the spec: the macro `RE_IDX` (absent from the sources), the flat index of
subcarrier `sample_idx` of symbol `symbol_idx` in a grid stored row-major by symbol, each row
holding `nof_prb · 12` samples. -/
def RE_IDX (nof_prb symbol_idx sample_idx : Nat) : Nat :=
  symbol_idx * nof_prb * RE_X_RB + sample_idx

/-- Modelled from the spec: the macro `NSYMB_PER_SF` (absent from the sources), the number of
OFDM symbols of a subframe: 14 with the normal cyclic prefix, 12 with the extended one. -/
def NSYMB_PER_SF (cp : lte_cp_t) : Nat :=
  match cp with
  | lte_cp_t.CPNORM => 14
  | lte_cp_t.CPEXT => 12

/-- Modelled from the spec: `refsignal_nsymbol` (absent from the sources), the OFDM symbol that
carries pilot symbol `l` of a port: 0, 4, 7, 11 (normal) or 0, 3, 6, 9 (extended) for ports 0
and 1; 1, 8 (normal) or 1, 7 (extended) for ports 2 and 3. -/
def refsignal_nsymbol (l : Nat) (cp : lte_cp_t) (port_id : Nat) : Nat :=
  match cp with
  | lte_cp_t.CPNORM => if port_id < 2 then [0, 4, 7, 11].getD l 0 else [1, 8].getD l 0
  | lte_cp_t.CPEXT => if port_id < 2 then [0, 3, 6, 9].getD l 0 else [1, 7].getD l 0

/-- Modelled from the spec: the number of samples written by `interp_linear_offset` (absent
from the sources), counted from the spec's enumeration of the samples: `off_begin` samples
before `x[0]`, then each of the first `M − 1` inputs `x[k]` followed by `R − 1` interpolated
samples, then `off_end` samples from `x[M−1]` on, that is `(M − 1)·R + off_begin + off_end`.
With `M = 2·nof_prb` pilots, rate `R = 6` and offsets that sum to 6 this is the
`nof_prb·12` samples of the grid row that the frequency loop writes into. -/
def interp_linear_offset_len (q : interp_lin_t) (off_st off_end : Nat) : Nat :=
  (q.vector_len - 1) * q.M + off_st + off_end

/-- Modelled from the spec: sample `j` of the sequence written by `interp_linear_offset`
(absent from the sources).  The first `off_st` samples are extrapolated backward from `x[0]`,
`x[1]`; then each `x[k]` with `k < M − 1` is followed by `R − 1` samples interpolated
linearly towards `x[k+1]`; the last `off_end` samples, from `x[M−1]` on, are extrapolated
forward from `x[M−2]`, `x[M−1]`. -/
def interp_linear_offset (q : interp_lin_t) (input : Buf) (off_st _off_end : Nat) : Buf :=
  fun j =>
    if j < off_st then
      input 0 - (((off_st - j : Nat) : ℚ) / q.M) • (input 1 - input 0)
    else if (j - off_st) / q.M + 1 < q.vector_len then
      input ((j - off_st) / q.M)
        + ((((j - off_st) % q.M : Nat) : ℚ) / q.M)
          • (input ((j - off_st) / q.M + 1) - input ((j - off_st) / q.M))
    else
      input (q.vector_len - 1)
        + (((j - off_st - (q.vector_len - 1) * q.M : Nat) : ℚ) / q.M)
          • (input (q.vector_len - 1) - input (q.vector_len - 2))

/-- Modelled from the spec: sample `j` of the `M` contiguous vectors written by
`interp_linear_vector` (absent from the sources): vector `t` (`t = 1..M`) is
`a + t·(b − a)/(M + 1)`, for vectors `a`, `b` of the length `L` of the interpolator object. -/
def interp_linear_vector (q : interp_linvec_t) (in0 in1 : Buf) (M : Nat) : Buf :=
  fun j =>
    in0 (j % q.vector_len)
      + (((j / q.vector_len + 1 : Nat) : ℚ) / ((M : ℚ) + 1))
        • (in1 (j % q.vector_len) - in0 (j % q.vector_len))

/-- The frequency loop of `interpolate_pilots`, `n` pilot symbols starting at symbol `l`.
`fidx` stands for `refsignal_fidx(cell, l, port_id, 0)` (absent from the sources); the
trailing offset `RE_X_RB/2 - fidx_offset` is computed in `uint32_t`. -/
def interpolate_pilots_freq (fidx : lte_cell_t → Nat → Nat → Nat) (q : chest_dl_t)
    (lin : interp_lin_t) (avg : Buf) (port_id : Nat) : Nat → Nat → Buf → Buf
  | 0, _, ce => ce
  | n + 1, l, ce =>
    let fidx_offset := fidx q.cell l port_id
    let off_end := (RE_X_RB / 2 + 2 ^ 32 - fidx_offset) % 2 ^ 32
    interpolate_pilots_freq fidx q lin avg port_id n (l + 1)
      (store ce (refsignal_nsymbol l q.cell.cp port_id * q.cell.nof_prb * RE_X_RB)
        (interp_linear_offset_len lin fidx_offset off_end)
        (interp_linear_offset lin (view avg (REFSIGNAL_PILOT_IDX 0 l q.cell)) fidx_offset off_end))

/-- The call `interp_linear_vector(&q->interp_linvec, &cesymb(a), &cesymb(b), &cesymb(out), M)`
on the grid `ce`. -/
def cesymb_interp (q : chest_dl_t) (linvec : interp_linvec_t) (ce : Buf) (a b out M : Nat) :
    Buf :=
  store ce (RE_IDX q.cell.nof_prb out 0) (M * linvec.vector_len)
    (interp_linear_vector linvec (view ce (RE_IDX q.cell.nof_prb a 0))
      (view ce (RE_IDX q.cell.nof_prb b 0)) M)

/-- The time-interpolation stage of `interpolate_pilots`, applied to the grid `ce` left by
the frequency loop. -/
def interpolate_pilots_time (q : chest_dl_t) (linvec : interp_linvec_t) (nsymbols : Nat)
    (ce : Buf) : Buf :=
  if q.cell.cp = lte_cp_t.CPNORM then
    if nsymbols = 4 then
      let ce := cesymb_interp q linvec ce 0 4 1 3
      let ce := cesymb_interp q linvec ce 4 7 5 2
      let ce := cesymb_interp q linvec ce 7 11 8 3
      cesymb_interp q linvec ce 7 11 12 2
    else
      let ce := cesymb_interp q linvec ce 8 1 0 1
      let ce := cesymb_interp q linvec ce 1 8 2 6
      cesymb_interp q linvec ce 1 8 9 5
  else
    if nsymbols = 4 then
      let ce := cesymb_interp q linvec ce 0 3 1 2
      let ce := cesymb_interp q linvec ce 3 6 4 2
      let ce := cesymb_interp q linvec ce 6 9 7 2
      cesymb_interp q linvec ce 6 9 9 2
    else
      let ce := cesymb_interp q linvec ce 7 1 0 1
      let ce := cesymb_interp q linvec ce 1 7 2 5
      cesymb_interp q linvec ce 1 7 8 4

/-- The function `interpolate_pilots`: the grid `ce` after the call; `none` when a pointer of the object is
`NULL` or an interpolator was not initialised. -/
def interpolate_pilots (fidx : lte_cell_t → Nat → Nat → Nat) (q : chest_dl_t) (ce : Buf)
    (port_id : Nat) : Option Buf := do
  let avg ← q.pilot_estimates_average port_id
  let lin ← q.interp_lin
  let linvec ← q.interp_linvec
  let nsymbols := refsignal_cs_nof_symbols port_id
  let ce1 := interpolate_pilots_freq fidx q lin avg port_id nsymbols 0 ce
  pure (interpolate_pilots_time q linvec nsymbols ce1)

/-! ## Estimation of one port -/

/-- Complex conjugate. -/
def cf_conj (x : cf_t) : cf_t :=
  (x.1, -x.2)

/-- Complex product. -/
def cf_mul (x y : cf_t) : cf_t :=
  (x.1 * y.1 - x.2 * y.2, x.1 * y.2 + x.2 * y.1)

/-- Modelled from the spec: `vec_prod_conj_ccc` (absent from the sources),
`out[i] = a[i]·conj(b[i])`. -/
def vec_prod_conj_ccc (a b : Buf) : Buf :=
  fun i => cf_mul (a i) (cf_conj (b i))

/-- Modelled from the spec: `vec_dot_prod_conj_ccc` (absent from the sources),
`Σ a[i]·conj(b[i])` over `n` samples. -/
def vec_dot_prod_conj_ccc (a b : Buf) (n : Nat) : cf_t :=
  ∑ i ∈ Finset.range n, cf_mul (a i) (cf_conj (b i))

/-- Modelled from the spec: `refsignal_cs_get_sf` (absent from the sources), the extraction of
the `2·nof_prb · nof_pilot_symbols(port)` received pilots of a port: pilot `i` of pilot symbol
`l` is read from OFDM symbol `refsignal_nsymbol l` at subcarrier `fidx + 6·i`, where `fidx`
stands for `refsignal_fidx(cell, l, port_id, 0)`. -/
def refsignal_cs_get_sf (fidx : lte_cell_t → Nat → Nat → Nat) (cell : lte_cell_t)
    (port_id : Nat) (sf_symbols pilots : Buf) : Buf :=
  store pilots 0 (REFSIGNAL_NUM_SF cell.nof_prb port_id)
    (fun k =>
      sf_symbols (RE_IDX cell.nof_prb
        (refsignal_nsymbol (k / (2 * cell.nof_prb)) cell.cp port_id)
        (fidx cell (k / (2 * cell.nof_prb)) port_id + RE_X_RB / 2 * (k % (2 * cell.nof_prb)))))

/-- The loop of `chest_dl_rssi`: `n` pilot symbols starting at `l`, accumulating into `rssi`
the real value of the power of each pilot-bearing row. -/
def chest_dl_rssi_loop (q : chest_dl_t) (input : Buf) (port_id : Nat) : Nat → Nat → ℚ → ℚ
  | 0, _, rssi => rssi
  | n + 1, l, rssi =>
    let tmp := view input (refsignal_nsymbol l q.cell.cp port_id * q.cell.nof_prb * RE_X_RB)
    chest_dl_rssi_loop q input port_id n (l + 1)
      (rssi + (vec_dot_prod_conj_ccc tmp tmp (q.cell.nof_prb * RE_X_RB)).1)

/-- The function `chest_dl_rssi`: mean over the pilot symbols of the row powers. -/
def chest_dl_rssi (q : chest_dl_t) (input : Buf) (port_id : Nat) : ℚ :=
  chest_dl_rssi_loop q input port_id (refsignal_cs_nof_symbols port_id) 0 0
    / refsignal_cs_nof_symbols port_id

/-- The function `chest_dl_rsrp` (with `RSRP_FROM_ESTIMATES` undefined, as in the source). -/
def chest_dl_rsrp (q : chest_dl_t) (port_id : Nat) : Option ℚ := do
  let avg ← q.pilot_estimates_average port_id
  pure (vec_avg_power_cf avg (REFSIGNAL_NUM_SF q.cell.nof_prb port_id))

/-- The function `chest_dl_estimate_port`: the return code, the object and the grid `ce` (`none` = `NULL`,
no interpolation) after the call. -/
def chest_dl_estimate_port (F T : Nat) (fidx : lte_cell_t → Nat → Nat → Nat) (q : chest_dl_t)
    (input : Buf) (ce : Option Buf) (sf_idx port_id : Nat) :
    Option (Int × chest_dl_t × Option Buf) := do
  let recv0 ← q.pilot_recv_signal port_id
  let recv := refsignal_cs_get_sf fidx q.cell port_id input recv0
  let csr ← q.csr_signal
  let est0 ← q.pilot_estimates port_id
  let est := store est0 0 (REFSIGNAL_NUM_SF q.cell.nof_prb port_id)
    (vec_prod_conj_ccc recv (csr (port_id / 2) sf_idx))
  let q1 := { q with
    pilot_recv_signal := Function.update q.pilot_recv_signal port_id (some recv)
    pilot_estimates := Function.update q.pilot_estimates port_id (some est) }
  let q2 ← average_pilots F T q1 port_id
  let rsrp ← chest_dl_rsrp q2 port_id
  let q3 := { q2 with rsrp := Function.update q2.rsrp port_id rsrp }
  let q4 :=
    if port_id = 0 then
      { q3 with rssi := Function.update q3.rssi port_id (chest_dl_rssi q3 input port_id) }
    else q3
  match ce with
  | some c => do
    let c1 ← interpolate_pilots fidx q4 c port_id
    pure (0, q4, some c1)
  | none => pure (0, q4, none)

/-! ## Estimation of all ports and metric queries -/

/-- The loop of `chest_dl_estimate`: `n` ports starting at `port_id`; `ce` is the array of
output grid pointers `ce[MAX_PORTS]`. -/
def chest_dl_estimate_loop (F T : Nat) (fidx : lte_cell_t → Nat → Nat → Nat) (input : Buf)
    (sf_idx : Nat) :
    Nat → Nat → chest_dl_t × (Nat → Option Buf) → Option (chest_dl_t × (Nat → Option Buf))
  | 0, _, s => some s
  | n + 1, port_id, (q, ce) => do
    let r ← chest_dl_estimate_port F T fidx q input (ce port_id) sf_idx port_id
    chest_dl_estimate_loop F T fidx input sf_idx n (port_id + 1)
      (r.2.1, Function.update ce port_id r.2.2)

/-- The function `chest_dl_estimate`: the return code, the object and the output grids after
the call.  The loop bound `q->cell.nof_ports` is read from the object, whose cell no call of
`chest_dl_estimate_port` modifies. -/
def chest_dl_estimate (F T : Nat) (fidx : lte_cell_t → Nat → Nat → Nat) (q : chest_dl_t)
    (input : Buf) (ce : Nat → Option Buf) (sf_idx : Nat) :
    Option (Int × chest_dl_t × (Nat → Option Buf)) := do
  let s ← chest_dl_estimate_loop F T fidx input sf_idx q.cell.nof_ports 0 (q, ce)
  pure (LIBLTE_SUCCESS, s.1, s.2)

/-- Modelled from the spec: `vec_acc_ff` (absent from the sources), the real sum of the first
`n` entries of a `float` array. -/
def vec_acc_ff (v : Nat → ℚ) (n : Nat) : ℚ :=
  ∑ i ∈ Finset.range n, v i

/-- The function `chest_dl_get_rsrp`: sum of the power received from all transmit ports. -/
def chest_dl_get_rsrp (q : chest_dl_t) : ℚ :=
  vec_acc_ff q.rsrp q.cell.nof_ports

/-! ## Preconditions of the estimation functions -/

/-- The installed frequency filter is disabled, or it is long enough for the two tap indices
of the edge correction, `len/2 - 1` and `len/2 + 1`, to be read inside the tap array of
capacity `F`. -/
def freq_filter_ok (F : Nat) (q : chest_dl_t) : Prop :=
  q.filter_freq_len = 0 ∨ (2 ≤ q.filter_freq_len ∧ q.filter_freq_len / 2 + 1 < F)

/-- The object is initialised for its cell: the CSR table, the scratch buffers, the `T`
history vectors, the three pilot buffers of every port of the cell and the two interpolators
are allocated, the time filter fits its tap array and the frequency filter can be applied. -/
def chest_dl_ready (F T : Nat) (q : chest_dl_t) : Prop :=
  q.csr_signal.isSome = true ∧ q.tmp_freqavg.isSome = true ∧ q.tmp_noise.isSome = true ∧
  (∀ j, j < T → (q.tmp_timeavg j).isSome = true) ∧
  (∀ p, p < q.cell.nof_ports →
    (q.pilot_recv_signal p).isSome = true ∧ (q.pilot_estimates p).isSome = true ∧
    (q.pilot_estimates_average p).isSome = true) ∧
  q.interp_lin.isSome = true ∧ q.interp_linvec.isSome = true ∧
  q.filter_time_len ≤ T ∧ freq_filter_ok F q

/-- Gain of the default five-tap frequency stage (convolution with implicit zeros plus the
one-sample edge correction) on a constant sequence of `nref` pilots, at pilot `i`: the two
outermost pilots of each end lose the outermost tap 0.05. -/
def default_edge_gain (nref i : Nat) : ℚ :=
  if i < 2 ∨ nref ≤ i + 2 then 19 / 20 else 1

/-! ## Concrete estimator objects -/

/-- The object built by `chest_dl_init` for `cell_6prb` when every library call succeeds, with
the capacities 10 (frequency taps) and 4 (time taps). -/
def q_init : chest_dl_t :=
  (chest_dl_init 10 4 env_ok chest_dl_zero cell_6prb).2

/-- The object `q_init` after `chest_dl_set_filter_freq(q, f, 0)`: both filters disabled. -/
def q_disabled : chest_dl_t :=
  (chest_dl_set_filter_freq 10 q_init init_f 0).2

/-- The one-tap filter `{1}`. -/
def one_tap : Nat → ℚ
  | 0 => 1
  | _ => 0

/-- The object `q_init` after `chest_dl_set_filter_freq(q, {1}, 1)` and
`chest_dl_set_filter_time(q, {1}, 1)`. -/
def q_one : chest_dl_t :=
  (chest_dl_set_filter_time 4 (chest_dl_set_filter_freq 10 q_init one_tap 1).2 one_tap 1).2

/-- A pilot frequency offset that is 0 for every cell, symbol and port. -/
def fidx_zero : lte_cell_t → Nat → Nat → Nat :=
  fun _ _ _ => 0

/-- An input grid holding the sample `7 + 0j` at every resource element. -/
def grid_seven : Buf :=
  fun _ => (7, 0)

/-- A valid cell with the extended cyclic prefix: 6 PRB, one port. -/
def cell_ext : lte_cell_t := ⟨6, 1, 0, lte_cp_t.CPEXT⟩

/-- The object built by `chest_dl_init` for `cell_ext` when every library call succeeds; its
smoothed pilot estimates are all `7 + 0j`. -/
def q_ext : chest_dl_t :=
  (chest_dl_init 10 4 env_ok chest_dl_zero cell_ext).2

/-- A grid holding `0` at every resource element. -/
def grid_zero : Buf :=
  fun _ => (0, 0)

/-- A grid holding `5 + 5j` at every resource element. -/
def grid_five : Buf :=
  fun _ => (5, 5)

/-- The object `q_ext` with smoothed pilot estimates that are constant on each pilot symbol:
the twelve pilots of pilot symbol `l` of port 0 all hold the value `l`. -/
def q_ext_steps : chest_dl_t :=
  { q_ext with
    pilot_estimates_average :=
      Function.update q_ext.pilot_estimates_average 0 (some (fun i => (((i / 12 : Nat) : ℚ), 0))) }

/-- The two-tap filter `{0.5, 0.5}`. -/
def two_tap : Nat → ℚ
  | 0 => 1 / 2
  | 1 => 1 / 2
  | _ => 0

/-- The object `q_init` after `chest_dl_set_filter_freq(q, {0.5, 0.5}, 2)`. -/
def q_two : chest_dl_t :=
  (chest_dl_set_filter_freq 10 q_init two_tap 2).2

/-- A valid cell with two antenna ports: 6 PRB, normal cyclic prefix. -/
def cell_two_ports : lte_cell_t := ⟨6, 2, 0, lte_cp_t.CPNORM⟩

/-- The object built by `chest_dl_init` for `cell_two_ports` when every library call
succeeds (default five frequency taps, time filter of length 0). -/
def q_two_ports : chest_dl_t :=
  (chest_dl_init 10 4 env_ok chest_dl_zero cell_two_ports).2

/-- An array of output grid pointers that are all `NULL`. -/
def ce_null : Nat → Option Buf :=
  fun _ => none

/-- The object `q_init` after `chest_dl_set_filter_time(q, {0.1, 0.9}, 2)`: default five
frequency taps, time taps `{0.1, 0.9}`, history all zero. -/
def q_warm : chest_dl_t :=
  (chest_dl_set_filter_time 4 q_init init_t 2).2

/-- The two-port object `q_two_ports` after `chest_dl_set_filter_time(q, {0.1, 0.9}, 2)`. -/
def q_warm_two_ports : chest_dl_t :=
  (chest_dl_set_filter_time 4 q_two_ports init_t 2).2

/-- Three successive calls of `chest_dl_estimate_port` on `q_warm_two_ports`: port 0 on
`grid_seven` (subframe 0), port 1 on the grid `g` (subframe 0), port 0 on `grid_seven`
(subframe 1): the object after the third call. -/
def two_port_run (g : Buf) : Option chest_dl_t := do
  let r0 ← chest_dl_estimate_port 10 4 fidx_zero q_warm_two_ports grid_seven none 0 0
  let r1 ← chest_dl_estimate_port 10 4 fidx_zero r0.2.1 g none 0 1
  let r2 ← chest_dl_estimate_port 10 4 fidx_zero r1.2.1 grid_seven none 1 0
  pure r2.2.1

/-- A linear-ramp sequence of LS estimates: `ls[k] = k + 0j`. -/
def ls_ramp : Buf :=
  fun k => ((k : ℚ), 0)

/-- The object `q_init` (normal cyclic prefix) with smoothed pilot estimates that are
constant on each pilot symbol: the twelve pilots of pilot symbol `l` of port 0 all hold the
value `l`. -/
def q_norm_steps : chest_dl_t :=
  { q_init with
    pilot_estimates_average :=
      Function.update q_init.pilot_estimates_average 0 (some (fun i => (((i / 12 : Nat) : ℚ), 0))) }

/-! ## Theorems -/

/-- C1: a filter longer than the setter's maximum is rejected with `LIBLTE_ERROR` by both
setters, and the whole estimator object (stored length and every stored tap included) is left
as it was. -/
theorem set_filter_too_long_rejected (CHEST_MAX_FILTER_FREQ_LEN CHEST_MAX_FILTER_TIME_LEN : Nat)
    (q : chest_dl_t) (filter : Nat → ℚ) :
    (∀ filter_len, CHEST_MAX_FILTER_FREQ_LEN < filter_len →
      chest_dl_set_filter_freq CHEST_MAX_FILTER_FREQ_LEN q filter filter_len
        = (LIBLTE_ERROR, q)) ∧
    (∀ filter_len, CHEST_MAX_FILTER_TIME_LEN < filter_len →
      chest_dl_set_filter_time CHEST_MAX_FILTER_TIME_LEN q filter filter_len
        = (LIBLTE_ERROR, q)) := by
  refine ⟨fun n hn => ?_, fun n hn => ?_⟩
  · simp [chest_dl_set_filter_freq, Nat.not_le.mpr hn]
  · simp [chest_dl_set_filter_time, Nat.not_le.mpr hn]

/-- Witness for C1 at the maxima 10 and 4 on the zeroed object: lengths 11 and 5 are
rejected. -/
theorem set_filter_too_long_rejected_witness :
    chest_dl_set_filter_freq 10 chest_dl_zero init_f 11 = (LIBLTE_ERROR, chest_dl_zero) ∧
    chest_dl_set_filter_time 4 chest_dl_zero init_f 5 = (LIBLTE_ERROR, chest_dl_zero) :=
  ⟨(set_filter_too_long_rejected 10 4 chest_dl_zero init_f).1 11 (by decide),
   (set_filter_too_long_rejected 10 4 chest_dl_zero init_f).2 5 (by decide)⟩

/-! ### Construction -/

/-- With an invalid cell the `if` block of `chest_dl_init` is skipped, `ret` is overwritten by
`LIBLTE_SUCCESS`, and the object is returned untouched. -/
theorem chest_dl_init_of_invalid (F T : Nat) (env : init_env) (q : chest_dl_t)
    (cell : lte_cell_t) (h : lte_cell_isvalid cell = false) :
    chest_dl_init F T env q cell = (LIBLTE_SUCCESS, q) := by
  simp [chest_dl_init, h, init_clean_exit]

/-- Once `refsignal_cs_generate` has succeeded, every exit of `chest_dl_init` carries the code
`LIBLTE_SUCCESS`, whichever allocation fails. -/
theorem chest_dl_init_ret_of_generate_ok (F T : Nat) (env : init_env) (q : chest_dl_t)
    (cell : lte_cell_t) (hgen : env.refsignal_cs_generate.1 = LIBLTE_SUCCESS) :
    (chest_dl_init F T env q cell).1 = LIBLTE_SUCCESS := by
  unfold chest_dl_init
  simp only [hgen, init_clean_exit, ne_eq, not_true_eq_false, if_false]
  split_ifs <;> rfl

/-- C2: `chest_dl_init` on the invalid cell `cell_invalid` (0 PRB, 0 ports) returns
`LIBLTE_SUCCESS`, not an error code, and leaves the object as it was. -/
theorem chest_dl_init_invalid_cell_returns_success :
    lte_cell_isvalid cell_invalid = false ∧
    (chest_dl_init 10 4 env_ok chest_dl_zero cell_invalid).1 = LIBLTE_SUCCESS ∧
    (chest_dl_init 10 4 env_ok chest_dl_zero cell_invalid).1 ≠ LIBLTE_ERROR_INVALID_INPUTS := by
  have h : lte_cell_isvalid cell_invalid = false := by decide
  rw [chest_dl_init_of_invalid 10 4 env_ok chest_dl_zero cell_invalid h]
  exact ⟨h, rfl, by decide⟩

/-- C3: on the valid cell `cell_6prb`, when the allocation of `tmp_freqavg` fails (after the
CSR signal was generated), `chest_dl_init` returns `LIBLTE_SUCCESS` and does not free the
object: the CSR table is still attached, so the object is not in the zeroed state that
`chest_dl_free` produces. -/
theorem chest_dl_init_alloc_failure_returns_success :
    lte_cell_isvalid cell_6prb = true ∧
    env_fail_freqavg.refsignal_cs_generate.1 = LIBLTE_SUCCESS ∧
    env_fail_freqavg.vec_malloc_tmp_freqavg = none ∧
    (chest_dl_init 10 4 env_fail_freqavg chest_dl_zero cell_6prb).1 = LIBLTE_SUCCESS ∧
    (chest_dl_init 10 4 env_fail_freqavg chest_dl_zero cell_6prb).2.csr_signal.isSome = true ∧
    (chest_dl_free (chest_dl_init 10 4 env_fail_freqavg chest_dl_zero cell_6prb).2).csr_signal.isSome
      = false := by
  refine ⟨by decide, rfl, rfl, ?_, ?_, rfl⟩
  · exact chest_dl_init_ret_of_generate_ok 10 4 env_fail_freqavg chest_dl_zero cell_6prb rfl
  · have hv : lte_cell_isvalid cell_6prb = true := by decide
    rw [chest_dl_init, if_pos hv]
    simp [init_clean_exit, env_fail_freqavg, env_ok]

/-- The allocation loop of the history vectors does not touch the time filter. -/
theorem init_tmp_timeavg_filter_time (env : init_env) (nof_prb n i : Nat) (q : chest_dl_t) :
    (init_tmp_timeavg env nof_prb n i q).2.filter_time_len = q.filter_time_len ∧
    (init_tmp_timeavg env nof_prb n i q).2.filter_time = q.filter_time := by
  induction n generalizing i q with
  | zero => exact ⟨rfl, rfl⟩
  | succ n ih =>
    simp only [init_tmp_timeavg]
    cases env.vec_malloc_tmp_timeavg i with
    | none => exact ⟨rfl, rfl⟩
    | some b => exact ih (i + 1) _

/-- The allocation loop of the per-port buffers does not touch the time filter. -/
theorem init_ports_filter_time (env : init_env) (n i : Nat) (q : chest_dl_t) :
    (init_ports env n i q).2.filter_time_len = q.filter_time_len ∧
    (init_ports env n i q).2.filter_time = q.filter_time := by
  induction n generalizing i q with
  | zero => exact ⟨rfl, rfl⟩
  | succ n ih =>
    simp only [init_ports]
    split_ifs
    · exact ⟨rfl, rfl⟩
    · exact ⟨rfl, rfl⟩
    · exact ⟨rfl, rfl⟩
    · exact ih (i + 1) _

/-- The exit label keeps a disabled time filter disabled. -/
theorem init_clean_exit_filter_time (ret : Int) (q : chest_dl_t)
    (h : q.filter_time_len = 0 ∧ q.filter_time = fun _ => 0) :
    (init_clean_exit ret q).2.filter_time_len = 0 ∧
    (init_clean_exit ret q).2.filter_time = fun _ => 0 := by
  simp only [init_clean_exit, chest_dl_free]
  split_ifs
  · exact ⟨rfl, rfl⟩
  · exact h

/-- Whatever the library calls return, a `chest_dl_init` on a valid cell leaves a time filter
of length 0 whose stored taps are all 0: the only call of the time setter passes
`filter_len = 0`. -/
theorem chest_dl_init_time_filter_len (F T : Nat) (env : init_env) (q : chest_dl_t)
    (cell : lte_cell_t) (hv : lte_cell_isvalid cell = true) :
    (chest_dl_init F T env q cell).2.filter_time_len = 0 ∧
    (chest_dl_init F T env q cell).2.filter_time = fun _ => 0 := by
  have h3 := init_tmp_timeavg_filter_time env cell.nof_prb T 0
    { chest_dl_zero with
      csr_signal := env.refsignal_cs_generate.2
      tmp_freqavg := env.vec_malloc_tmp_freqavg
      tmp_noise := env.vec_malloc_tmp_noise }
  have h4 := init_ports_filter_time env cell.nof_ports 0
    (init_tmp_timeavg env cell.nof_prb T 0
      { chest_dl_zero with
        csr_signal := env.refsignal_cs_generate.2
        tmp_freqavg := env.vec_malloc_tmp_freqavg
        tmp_noise := env.vec_malloc_tmp_noise }).2
  have hz1 : chest_dl_zero.filter_time_len = 0 := rfl
  have hz2 : chest_dl_zero.filter_time = fun _ => 0 := rfl
  have h5 := (h4.1.trans h3.1).trans hz1
  have h6 := (h4.2.trans h3.2).trans hz2
  rw [chest_dl_init, if_pos hv]
  dsimp only
  repeat' split
  all_goals apply init_clean_exit_filter_time
  · exact ⟨rfl, rfl⟩
  · exact ⟨rfl, rfl⟩
  · exact ⟨rfl, rfl⟩
  · exact ⟨h3.1.trans hz1, h3.2.trans hz2⟩
  · exact ⟨h5, h6⟩
  · exact ⟨h5, h6⟩
  · exact ⟨h5, h6⟩
  · refine ⟨?_, ?_⟩
    · simp only [chest_dl_set_filter_time, Nat.zero_le, if_true]
    · simp only [chest_dl_set_filter_time, chest_dl_set_filter_freq, Nat.zero_le, if_true,
        Nat.not_lt_zero, if_false]
      split_ifs <;> exact h6

/-- C4: after the successful `chest_dl_init 10 4 env_ok _ cell_6prb` the frequency filter is the
five taps {0.05, 0.15, 0.6, 0.15, 0.05}, but the time filter has length 0 (it was installed
with `filter_len = 0`) and its stored taps are 0, not {0.1, 0.9}. -/
theorem chest_dl_init_default_time_filter_empty :
    lte_cell_isvalid cell_6prb = true ∧
    (chest_dl_init 10 4 env_ok chest_dl_zero cell_6prb).1 = LIBLTE_SUCCESS ∧
    (chest_dl_init 10 4 env_ok chest_dl_zero cell_6prb).2.filter_freq_len = 5 ∧
    (chest_dl_init 10 4 env_ok chest_dl_zero cell_6prb).2.filter_freq 0 = 5 / 100 ∧
    (chest_dl_init 10 4 env_ok chest_dl_zero cell_6prb).2.filter_freq 1 = 15 / 100 ∧
    (chest_dl_init 10 4 env_ok chest_dl_zero cell_6prb).2.filter_freq 2 = 6 / 10 ∧
    (chest_dl_init 10 4 env_ok chest_dl_zero cell_6prb).2.filter_freq 3 = 15 / 100 ∧
    (chest_dl_init 10 4 env_ok chest_dl_zero cell_6prb).2.filter_freq 4 = 5 / 100 ∧
    (chest_dl_init 10 4 env_ok chest_dl_zero cell_6prb).2.filter_time_len = 0 ∧
    (chest_dl_init 10 4 env_ok chest_dl_zero cell_6prb).2.filter_time 0 = 0 ∧
    (chest_dl_init 10 4 env_ok chest_dl_zero cell_6prb).2.filter_time 1 = 0 := by
  have hv : lte_cell_isvalid cell_6prb = true := by decide
  refine ⟨hv, ?_, ?_, ?_, ?_, ?_, ?_, ?_, ?_, ?_, ?_⟩ <;>
    rw [chest_dl_init, if_pos hv] <;>
    simp [init_clean_exit, env_ok, init_tmp_timeavg, init_ports,
      chest_dl_set_filter_freq, chest_dl_set_filter_time, chest_dl_zero, LIBLTE_SUCCESS, init_f]

/-! ### Pilot averaging with both filters disabled -/

/-- With the frequency filter disabled, the first loop of `average_pilots` copies the slices
of the symbols `l .. l+n-1` from the LS estimates and touches nothing else. -/
theorem average_pilots_freq_loop_disabled (F : Nat) (q : chest_dl_t) (est : Buf)
    (h0 : q.filter_freq_len = 0) (n l : Nat) (tmp : Buf) :
    average_pilots_freq_loop F q est n l tmp =
      some (fun i =>
        if 2 * q.cell.nof_prb * l ≤ i ∧ i < 2 * q.cell.nof_prb * l + 2 * q.cell.nof_prb * n
        then est i else tmp i) := by
  induction n generalizing l tmp with
  | zero =>
    simp only [average_pilots_freq_loop, Nat.mul_zero, Nat.add_zero]
    congr 1
    funext i
    have : ¬ (2 * q.cell.nof_prb * l ≤ i ∧ i < 2 * q.cell.nof_prb * l) := by omega
    simp [this]
  | succ n ih =>
    simp only [average_pilots_freq_loop, average_pilots_freq, h0, gt_iff_lt, Nat.lt_irrefl,
      if_false, pure, Option.bind, ih]
    congr 1
    funext i
    simp only [store, view, REFSIGNAL_PILOT_IDX, Nat.mul_succ, Nat.add_zero]
    by_cases h1 : 2 * q.cell.nof_prb * l ≤ i ∧ i < 2 * q.cell.nof_prb * l + 2 * q.cell.nof_prb
    · have h2 : ¬ (2 * q.cell.nof_prb * l + 2 * q.cell.nof_prb ≤ i ∧
          i < 2 * q.cell.nof_prb * l + 2 * q.cell.nof_prb + 2 * q.cell.nof_prb * n) := by omega
      have h3 : 2 * q.cell.nof_prb * l ≤ i ∧
          i < 2 * q.cell.nof_prb * l + (2 * q.cell.nof_prb * n + 2 * q.cell.nof_prb) := by omega
      have h4 : 2 * q.cell.nof_prb * l + (i - 2 * q.cell.nof_prb * l) = i := by omega
      simp [h1, h2, h3, h4]
    · by_cases h2 : 2 * q.cell.nof_prb * l + 2 * q.cell.nof_prb ≤ i ∧
          i < 2 * q.cell.nof_prb * l + 2 * q.cell.nof_prb + 2 * q.cell.nof_prb * n
      · have h3 : 2 * q.cell.nof_prb * l ≤ i ∧
            i < 2 * q.cell.nof_prb * l + (2 * q.cell.nof_prb * n + 2 * q.cell.nof_prb) := by omega
        simp [h2, h3]
      · have h3 : ¬ (2 * q.cell.nof_prb * l ≤ i ∧
            i < 2 * q.cell.nof_prb * l + (2 * q.cell.nof_prb * n + 2 * q.cell.nof_prb)) := by omega
        simp [h1, h2, h3]

/-- With the time filter disabled, the second loop of `average_pilots` copies the slices of
the symbols `l .. l+n-1` from `tmp` into `avg` and leaves the history untouched. -/
theorem average_pilots_time_loop_disabled (T : Nat) (q : chest_dl_t) (tmp : Buf)
    (h0 : q.filter_time_len = 0) (n l : Nat) (ta : Nat → Option Buf) (avg : Buf) :
    average_pilots_time_loop T q tmp n l (ta, avg) =
      some (ta, fun i =>
        if 2 * q.cell.nof_prb * l ≤ i ∧ i < 2 * q.cell.nof_prb * l + 2 * q.cell.nof_prb * n
        then tmp i else avg i) := by
  induction n generalizing l avg with
  | zero =>
    simp only [average_pilots_time_loop, Nat.mul_zero, Nat.add_zero]
    congr 2
    funext i
    have : ¬ (2 * q.cell.nof_prb * l ≤ i ∧ i < 2 * q.cell.nof_prb * l) := by omega
    simp [this]
  | succ n ih =>
    simp only [average_pilots_time_loop, average_pilots_time, h0, gt_iff_lt, Nat.lt_irrefl,
      if_false, pure, Option.bind, ih]
    congr 2
    funext i
    simp only [store, view, REFSIGNAL_PILOT_IDX, Nat.mul_succ, Nat.add_zero]
    by_cases h1 : 2 * q.cell.nof_prb * l ≤ i ∧ i < 2 * q.cell.nof_prb * l + 2 * q.cell.nof_prb
    · have h2 : ¬ (2 * q.cell.nof_prb * l + 2 * q.cell.nof_prb ≤ i ∧
          i < 2 * q.cell.nof_prb * l + 2 * q.cell.nof_prb + 2 * q.cell.nof_prb * n) := by omega
      have h3 : 2 * q.cell.nof_prb * l ≤ i ∧
          i < 2 * q.cell.nof_prb * l + (2 * q.cell.nof_prb * n + 2 * q.cell.nof_prb) := by omega
      have h4 : 2 * q.cell.nof_prb * l + (i - 2 * q.cell.nof_prb * l) = i := by omega
      simp [h1, h2, h3, h4]
    · by_cases h2 : 2 * q.cell.nof_prb * l + 2 * q.cell.nof_prb ≤ i ∧
          i < 2 * q.cell.nof_prb * l + 2 * q.cell.nof_prb + 2 * q.cell.nof_prb * n
      · have h3 : 2 * q.cell.nof_prb * l ≤ i ∧
            i < 2 * q.cell.nof_prb * l + (2 * q.cell.nof_prb * n + 2 * q.cell.nof_prb) := by omega
        simp [h2, h3]
      · have h3 : ¬ (2 * q.cell.nof_prb * l ≤ i ∧
            i < 2 * q.cell.nof_prb * l + (2 * q.cell.nof_prb * n + 2 * q.cell.nof_prb)) := by omega
        simp [h1, h2, h3]

/-- C5: with both filters of length 0, `average_pilots` returns, the averaged estimates of
the port equal its LS estimates at every pilot index of the subframe, the LS estimates are
untouched and the time history buffers are not modified. -/
theorem average_pilots_passthrough (F T : Nat) (q : chest_dl_t) (port_id : Nat)
    (est tmp0 noise0 avg0 : Buf)
    (hf : q.filter_freq_len = 0) (ht : q.filter_time_len = 0)
    (hest : q.pilot_estimates port_id = some est) (htmp : q.tmp_freqavg = some tmp0)
    (hnoise : q.tmp_noise = some noise0)
    (havg : q.pilot_estimates_average port_id = some avg0) :
    ∃ q1 avg, average_pilots F T q port_id = some q1 ∧
      q1.pilot_estimates_average port_id = some avg ∧
      q1.pilot_estimates port_id = some est ∧
      (∀ i, i < REFSIGNAL_NUM_SF q.cell.nof_prb port_id → avg i = est i) ∧
      q1.tmp_timeavg = q.tmp_timeavg := by
  simp only [average_pilots, hest, htmp, hnoise, havg, Option.bind_eq_bind, Option.some_bind,
    Option.pure_def, average_pilots_freq_loop_disabled F q est hf,
    average_pilots_time_loop_disabled T q _ ht]
  refine ⟨_, _, rfl, Function.update_same _ _ _, hest, ?_, rfl⟩
  intro i hi
  simp only [REFSIGNAL_NUM_SF] at hi
  simp [hi]

/-- Witness for C5: the object `q_disabled` (after init, frequency filter set to length 0),
port 0. -/
theorem average_pilots_passthrough_witness :
    (q_disabled.filter_freq_len = 0 ∧ q_disabled.filter_time_len = 0) ∧
    ∃ q1 avg, average_pilots 10 4 q_disabled 0 = some q1 ∧
      q1.pilot_estimates_average 0 = some avg ∧
      q1.pilot_estimates 0 = some (fun _ => (7, 0)) ∧
      (∀ i, i < REFSIGNAL_NUM_SF q_disabled.cell.nof_prb 0 → avg i = (7, 0)) ∧
      q1.tmp_timeavg = q_disabled.tmp_timeavg :=
  ⟨⟨rfl, rfl⟩,
   average_pilots_passthrough 10 4 q_disabled 0 (fun _ => (7, 0)) (fun _ => (7, 0))
     (fun _ => (7, 0)) (fun _ => (7, 0)) rfl rfl rfl rfl rfl rfl⟩

/-! ### Pilot averaging with one-tap filters -/

/-- With a one-tap frequency filter the left edge correction reads tap index
`1/2 - 1 = 4294967295` (`uint32_t`), outside a tap array of any capacity below `2^32`: the
frequency step has no defined result, whatever the LS estimates. -/
theorem average_pilots_freq_single_tap_undefined (F : Nat) (q : chest_dl_t) (est : Buf)
    (l : Nat) (tmp : Buf) (hF : F < 2 ^ 32) (hlen : q.filter_freq_len = 1) :
    average_pilots_freq F q est l tmp = none := by
  have hidx : (1 / 2 + 2 ^ 32 - 1) % 2 ^ 32 = 4294967295 := by norm_num
  have hread : tap_read F q.filter_freq 4294967295 = none := by
    have : ¬ 4294967295 < F := by omega
    simp only [tap_read, this, if_false]
  have hpos : q.filter_freq_len > 0 := by omega
  rw [average_pilots_freq]
  simp only [if_pos hpos]
  rw [hlen, hidx, hread]
  rfl



/-- C6: on the object `q_one` (init, then both setters called with the single tap {1}, both
accepted) `average_pilots` does not return the LS estimates.  The left edge correction reads
`filter_freq[1/2 - 1]`, index 4294967295 in `uint32_t`, outside the array of 10 taps, so the
call has no defined result; the right edge correction reads `filter_freq[1/2 + 1]`, index 1,
outside the installed filter of length 1, which still holds the default tap 0.15, so the value
formed for the last pilot of a symbol is `ls + 0.15·(2·ls − ls)`: 8.05 and not the LS estimate
7. -/
theorem average_pilots_single_tap_not_identity :
    (chest_dl_set_filter_freq 10 q_init one_tap 1).1 = LIBLTE_SUCCESS ∧
    (chest_dl_set_filter_time 4 (chest_dl_set_filter_freq 10 q_init one_tap 1).2 one_tap 1).1
      = LIBLTE_SUCCESS ∧
    q_one.filter_freq_len = 1 ∧ q_one.filter_freq 0 = 1 ∧
    q_one.filter_time_len = 1 ∧ q_one.filter_time 0 = 1 ∧
    q_one.pilot_estimates 0 = some (fun _ => (7, 0)) ∧
    (q_one.filter_freq_len / 2 + 2 ^ 32 - 1) % 2 ^ 32 = 4294967295 ∧
    tap_read 10 q_one.filter_freq ((q_one.filter_freq_len / 2 + 2 ^ 32 - 1) % 2 ^ 32) = none ∧
    average_pilots 10 4 q_one 0 = none ∧
    tap_read 10 q_one.filter_freq (q_one.filter_freq_len / 2 + 1) = some (15 / 100) ∧
    conv_same_cf (fun _ => (7, 0)) q_one.filter_freq 12 q_one.filter_freq_len 11
        + (15 / 100 : ℚ) • interp_linear_onesample ((7, 0) : cf_t) (7, 0)
      = ((805 / 100, 0) : cf_t) := by
  refine ⟨rfl, rfl, rfl, rfl, rfl, rfl, rfl, rfl, rfl, rfl, rfl, ?_⟩
  have h1 : q_one.filter_freq_len = 1 := rfl
  have h2 : q_one.filter_freq 0 = 1 := rfl
  simp only [conv_same_cf, h1, Finset.sum_range_one, h2, interp_linear_onesample]
  norm_num

/-! ### The time stage always returns on an initialised object -/

/-- The shift loop returns when the history pointers it touches are non-null, and keeps every
pointer non-null or null as it was. -/
theorem average_pilots_shift_returns (nref : Nat) (n i : Nat) (ta : Nat → Option Buf)
    (h : ∀ j, j ≤ i + n → (ta j).isSome = true) :
    ∃ ta1, average_pilots_shift nref n i ta = some ta1 ∧
      ∀ j, (ta1 j).isSome = (ta j).isSome := by
  induction n generalizing i ta with
  | zero => exact ⟨ta, rfl, fun _ => rfl⟩
  | succ n ih =>
    obtain ⟨dst, hdst⟩ := Option.isSome_iff_exists.mp (h i (by omega))
    obtain ⟨src, hsrc⟩ := Option.isSome_iff_exists.mp (h (i + 1) (by omega))
    have hpres : ∀ j, (Function.update ta i (some (store dst 0 nref src)) j).isSome
        = (ta j).isSome := by
      intro j
      by_cases hj : j = i
      · subst hj
        simp [hdst]
      · simp [Function.update_noteq hj]
    obtain ⟨ta1, h1, h2⟩ := ih (i + 1) (Function.update ta i (some (store dst 0 nref src)))
      (fun j hj => by rw [hpres]; exact h j (by omega))
    refine ⟨ta1, ?_, fun j => by rw [h2, hpres]⟩
    simp only [average_pilots_shift, hdst, hsrc, Option.bind_eq_bind, Option.some_bind]
    exact h1

/-- The accumulation loop returns when the history pointers it touches are non-null and the
taps it reads lie inside the tap array, and keeps every pointer non-null or null as it was. -/
theorem average_pilots_acc_returns (T : Nat) (q : chest_dl_t) (nref off : Nat) (n i : Nat)
    (ta : Nat → Option Buf) (avg : Buf) (hT : i + n ≤ T)
    (h : ∀ j, j < i + n → (ta j).isSome = true) :
    ∃ s, average_pilots_acc T q nref off n i (ta, avg) = some s ∧
      ∀ j, (s.1 j).isSome = (ta j).isSome := by
  induction n generalizing i ta avg with
  | zero => exact ⟨(ta, avg), rfl, fun _ => rfl⟩
  | succ n ih =>
    obtain ⟨x, hx⟩ := Option.isSome_iff_exists.mp (h i (by omega))
    have htap : tap_read T q.filter_time i = some (q.filter_time i) := by
      have : i < T := by omega
      simp [tap_read, this]
    have hpres : ∀ j, (Function.update ta i
        (some (store x 0 nref (vec_sc_prod_cfc x (q.filter_time i)))) j).isSome
          = (ta j).isSome := by
      intro j
      by_cases hj : j = i
      · subst hj
        simp [hx]
      · simp [Function.update_noteq hj]
    obtain ⟨s, h1, h2⟩ := ih (i + 1)
      (Function.update ta i (some (store x 0 nref (vec_sc_prod_cfc x (q.filter_time i)))))
      (store avg off nref
        (vec_sum_ccc (store x 0 nref (vec_sc_prod_cfc x (q.filter_time i))) (view avg off)))
      (by omega) (fun j hj => by rw [hpres]; exact h j (by omega))
    refine ⟨s, ?_, fun j => by rw [h2, hpres]⟩
    simp only [average_pilots_acc, hx, htap, Option.bind_eq_bind, Option.some_bind]
    exact h1

/-- One time-filtering step returns when the filter fits the tap array and the first `T`
history pointers are non-null. -/
theorem average_pilots_time_returns (T : Nat) (q : chest_dl_t) (tmp : Buf) (l : Nat)
    (s : (Nat → Option Buf) × Buf) (hT : q.filter_time_len ≤ T)
    (h : ∀ j, j < T → (s.1 j).isSome = true) :
    ∃ s1, average_pilots_time T q tmp l s = some s1 ∧
      ∀ j, (s1.1 j).isSome = (s.1 j).isSome := by
  by_cases hk : q.filter_time_len > 0
  · obtain ⟨ta1, h1, h2⟩ := average_pilots_shift_returns (2 * q.cell.nof_prb)
      (q.filter_time_len - 1) 0 s.1 (fun j hj => h j (by omega))
    obtain ⟨last, hlast⟩ := Option.isSome_iff_exists.mp
      ((h2 (q.filter_time_len - 1)).trans (h (q.filter_time_len - 1) (by omega)))
    have hpres : ∀ j, (Function.update ta1 (q.filter_time_len - 1)
        (some (store last 0 (2 * q.cell.nof_prb)
          (view tmp (REFSIGNAL_PILOT_IDX 0 l q.cell)))) j).isSome = (s.1 j).isSome := by
      intro j
      by_cases hj : j = q.filter_time_len - 1
      · subst hj
        simp [← h2, hlast]
      · simp [Function.update_noteq hj, h2]
    obtain ⟨s1, h3, h4⟩ := average_pilots_acc_returns T q (2 * q.cell.nof_prb)
      (REFSIGNAL_PILOT_IDX 0 l q.cell) q.filter_time_len 0
      (Function.update ta1 (q.filter_time_len - 1)
        (some (store last 0 (2 * q.cell.nof_prb) (view tmp (REFSIGNAL_PILOT_IDX 0 l q.cell)))))
      (store s.2 (REFSIGNAL_PILOT_IDX 0 l q.cell) (2 * q.cell.nof_prb) (fun _ => 0))
      (by omega) (fun j hj => by rw [hpres]; exact h j (by omega))
    refine ⟨s1, ?_, fun j => by rw [h4, hpres]⟩
    simp only [average_pilots_time, hk, if_true, h1, hlast, Option.bind_eq_bind,
      Option.some_bind]
    exact h3
  · refine ⟨(s.1, store s.2 (REFSIGNAL_PILOT_IDX 0 l q.cell) (2 * q.cell.nof_prb)
      (view tmp (REFSIGNAL_PILOT_IDX 0 l q.cell))), ?_, fun _ => rfl⟩
    simp only [average_pilots_time, hk, if_false]
    rfl

/-- The second loop of `average_pilots` returns when the filter fits the tap array and the
first `T` history pointers are non-null. -/
theorem average_pilots_time_loop_returns (T : Nat) (q : chest_dl_t) (tmp : Buf) (n l : Nat)
    (s : (Nat → Option Buf) × Buf) (hT : q.filter_time_len ≤ T)
    (h : ∀ j, j < T → (s.1 j).isSome = true) :
    ∃ s1, average_pilots_time_loop T q tmp n l s = some s1 := by
  induction n generalizing l s with
  | zero => exact ⟨s, rfl⟩
  | succ n ih =>
    obtain ⟨s1, h1, h2⟩ := average_pilots_time_returns T q tmp l s hT h
    obtain ⟨s2, h3⟩ := ih (l + 1) s1 (fun j hj => by rw [h2]; exact h j hj)
    exact ⟨s2, by simp only [average_pilots_time_loop, h1, Option.bind]; exact h3⟩

/-! ### The default frequency stage on a constant channel -/

/-- The five-tap convolution of a constant sequence: the implicit zeros remove the taps that
fall outside the sequence. -/
theorem conv_same_cf_default_const (x : Buf) (taps : Nat → ℚ) (n : Nat) (h : cf_t)
    (htaps : ∀ j, j < 5 → taps j = init_f j) (hx : ∀ k, k < n → x k = h)
    (i : Nat) (hi : i < n) :
    conv_same_cf x taps n 5 i =
      ((if 2 ≤ i then (1 / 20 : ℚ) else 0) + (if 1 ≤ i then (3 / 20 : ℚ) else 0) + 3 / 5
        + (if i + 1 < n then (3 / 20 : ℚ) else 0) + (if i + 2 < n then (1 / 20 : ℚ) else 0)) • h := by
  have term : ∀ (j : Nat) (t : ℚ),
      (if 5 / 2 ≤ i + j ∧ i + j - 5 / 2 < n then t • x (i + j - 5 / 2) else 0)
        = (if 2 ≤ i + j ∧ i + j < n + 2 then t else 0) • h := by
    intro j t
    by_cases hc : 2 ≤ i + j ∧ i + j < n + 2
    · have hc2 : 5 / 2 ≤ i + j ∧ i + j - 5 / 2 < n := by omega
      rw [if_pos hc, if_pos hc2, hx _ hc2.2]
    · have hc2 : ¬ (5 / 2 ≤ i + j ∧ i + j - 5 / 2 < n) := by omega
      rw [if_neg hc, if_neg hc2, zero_smul]
  have e0 : (2 ≤ i + 0 ∧ i + 0 < n + 2) ↔ 2 ≤ i := by omega
  have e1 : (2 ≤ i + 1 ∧ i + 1 < n + 2) ↔ 1 ≤ i := by omega
  have e2 : (2 ≤ i + 2 ∧ i + 2 < n + 2) ↔ True := by simp; omega
  have e3 : (2 ≤ i + 3 ∧ i + 3 < n + 2) ↔ i + 1 < n := by omega
  have e4 : (2 ≤ i + 4 ∧ i + 4 < n + 2) ↔ i + 2 < n := by omega
  simp only [conv_same_cf, Finset.sum_range_succ, Finset.range_zero, Finset.sum_empty, zero_add,
    term, htaps 0 (by decide), htaps 1 (by decide), htaps 2 (by decide), htaps 3 (by decide),
    htaps 4 (by decide), init_f, e0, e1, e2, e3, e4, if_true, ← add_smul]
  congr 1
  norm_num

/-- One frequency-filtering step with the default five taps on a slice where the LS estimates
are the constant `h`: the step returns, the slice of `tmp` holds `default_edge_gain · h`, and
nothing outside the slice changes. -/
theorem average_pilots_freq_default_const (F : Nat) (q : chest_dl_t) (est : Buf) (l : Nat)
    (tmp : Buf) (h : cf_t) (hF : 4 ≤ F) (hlen : q.filter_freq_len = 5)
    (htaps : ∀ j, j < 5 → q.filter_freq j = init_f j) (hprb : 2 ≤ q.cell.nof_prb)
    (hest : ∀ k, k < 2 * q.cell.nof_prb → est (2 * q.cell.nof_prb * l + k) = h) :
    ∃ tmp1, average_pilots_freq F q est l tmp = some tmp1 ∧
      (∀ i, i < 2 * q.cell.nof_prb →
        tmp1 (2 * q.cell.nof_prb * l + i) = default_edge_gain (2 * q.cell.nof_prb) i • h) ∧
      (∀ idx, ¬ (2 * q.cell.nof_prb * l ≤ idx ∧
        idx < 2 * q.cell.nof_prb * l + 2 * q.cell.nof_prb) → tmp1 idx = tmp idx) := by
  have hi0 : (5 / 2 + 2 ^ 32 - 1) % 2 ^ 32 = 1 := by norm_num
  have hi1 : 5 / 2 + 1 = 3 := by norm_num
  have ht0 : tap_read F q.filter_freq 1 = some (3 / 20) := by
    have : 1 < F := by omega
    simp [tap_read, this, htaps 1 (by decide), init_f]
    norm_num
  have ht1 : tap_read F q.filter_freq 3 = some (3 / 20) := by
    have : 3 < F := by omega
    simp [tap_read, this, htaps 3 (by decide), init_f]
    norm_num
  have hconv := conv_same_cf_default_const (view est (2 * q.cell.nof_prb * l)) q.filter_freq
    (2 * q.cell.nof_prb) h htaps (fun k hk => hest k hk)
  have hone : interp_linear_onesample h h = h := by
    simp only [interp_linear_onesample]
    module
  simp only [average_pilots_freq, hlen, gt_iff_lt, if_true, hi0, hi1, ht0, ht1,
    Option.bind_eq_bind, Option.some_bind, Option.pure_def, show (0 : Nat) < 5 by decide]
  refine ⟨_, rfl, ?_, ?_⟩
  · intro i hi
    simp only [REFSIGNAL_PILOT_IDX, Nat.add_zero]
    have e1 : est (2 * q.cell.nof_prb * l + 1) = h := hest 1 (by omega)
    have e0 : est (2 * q.cell.nof_prb * l) = h := by simpa using hest 0 (by omega)
    have e2 : est (2 * q.cell.nof_prb * l + (2 * q.cell.nof_prb - 2)) = h := hest _ (by omega)
    have e3 : est (2 * q.cell.nof_prb * l + (2 * q.cell.nof_prb - 1)) = h := hest _ (by omega)
    rw [e0, e1, e2, e3, hone]
    have hst : ∀ k, k < 2 * q.cell.nof_prb →
        store tmp (2 * q.cell.nof_prb * l) (2 * q.cell.nof_prb)
          (conv_same_cf (view est (2 * q.cell.nof_prb * l)) q.filter_freq (2 * q.cell.nof_prb) 5)
          (2 * q.cell.nof_prb * l + k)
        = conv_same_cf (view est (2 * q.cell.nof_prb * l)) q.filter_freq (2 * q.cell.nof_prb) 5 k := by
      intro k hk
      have : 2 * q.cell.nof_prb * l ≤ 2 * q.cell.nof_prb * l + k ∧
          2 * q.cell.nof_prb * l + k < 2 * q.cell.nof_prb * l + 2 * q.cell.nof_prb := by omega
      simp [store, this]
    by_cases hlast : i = 2 * q.cell.nof_prb - 1
    · subst hlast
      rw [Function.update_same, Function.update_noteq (by omega), hst _ hi, hconv _ hi,
        ← add_smul]
      congr 1
      have c1 : 2 ≤ 2 * q.cell.nof_prb - 1 := by omega
      have c2 : 1 ≤ 2 * q.cell.nof_prb - 1 := by omega
      have c3 : ¬ (2 * q.cell.nof_prb - 1 + 1 < 2 * q.cell.nof_prb) := by omega
      have c4 : ¬ (2 * q.cell.nof_prb - 1 + 2 < 2 * q.cell.nof_prb) := by omega
      have c5 : 2 * q.cell.nof_prb - 1 < 2 ∨ 2 * q.cell.nof_prb ≤ 2 * q.cell.nof_prb - 1 + 2 := by
        omega
      simp only [default_edge_gain, c1, c2, c3, c4, c5, if_true, if_false]
      norm_num
    · rw [Function.update_noteq (by omega)]
      by_cases hfirst : i = 0
      · subst hfirst
        rw [Nat.add_zero, Function.update_same]
        have := hst 0 (by omega)
        rw [Nat.add_zero] at this
        rw [this, hconv _ (by omega), ← add_smul]
        congr 1
        have c3 : 0 + 1 < 2 * q.cell.nof_prb := by omega
        have c4 : 0 + 2 < 2 * q.cell.nof_prb := by omega
        simp only [default_edge_gain, c3, c4, if_true]
        norm_num
      · rw [Function.update_noteq (by omega), hst _ hi, hconv _ hi]
        congr 1
        simp only [default_edge_gain]
        split_ifs <;> first | (exfalso; omega) | norm_num
  · intro idx hidx
    simp only [REFSIGNAL_PILOT_IDX, Nat.add_zero]
    rw [Function.update_noteq (by omega), Function.update_noteq (by omega)]
    simp [store, hidx]

/-- The first loop of `average_pilots` with the default five taps on LS estimates that are
the constant `h`: it returns, and every processed slice holds `default_edge_gain · h`. -/
theorem average_pilots_freq_loop_default_const (F : Nat) (q : chest_dl_t) (est : Buf)
    (h : cf_t) (hF : 4 ≤ F) (hlen : q.filter_freq_len = 5)
    (htaps : ∀ j, j < 5 → q.filter_freq j = init_f j) (hprb : 2 ≤ q.cell.nof_prb)
    (n l : Nat) (tmp : Buf)
    (hest : ∀ k, k < 2 * q.cell.nof_prb * l + 2 * q.cell.nof_prb * n → est k = h) :
    ∃ tmp1, average_pilots_freq_loop F q est n l tmp = some tmp1 ∧
      (∀ l1 i, l ≤ l1 → l1 < l + n → i < 2 * q.cell.nof_prb →
        tmp1 (2 * q.cell.nof_prb * l1 + i) = default_edge_gain (2 * q.cell.nof_prb) i • h) ∧
      (∀ idx, idx < 2 * q.cell.nof_prb * l → tmp1 idx = tmp idx) := by
  induction n generalizing l tmp with
  | zero => exact ⟨tmp, rfl, fun l1 i h1 h2 => by omega, fun _ _ => rfl⟩
  | succ n ih =>
    have hsucc : 2 * q.cell.nof_prb * (n + 1) = 2 * q.cell.nof_prb * n + 2 * q.cell.nof_prb :=
      Nat.mul_succ _ _
    have hsuccl : 2 * q.cell.nof_prb * (l + 1) = 2 * q.cell.nof_prb * l + 2 * q.cell.nof_prb :=
      Nat.mul_succ _ _
    obtain ⟨tmpA, hA, hA1, hA2⟩ := average_pilots_freq_default_const F q est l tmp h hF hlen
      htaps hprb (fun k hk => hest _ (by omega))
    obtain ⟨tmp1, hB, hB1, hB2⟩ := ih (l + 1) tmpA (fun k hk => hest k (by omega))
    refine ⟨tmp1, ?_, ?_, ?_⟩
    · simp only [average_pilots_freq_loop, hA, Option.bind]
      exact hB
    · intro l1 i h1 h2 hi
      by_cases hl : l1 = l
      · subst hl
        rw [hB2 _ (by omega)]
        exact hA1 i hi
      · exact hB1 l1 i (by omega) (by omega) hi
    · intro idx hidx
      rw [hB2 idx (by omega)]
      exact hA2 idx (by omega)

/-- A sum over `n` consecutive slices of length `m` whose terms depend only on the position
inside the slice. -/
theorem sum_over_slices (f : Nat → ℚ) (g : Nat → ℚ) (m n : Nat)
    (hf : ∀ l i, l < n → i < m → f (m * l + i) = g i) :
    ∑ idx ∈ Finset.range (m * n), f idx = n * ∑ i ∈ Finset.range m, g i := by
  induction n with
  | zero => simp
  | succ n ih =>
    rw [Nat.mul_succ, Finset.sum_range_add, ih (fun l i hl hi => hf l i (by omega) hi)]
    have : ∑ x ∈ Finset.range m, f (m * n + x) = ∑ i ∈ Finset.range m, g i :=
      Finset.sum_congr rfl (fun x hx => hf n x (by omega) (Finset.mem_range.mp hx))
    rw [this]
    push_cast
    ring

/-- A slice of at least four pilots has exactly four edge pilots (two at each end). -/
theorem sum_over_edges (c : ℚ) (m : Nat) (hm : 4 ≤ m) :
    ∑ i ∈ Finset.range m, (if i < 2 ∨ m ≤ i + 2 then c else 0) = 4 * c := by
  obtain ⟨k, rfl⟩ : ∃ k, m = k + 4 := ⟨m - 4, by omega⟩
  rw [Finset.sum_range_succ, Finset.sum_range_succ, Finset.sum_range_succ',
    Finset.sum_range_succ']
  have hmid : ∑ i ∈ Finset.range k, (if i + 1 + 1 < 2 ∨ k + 4 ≤ i + 1 + 1 + 2 then c else 0)
      = 0 := by
    apply Finset.sum_eq_zero
    intro i hi
    have hi2 := Finset.mem_range.mp hi
    have : ¬ (i + 1 + 1 < 2 ∨ k + 4 ≤ i + 1 + 1 + 2) := by omega
    rw [if_neg this]
  have h1 : (0 + 1 < 2 ∨ k + 4 ≤ 0 + 1 + 2) := by omega
  have h0 : (0 < 2 ∨ k + 4 ≤ 0 + 2) := by omega
  have h2 : (k + 2 < 2 ∨ k + 4 ≤ k + 2 + 2) := by omega
  have h3 : (k + 2 + 1 < 2 ∨ k + 4 ≤ k + 2 + 1 + 2) := by omega
  rw [hmid, if_pos h0, if_pos h1, if_pos h2, if_pos h3]
  ring

/-- Squared magnitude of a real multiple of a sample. -/
theorem cf_norm_sq_smul (r : ℚ) (x : cf_t) : cf_norm_sq (r • x) = r * r * cf_norm_sq x := by
  simp only [cf_norm_sq, Prod.smul_fst, Prod.smul_snd, smul_eq_mul]
  ring

/-- Mean residual power of the default frequency stage on a constant channel: the four edge
pilots of each symbol carry the residual `−0.05·h`, the others none. -/
theorem noise_power_default_const (nof_prb nsym : Nat) (tmp1 est noise0 : Buf) (h : cf_t)
    (hprb : 2 ≤ nof_prb) (hsym : 0 < nsym)
    (htmp : ∀ l i, l < nsym → i < 2 * nof_prb →
      tmp1 (2 * nof_prb * l + i) = default_edge_gain (2 * nof_prb) i • h)
    (hest : ∀ k, k < 2 * nof_prb * nsym → est k = h) :
    vec_avg_power_cf (store noise0 0 (2 * nof_prb * nsym) (vec_sub_ccc tmp1 est))
      (2 * nof_prb * nsym) = cf_norm_sq h / (200 * nof_prb) := by
  have hN : 2 * nof_prb * nsym ≠ 0 := by positivity
  have hsum : ∑ idx ∈ Finset.range (2 * nof_prb * nsym),
      cf_norm_sq (store noise0 0 (2 * nof_prb * nsym) (vec_sub_ccc tmp1 est) idx)
      = nsym * (4 * (1 / 400 * cf_norm_sq h)) := by
    rw [← sum_over_edges (1 / 400 * cf_norm_sq h) (2 * nof_prb) (by omega)]
    apply sum_over_slices
    intro l i hl hi
    have hlt : 2 * nof_prb * l + i < 2 * nof_prb * nsym := by
      calc 2 * nof_prb * l + i < 2 * nof_prb * l + 2 * nof_prb := by omega
        _ = 2 * nof_prb * (l + 1) := (Nat.mul_succ _ _).symm
        _ ≤ 2 * nof_prb * nsym := Nat.mul_le_mul_left _ hl
    have hst : store noise0 0 (2 * nof_prb * nsym) (vec_sub_ccc tmp1 est) (2 * nof_prb * l + i)
        = (default_edge_gain (2 * nof_prb) i - 1) • h := by
      simp only [store, Nat.zero_le, Nat.zero_add, hlt, and_self, if_true, Nat.sub_zero,
        vec_sub_ccc, htmp l i hl hi, hest _ hlt, sub_smul, one_smul]
    rw [hst, cf_norm_sq_smul]
    simp only [default_edge_gain]
    split_ifs <;> norm_num
  rw [vec_avg_power_cf, if_neg hN, hsum]
  have h1 : (nsym : ℚ) ≠ 0 := by positivity
  have h2 : (nof_prb : ℚ) ≠ 0 := by
    have : 0 < nof_prb := by omega
    positivity
  push_cast
  field_simp
  ring

/-- The result of `average_pilots` with the default five taps when the LS estimates of the
port are the constant `h`: the call returns, and the noise estimate of the port is
`|h|² / (200·nof_prb)`; the pointers and the cell of the object are unchanged. -/
theorem average_pilots_noise_default_const (F T : Nat) (q : chest_dl_t) (port_id : Nat)
    (est tmp0 noise0 avg0 : Buf) (h : cf_t)
    (hF : 4 ≤ F) (hlen : q.filter_freq_len = 5)
    (htaps : ∀ j, j < 5 → q.filter_freq j = init_f j) (hprb : 2 ≤ q.cell.nof_prb)
    (hT : q.filter_time_len ≤ T) (hta : ∀ j, j < T → (q.tmp_timeavg j).isSome = true)
    (hest : q.pilot_estimates port_id = some est) (htmp : q.tmp_freqavg = some tmp0)
    (hnoise : q.tmp_noise = some noise0)
    (havg : q.pilot_estimates_average port_id = some avg0)
    (hconst : ∀ k, k < REFSIGNAL_NUM_SF q.cell.nof_prb port_id → est k = h) :
    ∃ q1, average_pilots F T q port_id = some q1 ∧
      q1.noise_estimate port_id = cf_norm_sq h / (200 * q.cell.nof_prb) ∧
      (q1.pilot_estimates_average port_id).isSome = true ∧
      q1.interp_lin = q.interp_lin ∧ q1.interp_linvec = q.interp_linvec ∧
      q1.cell = q.cell := by
  have hsym : 0 < refsignal_cs_nof_symbols port_id := by
    simp only [refsignal_cs_nof_symbols]
    split_ifs <;> decide
  obtain ⟨tmp1, hB, hB1, _⟩ := average_pilots_freq_loop_default_const F q est h hF hlen htaps
    hprb (refsignal_cs_nof_symbols port_id) 0 tmp0
    (fun k hk => hconst k (by simpa [REFSIGNAL_NUM_SF] using hk))
  obtain ⟨s1, hs⟩ := average_pilots_time_loop_returns T q tmp1
    (refsignal_cs_nof_symbols port_id) 0 (q.tmp_timeavg, avg0) hT hta
  simp only [average_pilots, hest, htmp, hB, hnoise, havg, hs, Option.bind_eq_bind,
    Option.some_bind, Option.pure_def]
  refine ⟨_, rfl, ?_, ?_, rfl, rfl, rfl⟩
  · simp only [Function.update_same, estimate_noise_port, REFSIGNAL_NUM_SF]
    exact noise_power_default_const q.cell.nof_prb (refsignal_cs_nof_symbols port_id) tmp1 est
      noise0 h hprb hsym (fun l i hl hi => hB1 l i (Nat.zero_le _) (by omega) hi)
      (fun k hk => hconst k (by simpa [REFSIGNAL_NUM_SF] using hk))
  · simp only [Function.update_same, Option.isSome_some]

/-! ### The noise estimate of `chest_dl_estimate_port` on a constant channel -/

/-- The function `chest_dl_estimate_port` on an initialised object carrying the default five frequency taps,
when the LS estimates of the port are the constant `h`: the call returns and leaves the
noise estimate `|h|² / (200·nof_prb)` for the port. -/
theorem chest_dl_estimate_port_noise_default_const (F T : Nat)
    (fidx : lte_cell_t → Nat → Nat → Nat) (q : chest_dl_t) (input : Buf) (ce : Option Buf)
    (sf_idx port_id : Nat) (recv0 est0 tmp0 noise0 avg0 : Buf) (csr : Nat → Nat → Buf)
    (h : cf_t) (hF : 4 ≤ F) (hlen : q.filter_freq_len = 5)
    (htaps : ∀ j, j < 5 → q.filter_freq j = init_f j) (hprb : 2 ≤ q.cell.nof_prb)
    (hT : q.filter_time_len ≤ T) (hta : ∀ j, j < T → (q.tmp_timeavg j).isSome = true)
    (hrecv : q.pilot_recv_signal port_id = some recv0) (hcsr : q.csr_signal = some csr)
    (hest : q.pilot_estimates port_id = some est0) (htmp : q.tmp_freqavg = some tmp0)
    (hnoise : q.tmp_noise = some noise0)
    (havg : q.pilot_estimates_average port_id = some avg0)
    (hlin : q.interp_lin.isSome = true) (hlinvec : q.interp_linvec.isSome = true)
    (hls : ∀ k, k < REFSIGNAL_NUM_SF q.cell.nof_prb port_id →
      vec_prod_conj_ccc (refsignal_cs_get_sf fidx q.cell port_id input recv0)
        (csr (port_id / 2) sf_idx) k = h) :
    ∃ r, chest_dl_estimate_port F T fidx q input ce sf_idx port_id = some r ∧
      r.2.1.noise_estimate port_id = cf_norm_sq h / (200 * q.cell.nof_prb) := by
  obtain ⟨q2, h2, hn, havg2, hl2, hlv2, _⟩ := average_pilots_noise_default_const F T
    { q with
      csr_signal := some csr
      pilot_recv_signal := Function.update q.pilot_recv_signal port_id
        (some (refsignal_cs_get_sf fidx q.cell port_id input recv0))
      pilot_estimates := Function.update q.pilot_estimates port_id
        (some (store est0 0 (REFSIGNAL_NUM_SF q.cell.nof_prb port_id)
          (vec_prod_conj_ccc (refsignal_cs_get_sf fidx q.cell port_id input recv0)
            (csr (port_id / 2) sf_idx)))) }
    port_id _ tmp0 noise0 avg0 h hF hlen htaps hprb hT hta (Function.update_same _ _ _) htmp
    hnoise havg
    (fun k hk => by
      have hk2 : k < REFSIGNAL_NUM_SF q.cell.nof_prb port_id := hk
      simp only [store, Nat.zero_le, Nat.zero_add, hk2, and_self, if_true, Nat.sub_zero]
      exact hls k hk2)
  dsimp only at hn hl2 hlv2
  obtain ⟨avg2, havg2⟩ := Option.isSome_iff_exists.mp havg2
  obtain ⟨lin, hlin⟩ := Option.isSome_iff_exists.mp hlin
  obtain ⟨linvec, hlinvec⟩ := Option.isSome_iff_exists.mp hlinvec
  simp only [chest_dl_estimate_port, hrecv, hcsr, hest, Option.bind_eq_bind, Option.some_bind,
    h2, chest_dl_rsrp, havg2, Option.pure_def]
  cases ce with
  | none =>
    refine ⟨_, rfl, ?_⟩
    by_cases hp : port_id = 0
    · simp only [if_pos hp]
      exact hn
    · simp only [if_neg hp]
      exact hn
  | some c =>
    have hi : ∀ q4 : chest_dl_t, q4.pilot_estimates_average = q2.pilot_estimates_average →
        q4.interp_lin = q2.interp_lin → q4.interp_linvec = q2.interp_linvec →
        interpolate_pilots fidx q4 c port_id =
          some (interpolate_pilots_time q4 linvec (refsignal_cs_nof_symbols port_id)
            (interpolate_pilots_freq fidx q4 lin avg2 port_id
              (refsignal_cs_nof_symbols port_id) 0 c)) := by
      intro q4 e1 e2 e3
      simp only [interpolate_pilots, e1, e2, e3, havg2, hl2, hlv2, hlin, hlinvec,
        Option.bind_eq_bind, Option.some_bind, Option.pure_def]
    by_cases hp : port_id = 0
    · simp only [if_pos hp]
      rw [hi]
      · exact ⟨_, rfl, hn⟩
      · rfl
      · rfl
      · rfl
    · simp only [if_neg hp]
      rw [hi]
      · exact ⟨_, rfl, hn⟩
      · rfl
      · rfl
      · rfl

/-- On `q_init` with the grid `grid_seven` the LS estimates of port 0 are the constant
`7 + 0j` (the known pilots of `env_ok` are all `1 + 0j`). -/
theorem q_init_ls_constant (k : Nat) :
    k < REFSIGNAL_NUM_SF q_init.cell.nof_prb 0 →
    vec_prod_conj_ccc (refsignal_cs_get_sf fidx_zero q_init.cell 0 grid_seven (fun _ => (7, 0)))
      ((fun _ _ _ => (1, 0)) (0 / 2) 0) k = ((7, 0) : cf_t) := by
  intro hk
  simp [vec_prod_conj_ccc, refsignal_cs_get_sf, store, hk, grid_seven, cf_mul, cf_conj]

/-- The five stored frequency taps of `q_init` are the array `f`. -/
theorem q_init_taps (j : Nat) (hj : j < 5) : q_init.filter_freq j = init_f j := by
  show (if j < 5 then init_f j else _) = init_f j
  rw [if_pos hj]

/-- The four history pointers of `q_init` are non-null. -/
theorem q_init_timeavg (j : Nat) (hj : j < 4) : (q_init.tmp_timeavg j).isSome = true := by
  interval_cases j <;> rfl

/-- C7 (amended): on an initialised object carrying the default five frequency taps (cell of
at least 2 PRB, time filter within its capacity), if the LS estimates of a port are the same
value `h` at every pilot of the subframe, `chest_dl_estimate_port` returns and the noise
estimate of the port is `|h|² / (200·nof_prb)`: the residual is `−0.05·h` at the two
outermost pilots of each end of every pilot symbol and 0 elsewhere. -/
theorem estimate_port_noise_constant_channel (F T : Nat)
    (fidx : lte_cell_t → Nat → Nat → Nat) (q : chest_dl_t) (input : Buf) (ce : Option Buf)
    (sf_idx port_id : Nat) (recv0 est0 tmp0 noise0 avg0 : Buf) (csr : Nat → Nat → Buf)
    (h : cf_t) (hF : 4 ≤ F) (hlen : q.filter_freq_len = 5)
    (htaps : ∀ j, j < 5 → q.filter_freq j = init_f j) (hprb : 2 ≤ q.cell.nof_prb)
    (hT : q.filter_time_len ≤ T) (hta : ∀ j, j < T → (q.tmp_timeavg j).isSome = true)
    (hrecv : q.pilot_recv_signal port_id = some recv0) (hcsr : q.csr_signal = some csr)
    (hest : q.pilot_estimates port_id = some est0) (htmp : q.tmp_freqavg = some tmp0)
    (hnoise : q.tmp_noise = some noise0)
    (havg : q.pilot_estimates_average port_id = some avg0)
    (hlin : q.interp_lin.isSome = true) (hlinvec : q.interp_linvec.isSome = true)
    (hls : ∀ k, k < REFSIGNAL_NUM_SF q.cell.nof_prb port_id →
      vec_prod_conj_ccc (refsignal_cs_get_sf fidx q.cell port_id input recv0)
        (csr (port_id / 2) sf_idx) k = h) :
    ∃ r, chest_dl_estimate_port F T fidx q input ce sf_idx port_id = some r ∧
      r.2.1.noise_estimate port_id = cf_norm_sq h / (200 * q.cell.nof_prb) :=
  chest_dl_estimate_port_noise_default_const F T fidx q input ce sf_idx port_id recv0 est0 tmp0
    noise0 avg0 csr h hF hlen htaps hprb hT hta hrecv hcsr hest htmp hnoise havg hlin hlinvec hls

/-- Witness for C7 (amended): `q_init`, port 0, the grid `grid_seven`, no output grid. -/
theorem estimate_port_noise_constant_channel_witness :
    ∃ r, chest_dl_estimate_port 10 4 fidx_zero q_init grid_seven none 0 0 = some r ∧
      r.2.1.noise_estimate 0 = cf_norm_sq ((7, 0) : cf_t) / (200 * q_init.cell.nof_prb) :=
  estimate_port_noise_constant_channel 10 4 fidx_zero q_init grid_seven none 0 0
    (fun _ => (7, 0)) (fun _ => (7, 0)) (fun _ => (7, 0)) (fun _ => (7, 0)) (fun _ => (7, 0))
    (fun _ _ _ => (1, 0)) (7, 0) (by decide) rfl q_init_taps (by decide) (by decide)
    q_init_timeavg rfl rfl rfl rfl rfl rfl rfl rfl q_init_ls_constant

/-- C7 (counterexample): on `q_init` (default five-tap frequency filter, residual-based noise
estimator) with the constant channel `h = 7 + 0j` (LS estimate 7 at every pilot of port 0),
`chest_dl_estimate_port` leaves the noise estimate 49/1200, not 0. -/
theorem constant_channel_noise_is_nonzero :
    (∀ k, k < REFSIGNAL_NUM_SF q_init.cell.nof_prb 0 →
      vec_prod_conj_ccc (refsignal_cs_get_sf fidx_zero q_init.cell 0 grid_seven (fun _ => (7, 0)))
        ((fun _ _ _ => (1, 0)) (0 / 2) 0) k = ((7, 0) : cf_t)) ∧
    ∃ r, chest_dl_estimate_port 10 4 fidx_zero q_init grid_seven none 0 0 = some r ∧
      r.2.1.noise_estimate 0 = 49 / 1200 ∧ r.2.1.noise_estimate 0 ≠ 0 := by
  refine ⟨q_init_ls_constant, ?_⟩
  obtain ⟨r, hr, hn⟩ := chest_dl_estimate_port_noise_default_const 10 4 fidx_zero q_init
    grid_seven none 0 0
    (fun _ => (7, 0)) (fun _ => (7, 0)) (fun _ => (7, 0)) (fun _ => (7, 0)) (fun _ => (7, 0))
    (fun _ _ _ => (1, 0)) (7, 0) (by decide) rfl q_init_taps (by decide) (by decide)
    q_init_timeavg rfl rfl rfl rfl rfl rfl rfl rfl q_init_ls_constant
  have hq : q_init.cell.nof_prb = 6 := rfl
  have hv : r.2.1.noise_estimate 0 = 49 / 1200 := by
    rw [hn, hq]
    norm_num [cf_norm_sq]
  exact ⟨r, hr, hv, by rw [hv]; norm_num⟩

/-! ### Interpolation with the extended cyclic prefix and four pilot symbols -/

/-- A write leaves the samples outside its range as they were. -/
theorem store_outside (b : Buf) (off n : Nat) (v : Buf) (i : Nat)
    (h : i < off ∨ off + n ≤ i) : store b off n v i = b i := by
  have : ¬ (off ≤ i ∧ i < off + n) := by omega
  simp only [store, this, if_false]

/-- The frequency loop of `interpolate_pilots` leaves every sample at or above a bound `B`
untouched when each of its writes ends at or below `B`. -/
theorem interpolate_pilots_freq_above (fidx : lte_cell_t → Nat → Nat → Nat) (q : chest_dl_t)
    (lin : interp_lin_t) (avg : Buf) (port_id B : Nat)
    (hB : ∀ l, refsignal_nsymbol l q.cell.cp port_id * q.cell.nof_prb * RE_X_RB
      + interp_linear_offset_len lin (fidx q.cell l port_id)
          ((RE_X_RB / 2 + 2 ^ 32 - fidx q.cell l port_id) % 2 ^ 32) ≤ B)
    (n l : Nat) (ce : Buf) (i : Nat) (hi : B ≤ i) :
    interpolate_pilots_freq fidx q lin avg port_id n l ce i = ce i := by
  induction n generalizing l ce with
  | zero => rfl
  | succ n ih =>
    simp only [interpolate_pilots_freq]
    rw [ih, store_outside]
    have := hB l
    omega

/-- The pilot-bearing symbols of ports 0 and 1 with the extended cyclic prefix are at most
symbol 9. -/
theorem refsignal_nsymbol_ext_le (l port_id : Nat) (hp : port_id < 2) :
    refsignal_nsymbol l lte_cp_t.CPEXT port_id ≤ 9 := by
  simp only [refsignal_nsymbol, hp, if_true]
  match l with
  | 0 => decide
  | 1 => decide
  | 2 => decide
  | 3 => decide
  | _ + 4 => simp

/-- With the extended cyclic prefix and four pilot symbols, `interpolate_pilots` returns and
leaves every sample from symbol 11 on as it was in the grid before the call: the frequency
loop writes the pilot rows 0, 3, 6, 9 and the time stage the rows 1–2, 4–5, 7–8 and 9–10. -/
theorem interpolate_pilots_ext_last_row (fidx : lte_cell_t → Nat → Nat → Nat) (q : chest_dl_t)
    (ce avg : Buf) (port_id : Nat) (hcp : q.cell.cp = lte_cp_t.CPEXT) (hp : port_id < 2)
    (hprb : 1 ≤ q.cell.nof_prb) (hfidx : ∀ l, fidx q.cell l port_id ≤ 6)
    (havg : q.pilot_estimates_average port_id = some avg)
    (hlin : q.interp_lin = some ⟨2 * q.cell.nof_prb, RE_X_RB / 2⟩)
    (hlinvec : q.interp_linvec = some ⟨RE_X_RB * q.cell.nof_prb⟩) :
    ∃ ce1, interpolate_pilots fidx q ce port_id = some ce1 ∧
      ∀ i, 11 * q.cell.nof_prb * RE_X_RB ≤ i → ce1 i = ce i := by
  have hsym : refsignal_cs_nof_symbols port_id = 4 := by
    simp [refsignal_cs_nof_symbols, hp]
  simp only [interpolate_pilots, havg, hlin, hlinvec, Option.bind_eq_bind, Option.some_bind,
    Option.pure_def, hsym]
  refine ⟨_, rfl, fun i hi => ?_⟩
  have hfreq := interpolate_pilots_freq_above fidx q ⟨2 * q.cell.nof_prb, RE_X_RB / 2⟩ avg
    port_id (11 * q.cell.nof_prb * RE_X_RB) (fun l => by
      have h1 := refsignal_nsymbol_ext_le l port_id hp
      have h2 := hfidx l
      have h3 : refsignal_nsymbol l q.cell.cp port_id * q.cell.nof_prb
          ≤ 9 * q.cell.nof_prb := by
        rw [hcp]
        exact Nat.mul_le_mul_right _ h1
      have h4 : (RE_X_RB / 2 + 2 ^ 32 - fidx q.cell l port_id) % 2 ^ 32
          = 6 - fidx q.cell l port_id := by
        simp only [RE_X_RB]
        omega
      simp only [interp_linear_offset_len, h4]
      simp only [RE_X_RB] at *
      omega) 4 0 ce i hi
  simp only [RE_X_RB] at hi
  simp only [interpolate_pilots_time, hcp, if_true, cesymb_interp, RE_IDX, RE_X_RB,
    Nat.add_zero, if_false, reduceCtorEq]
  rw [store_outside _ _ _ _ _ (by omega), store_outside _ _ _ _ _ (by omega),
    store_outside _ _ _ _ _ (by omega), store_outside _ _ _ _ _ (by omega)]
  exact hfreq

/-- The fields of `q_ext` that `interpolate_pilots` reads. -/
theorem q_ext_fields :
    q_ext.cell.cp = lte_cp_t.CPEXT ∧ q_ext.cell.nof_prb = 6 ∧
    q_ext.pilot_estimates_average 0 = some (fun _ => (7, 0)) ∧
    q_ext.interp_lin = some ⟨2 * q_ext.cell.nof_prb, RE_X_RB / 2⟩ ∧
    q_ext.interp_linvec = some ⟨RE_X_RB * q_ext.cell.nof_prb⟩ :=
  ⟨rfl, rfl, rfl, rfl, rfl⟩

/-- C8: with the extended cyclic prefix and port 0, on the object `q_ext` whose smoothed pilot
estimates all equal `c = 7 + 0j` and the output grid `grid_zero`, `interpolate_pilots` leaves
the resource element 792 (symbol 11, subcarrier 0, inside the grid of 864 elements) at its
prior value 0, not at `c`. -/
theorem interpolate_pilots_constant_ext_row_11 :
    q_ext.cell.cp = lte_cp_t.CPEXT ∧
    q_ext.pilot_estimates_average 0 = some (fun _ => (7, 0)) ∧
    792 < NSYMB_PER_SF q_ext.cell.cp * q_ext.cell.nof_prb * 12 ∧
    ∃ ce1, interpolate_pilots fidx_zero q_ext grid_zero 0 = some ce1 ∧
      ce1 792 = (0, 0) ∧ ce1 792 ≠ (7, 0) := by
  obtain ⟨ce1, h1, h2⟩ := interpolate_pilots_ext_last_row fidx_zero q_ext grid_zero
    (fun _ => (7, 0)) 0 rfl (by decide) (by decide) (fun _ => Nat.zero_le 6) rfl rfl rfl
  have h3 : ce1 792 = (0, 0) := h2 792 (by decide)
  refine ⟨rfl, rfl, by decide, ce1, h1, h3, ?_⟩
  rw [h3]
  intro h
  have := congrArg Prod.fst h
  norm_num at this

/-- C9: with the extended cyclic prefix and port 0, `interpolate_pilots` does not write symbol
11: on the object `q_ext`, every resource element from index 792 on (the row of symbol 11 of
the 864-element grid) holds after the call what the grid held before, 0 for the grid
`grid_zero` and `5 + 5j` for the grid `grid_five`. -/
theorem interpolate_pilots_ext_row_11_not_written :
    792 = RE_IDX q_ext.cell.nof_prb 11 0 ∧
    11 < NSYMB_PER_SF q_ext.cell.cp ∧
    (∃ ce1, interpolate_pilots fidx_zero q_ext grid_zero 0 = some ce1 ∧
      ∀ i, 792 ≤ i → ce1 i = (0, 0)) ∧
    (∃ ce1, interpolate_pilots fidx_zero q_ext grid_five 0 = some ce1 ∧
      ∀ i, 792 ≤ i → ce1 i = (5, 5)) := by
  obtain ⟨ce1, h1, h2⟩ := interpolate_pilots_ext_last_row fidx_zero q_ext grid_zero
    (fun _ => (7, 0)) 0 rfl (by decide) (by decide) (fun _ => Nat.zero_le 6) rfl rfl rfl
  obtain ⟨ce2, h3, h4⟩ := interpolate_pilots_ext_last_row fidx_zero q_ext grid_five
    (fun _ => (7, 0)) 0 rfl (by decide) (by decide) (fun _ => Nat.zero_le 6) rfl rfl rfl
  exact ⟨rfl, by decide, ⟨ce1, h1, fun i hi => h2 i hi⟩, ⟨ce2, h3, fun i hi => h4 i hi⟩⟩

/-- C10: with the extended cyclic prefix and four pilot symbols the time stage overwrites
the pilot row of symbol 9.  On the object `q_ext_steps` (pilot symbol `l` holds the value `l`,
so the frequency interpolation leaves 2 in row 6 and 3 in row 9) and the grid `grid_five`,
after `interpolate_pilots` the first element of row 9 (index 648) is `2 + (3 − 2)/3 = 7/3`,
not the frequency-interpolated value 3; the first element of row 10 (index 720) is `8/3`; and
the first element of row 11 (index 792) is still the prior `5 + 5j`: the rows written from the
pair (6, 9) are 9 and 10, not 10 and 11. -/
theorem interpolate_pilots_ext_overwrites_row_9 :
    interpolate_pilots_freq fidx_zero q_ext_steps ⟨12, 6⟩ (fun i => (((i / 12 : Nat) : ℚ), 0)) 0
      4 0 grid_five 432 = (2, 0) ∧
    interpolate_pilots_freq fidx_zero q_ext_steps ⟨12, 6⟩ (fun i => (((i / 12 : Nat) : ℚ), 0)) 0
      4 0 grid_five 648 = (3, 0) ∧
    ∃ ce1, interpolate_pilots fidx_zero q_ext_steps grid_five 0 = some ce1 ∧
      ce1 648 = (7 / 3, 0) ∧ ce1 720 = (8 / 3, 0) ∧ ce1 792 = (5, 5) := by
  have hcell : q_ext_steps.cell = cell_ext := rfl
  have havg : q_ext_steps.pilot_estimates_average 0
      = some (fun i => (((i / 12 : Nat) : ℚ), 0)) := rfl
  have hlin : q_ext_steps.interp_lin = some ⟨12, 6⟩ := rfl
  have hlinvec : q_ext_steps.interp_linvec = some ⟨72⟩ := rfl
  have h432 : interpolate_pilots_freq fidx_zero q_ext_steps ⟨12, 6⟩
      (fun i => (((i / 12 : Nat) : ℚ), 0)) 0 4 0 grid_five 432 = (2, 0) := by
    simp [interpolate_pilots_freq, hcell, cell_ext, fidx_zero, store, view, RE_X_RB,
      refsignal_nsymbol, interp_linear_offset_len, interp_linear_offset, REFSIGNAL_PILOT_IDX]
  have h648 : interpolate_pilots_freq fidx_zero q_ext_steps ⟨12, 6⟩
      (fun i => (((i / 12 : Nat) : ℚ), 0)) 0 4 0 grid_five 648 = (3, 0) := by
    simp [interpolate_pilots_freq, hcell, cell_ext, fidx_zero, store, view, RE_X_RB,
      refsignal_nsymbol, interp_linear_offset_len, interp_linear_offset, REFSIGNAL_PILOT_IDX]
  refine ⟨h432, h648, ?_⟩
  simp only [interpolate_pilots, havg, hlin, hlinvec, Option.bind_eq_bind, Option.some_bind,
    Option.pure_def, show refsignal_cs_nof_symbols 0 = 4 from rfl]
  refine ⟨_, rfl, ?_, ?_, ?_⟩
  · simp [interpolate_pilots_time, hcell, cell_ext, cesymb_interp, RE_IDX, RE_X_RB, store, view,
      interp_linear_vector, h432, h648]
    norm_num
  · simp [interpolate_pilots_time, hcell, cell_ext, cesymb_interp, RE_IDX, RE_X_RB, store, view,
      interp_linear_vector, h432, h648]
    norm_num
  · simp [interpolate_pilots_time, hcell, cell_ext, cesymb_interp, RE_IDX, RE_X_RB, store, view,
      interp_linear_vector]
    simp [interpolate_pilots_freq, hcell, cell_ext, fidx_zero, store, view, RE_X_RB,
      refsignal_nsymbol, interp_linear_offset_len, interp_linear_offset, REFSIGNAL_PILOT_IDX,
      grid_five]

/-! ### Accepted filters -/

/-- C17: for each setter and every `filter_len` not above its maximum, the call returns
`LIBLTE_SUCCESS`, the stored length becomes `filter_len`, the stored taps below `filter_len`
are those of `filter`, the stored taps from `filter_len` on keep their values, and no other
field of the object changes; with `filter_len = 0` the stage is disabled: the frequency step
and the time step of `average_pilots` are then plain copies of the pilot slice. -/
theorem set_filter_accepted (CHEST_MAX_FILTER_FREQ_LEN CHEST_MAX_FILTER_TIME_LEN : Nat)
    (q : chest_dl_t) (filter : Nat → ℚ) :
    (∀ filter_len, filter_len ≤ CHEST_MAX_FILTER_FREQ_LEN →
      (chest_dl_set_filter_freq CHEST_MAX_FILTER_FREQ_LEN q filter filter_len).1
        = LIBLTE_SUCCESS ∧
      (chest_dl_set_filter_freq CHEST_MAX_FILTER_FREQ_LEN q filter filter_len).2.filter_freq_len
        = filter_len ∧
      (∀ i, i < filter_len →
        (chest_dl_set_filter_freq CHEST_MAX_FILTER_FREQ_LEN q filter filter_len).2.filter_freq i
          = filter i) ∧
      (∀ i, filter_len ≤ i →
        (chest_dl_set_filter_freq CHEST_MAX_FILTER_FREQ_LEN q filter filter_len).2.filter_freq i
          = q.filter_freq i) ∧
      (chest_dl_set_filter_freq CHEST_MAX_FILTER_FREQ_LEN q filter filter_len).2
        = { q with
            filter_freq_len := filter_len
            filter_freq :=
              (chest_dl_set_filter_freq CHEST_MAX_FILTER_FREQ_LEN q filter
                filter_len).2.filter_freq } ∧
      (filter_len = 0 → ∀ (est tmp : Buf) (l : Nat),
        average_pilots_freq CHEST_MAX_FILTER_FREQ_LEN
            (chest_dl_set_filter_freq CHEST_MAX_FILTER_FREQ_LEN q filter filter_len).2 est l tmp
          = some (store tmp (REFSIGNAL_PILOT_IDX 0 l q.cell) (2 * q.cell.nof_prb)
              (view est (REFSIGNAL_PILOT_IDX 0 l q.cell))))) ∧
    (∀ filter_len, filter_len ≤ CHEST_MAX_FILTER_TIME_LEN →
      (chest_dl_set_filter_time CHEST_MAX_FILTER_TIME_LEN q filter filter_len).1
        = LIBLTE_SUCCESS ∧
      (chest_dl_set_filter_time CHEST_MAX_FILTER_TIME_LEN q filter filter_len).2.filter_time_len
        = filter_len ∧
      (∀ i, i < filter_len →
        (chest_dl_set_filter_time CHEST_MAX_FILTER_TIME_LEN q filter filter_len).2.filter_time i
          = filter i) ∧
      (∀ i, filter_len ≤ i →
        (chest_dl_set_filter_time CHEST_MAX_FILTER_TIME_LEN q filter filter_len).2.filter_time i
          = q.filter_time i) ∧
      (chest_dl_set_filter_time CHEST_MAX_FILTER_TIME_LEN q filter filter_len).2
        = { q with
            filter_time_len := filter_len
            filter_time :=
              (chest_dl_set_filter_time CHEST_MAX_FILTER_TIME_LEN q filter
                filter_len).2.filter_time } ∧
      (filter_len = 0 → ∀ (tmp : Buf) (l : Nat) (s : (Nat → Option Buf) × Buf),
        average_pilots_time CHEST_MAX_FILTER_TIME_LEN
            (chest_dl_set_filter_time CHEST_MAX_FILTER_TIME_LEN q filter filter_len).2 tmp l s
          = some (s.1, store s.2 (REFSIGNAL_PILOT_IDX 0 l q.cell) (2 * q.cell.nof_prb)
              (view tmp (REFSIGNAL_PILOT_IDX 0 l q.cell))))) := by
  refine ⟨fun n hn => ?_, fun n hn => ?_⟩
  · rw [chest_dl_set_filter_freq, if_pos hn]
    refine ⟨rfl, rfl, fun i hi => by simp [hi], fun i hi => ?_, rfl, fun h0 est tmp l => ?_⟩
    · have : ¬ i < n := by omega
      simp [this]
    · subst h0
      simp [average_pilots_freq, REFSIGNAL_PILOT_IDX]
  · rw [chest_dl_set_filter_time, if_pos hn]
    refine ⟨rfl, rfl, fun i hi => by simp [hi], fun i hi => ?_, rfl, fun h0 tmp l s => ?_⟩
    · have : ¬ i < n := by omega
      simp [this]
    · subst h0
      simp [average_pilots_time, REFSIGNAL_PILOT_IDX]

/-- Witness for C17 at the maxima 10 and 4 on `q_init`: the two-tap filter is accepted by both
setters. -/
theorem set_filter_accepted_witness :
    (chest_dl_set_filter_freq 10 q_init two_tap 2).1 = LIBLTE_SUCCESS ∧
    (chest_dl_set_filter_freq 10 q_init two_tap 2).2.filter_freq_len = 2 ∧
    (chest_dl_set_filter_time 4 q_init two_tap 2).1 = LIBLTE_SUCCESS ∧
    (chest_dl_set_filter_time 4 q_init two_tap 2).2.filter_time_len = 2 :=
  ⟨((set_filter_accepted 10 4 q_init two_tap).1 2 (by decide)).1,
   ((set_filter_accepted 10 4 q_init two_tap).1 2 (by decide)).2.1,
   ((set_filter_accepted 10 4 q_init two_tap).2 2 (by decide)).1,
   ((set_filter_accepted 10 4 q_init two_tap).2 2 (by decide)).2.1⟩

/-- C20: the filter lengths 1 and 2 are accepted by `chest_dl_set_filter_freq`, but the edge
correction of `average_pilots` then indexes outside the installed taps.  With `K = 1` the left
index `K/2 - 1` is 4294967295 in `uint32_t` and the right index `K/2 + 1` is 1, both outside
`[0, 1)`, and the frequency step has no defined result; with `K = 2` the right index is 2,
outside `[0, 2)`, and the step reads the stale default tap 0.6 stored there. -/
theorem edge_correction_indices_outside_short_filter :
    (chest_dl_set_filter_freq 10 q_init one_tap 1).1 = LIBLTE_SUCCESS ∧
    q_one.filter_freq_len = 1 ∧
    (q_one.filter_freq_len / 2 + 2 ^ 32 - 1) % 2 ^ 32 = 4294967295 ∧
    tap_read q_one.filter_freq_len q_one.filter_freq
      ((q_one.filter_freq_len / 2 + 2 ^ 32 - 1) % 2 ^ 32) = none ∧
    tap_read q_one.filter_freq_len q_one.filter_freq (q_one.filter_freq_len / 2 + 1) = none ∧
    average_pilots_freq 10 q_one (fun _ => (7, 0)) 0 (fun _ => (0, 0)) = none ∧
    (chest_dl_set_filter_freq 10 q_init two_tap 2).1 = LIBLTE_SUCCESS ∧
    q_two.filter_freq_len = 2 ∧
    q_two.filter_freq_len / 2 + 1 = 2 ∧
    tap_read q_two.filter_freq_len q_two.filter_freq (q_two.filter_freq_len / 2 + 1) = none ∧
    tap_read 10 q_two.filter_freq (q_two.filter_freq_len / 2 + 1) = some (6 / 10) :=
  ⟨rfl, rfl, rfl, rfl, rfl, rfl, rfl, rfl, rfl, rfl, rfl⟩

/-! ### Frame and totality of the two stages of `average_pilots` -/

/-- The frequency step reads only the cell and the frequency filter of the object. -/
theorem average_pilots_freq_congr (F : Nat) (q q1 : chest_dl_t) (est : Buf) (l : Nat)
    (tmp : Buf) (hc : q1.cell = q.cell) (hl : q1.filter_freq_len = q.filter_freq_len)
    (hf : q1.filter_freq = q.filter_freq) :
    average_pilots_freq F q1 est l tmp = average_pilots_freq F q est l tmp := by
  cases q
  cases q1
  dsimp only at hc hl hf
  subst hc hl hf
  rfl

/-- The frequency loop reads only the cell and the frequency filter of the object. -/
theorem average_pilots_freq_loop_congr (F : Nat) (q q1 : chest_dl_t) (est : Buf)
    (hc : q1.cell = q.cell) (hl : q1.filter_freq_len = q.filter_freq_len)
    (hf : q1.filter_freq = q.filter_freq) (n l : Nat) (tmp : Buf) :
    average_pilots_freq_loop F q1 est n l tmp = average_pilots_freq_loop F q est n l tmp := by
  induction n generalizing l tmp with
  | zero => rfl
  | succ n ih =>
    simp only [average_pilots_freq_loop, average_pilots_freq_congr F q q1 est l tmp hc hl hf]
    congr 1
    funext t
    exact ih (l + 1) t

/-- The time step reads only the cell and the time filter of the object. -/
theorem average_pilots_time_congr (T : Nat) (q q1 : chest_dl_t) (tmp : Buf) (l : Nat)
    (s : (Nat → Option Buf) × Buf) (hc : q1.cell = q.cell)
    (hl : q1.filter_time_len = q.filter_time_len) (hf : q1.filter_time = q.filter_time) :
    average_pilots_time T q1 tmp l s = average_pilots_time T q tmp l s := by
  have hacc : ∀ (nref off n i : Nat) (s : (Nat → Option Buf) × Buf),
      average_pilots_acc T q1 nref off n i s = average_pilots_acc T q nref off n i s := by
    intro nref off n
    induction n with
    | zero => intro i s; rfl
    | succ n ih =>
      intro i s
      obtain ⟨ta, avg⟩ := s
      simp only [average_pilots_acc, hf, ih]
  cases q
  cases q1
  dsimp only at hc hl hf hacc
  subst hc hl hf
  simp only [average_pilots_time, hacc]

/-- The time loop reads only the cell and the time filter of the object. -/
theorem average_pilots_time_loop_congr (T : Nat) (q q1 : chest_dl_t) (tmp : Buf)
    (hc : q1.cell = q.cell) (hl : q1.filter_time_len = q.filter_time_len)
    (hf : q1.filter_time = q.filter_time) (n l : Nat) (s : (Nat → Option Buf) × Buf) :
    average_pilots_time_loop T q1 tmp n l s = average_pilots_time_loop T q tmp n l s := by
  induction n generalizing l s with
  | zero => rfl
  | succ n ih =>
    simp only [average_pilots_time_loop, average_pilots_time_congr T q q1 tmp l s hc hl hf]
    congr 1
    funext t
    exact ih (l + 1) t

/-- The frequency step returns when the frequency filter can be applied. -/
theorem average_pilots_freq_returns (F : Nat) (q : chest_dl_t) (est : Buf) (l : Nat)
    (tmp : Buf) (hok : freq_filter_ok F q) :
    ∃ t, average_pilots_freq F q est l tmp = some t := by
  rcases hok with h0 | ⟨h2, hF⟩
  · exact ⟨_, by simp only [average_pilots_freq, h0, gt_iff_lt, Nat.lt_irrefl, if_false]; rfl⟩
  · have hpos : q.filter_freq_len > 0 := by omega
    have hi0 : (q.filter_freq_len / 2 + 2 ^ 32 - 1) % 2 ^ 32 < F := by
      have h1 : 1 ≤ q.filter_freq_len / 2 := by omega
      have h3 : q.filter_freq_len / 2 + 2 ^ 32 - 1 = (q.filter_freq_len / 2 - 1) + 2 ^ 32 := by
        omega
      rw [h3, Nat.add_mod_right]
      exact lt_of_le_of_lt (Nat.mod_le _ _) (by omega)
    simp only [average_pilots_freq, hpos, if_true, tap_read, hi0, hF, Option.bind_eq_bind,
      Option.some_bind, Option.pure_def]
    exact ⟨_, rfl⟩

/-- The frequency loop returns when the frequency filter can be applied. -/
theorem average_pilots_freq_loop_returns (F : Nat) (q : chest_dl_t) (est : Buf)
    (hok : freq_filter_ok F q) (n l : Nat) (tmp : Buf) :
    ∃ t, average_pilots_freq_loop F q est n l tmp = some t := by
  induction n generalizing l tmp with
  | zero => exact ⟨tmp, rfl⟩
  | succ n ih =>
    obtain ⟨t1, h1⟩ := average_pilots_freq_returns F q est l tmp hok
    obtain ⟨t2, h2⟩ := ih (l + 1) t1
    exact ⟨t2, by simp only [average_pilots_freq_loop, h1, Option.bind]; exact h2⟩

/-- The time loop returns on an object whose time filter fits the tap array and whose first
`T` history pointers are non-null, and it keeps every history pointer null or non-null as it
was. -/
theorem average_pilots_time_loop_returns_ptr (T : Nat) (q : chest_dl_t) (tmp : Buf)
    (n l : Nat) (s : (Nat → Option Buf) × Buf) (hT : q.filter_time_len ≤ T)
    (h : ∀ j, j < T → (s.1 j).isSome = true) :
    ∃ s1, average_pilots_time_loop T q tmp n l s = some s1 ∧
      ∀ j, (s1.1 j).isSome = (s.1 j).isSome := by
  induction n generalizing l s with
  | zero => exact ⟨s, rfl, fun _ => rfl⟩
  | succ n ih =>
    obtain ⟨s1, h1, h2⟩ := average_pilots_time_returns T q tmp l s hT h
    obtain ⟨s2, h3, h4⟩ := ih (l + 1) s1 (fun j hj => by rw [h2]; exact h j hj)
    exact ⟨s2, by simp only [average_pilots_time_loop, h1, Option.bind]; exact h3,
      fun j => by rw [h4, h2]⟩

/-- The result of `average_pilots` in terms of the results of its two loops. -/
theorem average_pilots_eq (F T : Nat) (q : chest_dl_t) (port_id : Nat)
    (est tmp0 noise0 avg0 tmp : Buf) (s : (Nat → Option Buf) × Buf)
    (hest : q.pilot_estimates port_id = some est) (htmp : q.tmp_freqavg = some tmp0)
    (hnoise : q.tmp_noise = some noise0)
    (havg : q.pilot_estimates_average port_id = some avg0)
    (hfreq : average_pilots_freq_loop F q est (refsignal_cs_nof_symbols port_id) 0 tmp0
      = some tmp)
    (htime : average_pilots_time_loop T q tmp (refsignal_cs_nof_symbols port_id) 0
      (q.tmp_timeavg, avg0) = some s) :
    average_pilots F T q port_id = some
      { q with
        tmp_freqavg := some tmp
        tmp_noise := some (estimate_noise_port q port_id tmp est noise0).1
        noise_estimate := Function.update q.noise_estimate port_id
          (estimate_noise_port q port_id tmp est noise0).2
        tmp_timeavg := s.1
        pilot_estimates_average :=
          Function.update q.pilot_estimates_average port_id (some s.2) } := by
  simp only [average_pilots, hest, htmp, hnoise, havg, hfreq, htime, Option.bind_eq_bind,
    Option.some_bind, Option.pure_def]

/-! ### The result of `chest_dl_estimate_port` -/

/-- The result of `chest_dl_estimate_port` in terms of the buffers it finds in the object and
of the results `tmp` and `s` of the two loops of `average_pilots` on the LS estimates. -/
theorem chest_dl_estimate_port_eq (F T : Nat) (fidx : lte_cell_t → Nat → Nat → Nat)
    (q : chest_dl_t) (input : Buf) (ce : Option Buf) (sf_idx port_id : Nat)
    (recv0 est0 tmp0 noise0 avg0 tmp : Buf) (csr : Nat → Nat → Buf)
    (s : (Nat → Option Buf) × Buf) (lin : interp_lin_t) (linvec : interp_linvec_t)
    (hrecv : q.pilot_recv_signal port_id = some recv0) (hcsr : q.csr_signal = some csr)
    (hest : q.pilot_estimates port_id = some est0) (htmp : q.tmp_freqavg = some tmp0)
    (hnoise : q.tmp_noise = some noise0)
    (havg : q.pilot_estimates_average port_id = some avg0)
    (hlin : q.interp_lin = some lin) (hlinvec : q.interp_linvec = some linvec)
    (hfreq : average_pilots_freq_loop F q
      (store est0 0 (REFSIGNAL_NUM_SF q.cell.nof_prb port_id)
        (vec_prod_conj_ccc (refsignal_cs_get_sf fidx q.cell port_id input recv0)
          (csr (port_id / 2) sf_idx)))
      (refsignal_cs_nof_symbols port_id) 0 tmp0 = some tmp)
    (htime : average_pilots_time_loop T q tmp (refsignal_cs_nof_symbols port_id) 0
      (q.tmp_timeavg, avg0) = some s) :
    ∃ r, chest_dl_estimate_port F T fidx q input ce sf_idx port_id = some r ∧ r.1 = 0 ∧
      r.2.1.cell = q.cell ∧ r.2.1.csr_signal = q.csr_signal ∧
      r.2.1.pilot_recv_signal = Function.update q.pilot_recv_signal port_id
        (some (refsignal_cs_get_sf fidx q.cell port_id input recv0)) ∧
      r.2.1.pilot_estimates = Function.update q.pilot_estimates port_id
        (some (store est0 0 (REFSIGNAL_NUM_SF q.cell.nof_prb port_id)
          (vec_prod_conj_ccc (refsignal_cs_get_sf fidx q.cell port_id input recv0)
            (csr (port_id / 2) sf_idx)))) ∧
      r.2.1.pilot_estimates_average
        = Function.update q.pilot_estimates_average port_id (some s.2) ∧
      r.2.1.tmp_freqavg = some tmp ∧ r.2.1.tmp_noise.isSome = true ∧
      r.2.1.tmp_timeavg = s.1 ∧
      r.2.1.filter_freq_len = q.filter_freq_len ∧ r.2.1.filter_freq = q.filter_freq ∧
      r.2.1.filter_time_len = q.filter_time_len ∧ r.2.1.filter_time = q.filter_time ∧
      r.2.1.interp_lin = q.interp_lin ∧ r.2.1.interp_linvec = q.interp_linvec ∧
      r.2.1.rsrp = Function.update q.rsrp port_id
        (vec_avg_power_cf s.2 (REFSIGNAL_NUM_SF q.cell.nof_prb port_id)) ∧
      r.2.1.noise_estimate = Function.update q.noise_estimate port_id
        (vec_avg_power_cf
          (store noise0 0 (REFSIGNAL_NUM_SF q.cell.nof_prb port_id)
            (vec_sub_ccc tmp
              (store est0 0 (REFSIGNAL_NUM_SF q.cell.nof_prb port_id)
                (vec_prod_conj_ccc (refsignal_cs_get_sf fidx q.cell port_id input recv0)
                  (csr (port_id / 2) sf_idx)))))
          (REFSIGNAL_NUM_SF q.cell.nof_prb port_id)) ∧
      (ce.isSome = r.2.2.isSome) ∧
      (∀ c, ce = some c → interpolate_pilots fidx r.2.1 c port_id = r.2.2) := by
  have key : ∀ q1 : chest_dl_t, q1.cell = q.cell → q1.filter_freq_len = q.filter_freq_len →
      q1.filter_freq = q.filter_freq → q1.filter_time_len = q.filter_time_len →
      q1.filter_time = q.filter_time → q1.tmp_freqavg = some tmp0 →
      q1.tmp_noise = some noise0 → q1.pilot_estimates_average port_id = some avg0 →
      q1.tmp_timeavg = q.tmp_timeavg →
      q1.pilot_estimates port_id = some (store est0 0 (REFSIGNAL_NUM_SF q.cell.nof_prb port_id)
        (vec_prod_conj_ccc (refsignal_cs_get_sf fidx q.cell port_id input recv0)
          (csr (port_id / 2) sf_idx))) →
      average_pilots F T q1 port_id = some
        { q1 with
          tmp_freqavg := some tmp
          tmp_noise := some (estimate_noise_port q1 port_id tmp
            (store est0 0 (REFSIGNAL_NUM_SF q.cell.nof_prb port_id)
              (vec_prod_conj_ccc (refsignal_cs_get_sf fidx q.cell port_id input recv0)
                (csr (port_id / 2) sf_idx))) noise0).1
          noise_estimate := Function.update q1.noise_estimate port_id
            (estimate_noise_port q1 port_id tmp
              (store est0 0 (REFSIGNAL_NUM_SF q.cell.nof_prb port_id)
                (vec_prod_conj_ccc (refsignal_cs_get_sf fidx q.cell port_id input recv0)
                  (csr (port_id / 2) sf_idx))) noise0).2
          tmp_timeavg := s.1
          pilot_estimates_average :=
            Function.update q1.pilot_estimates_average port_id (some s.2) } := by
    intro q1 e1 e2 e3 e4 e5 e6 e7 e8 e9 e10
    refine average_pilots_eq F T q1 port_id _ tmp0 noise0 avg0 tmp s e10 e6 e7 e8 ?_ ?_
    · exact (average_pilots_freq_loop_congr F q q1 _ e1 e2 e3 _ _ _).trans hfreq
    · rw [e9]
      exact (average_pilots_time_loop_congr T q q1 _ e1 e4 e5 _ _ _).trans htime
  have hi : ∀ (q4 : chest_dl_t) (c : Buf),
      q4.pilot_estimates_average port_id = some s.2 →
      q4.interp_lin = some lin → q4.interp_linvec = some linvec →
      interpolate_pilots fidx q4 c port_id =
        some (interpolate_pilots_time q4 linvec (refsignal_cs_nof_symbols port_id)
          (interpolate_pilots_freq fidx q4 lin s.2 port_id
            (refsignal_cs_nof_symbols port_id) 0 c)) := by
    intro q4 c e1 e2 e3
    simp only [interpolate_pilots, e1, e2, e3, Option.bind_eq_bind, Option.some_bind,
      Option.pure_def]
  simp only [chest_dl_estimate_port, hrecv, hcsr, hest, Option.bind_eq_bind, Option.some_bind]
  rw [key]
  rotate_left
  · rfl
  · rfl
  · rfl
  · rfl
  · rfl
  · exact htmp
  · exact hnoise
  · exact havg
  · rfl
  · exact Function.update_same _ _ _
  simp only [Option.some_bind, chest_dl_rsrp, Function.update_same, Option.bind_eq_bind,
    Option.pure_def]
  cases ce with
  | none =>
    by_cases hp : port_id = 0
    · simp only [if_pos hp]
      exact ⟨_, rfl, rfl, rfl, rfl, rfl, rfl, rfl, rfl, rfl, rfl, rfl, rfl, rfl, rfl,
        rfl, rfl, rfl, rfl, rfl, fun c hc => by cases hc⟩
    · simp only [if_neg hp]
      exact ⟨_, rfl, rfl, rfl, rfl, rfl, rfl, rfl, rfl, rfl, rfl, rfl, rfl, rfl, rfl,
        rfl, rfl, rfl, rfl, rfl, fun c hc => by cases hc⟩
  | some c =>
    by_cases hp : port_id = 0
    · simp only [if_pos hp]
      rw [hi]
      rotate_left
      · exact Function.update_same _ _ _
      · exact hlin
      · exact hlinvec
      refine ⟨_, rfl, rfl, rfl, rfl, rfl, rfl, rfl, rfl, rfl, rfl, rfl, rfl, rfl, rfl,
        rfl, rfl, rfl, rfl, rfl, fun c2 hc => ?_⟩
      cases hc
      rw [hi]
      · exact Function.update_same _ _ _
      · exact hlin
      · exact hlinvec
    · simp only [if_neg hp]
      rw [hi]
      rotate_left
      · exact Function.update_same _ _ _
      · exact hlin
      · exact hlinvec
      refine ⟨_, rfl, rfl, rfl, rfl, rfl, rfl, rfl, rfl, rfl, rfl, rfl, rfl, rfl, rfl,
        rfl, rfl, rfl, rfl, rfl, fun c2 hc => ?_⟩
      cases hc
      rw [hi]
      · exact Function.update_same _ _ _
      · exact hlin
      · exact hlinvec

/-- On an initialised object `chest_dl_estimate_port` returns for every port of the cell; the
object stays initialised, the RSRP of the port is the mean power of its smoothed pilot
estimates, and the smoothed estimates and the RSRP of the other ports are untouched. -/
theorem chest_dl_estimate_port_ready (F T : Nat) (fidx : lte_cell_t → Nat → Nat → Nat)
    (q : chest_dl_t) (input : Buf) (ce : Option Buf) (sf_idx port_id : Nat)
    (hr : chest_dl_ready F T q) (hp : port_id < q.cell.nof_ports) :
    ∃ r, chest_dl_estimate_port F T fidx q input ce sf_idx port_id = some r ∧
      chest_dl_ready F T r.2.1 ∧ r.2.1.cell = q.cell ∧
      (∀ p, p ≠ port_id →
        r.2.1.pilot_estimates_average p = q.pilot_estimates_average p ∧
        r.2.1.rsrp p = q.rsrp p) ∧
      ∃ avg, r.2.1.pilot_estimates_average port_id = some avg ∧
        r.2.1.rsrp port_id = vec_avg_power_cf avg (REFSIGNAL_NUM_SF q.cell.nof_prb port_id) := by
  obtain ⟨hcsr, htmp, hnoise, hta, hports, hlin, hlinvec, hT, hok⟩ := hr
  obtain ⟨hrecv, hest, havg⟩ := hports port_id hp
  obtain ⟨csr, hcsr1⟩ := Option.isSome_iff_exists.mp hcsr
  obtain ⟨tmp0, htmp1⟩ := Option.isSome_iff_exists.mp htmp
  obtain ⟨noise0, hnoise1⟩ := Option.isSome_iff_exists.mp hnoise
  obtain ⟨recv0, hrecv1⟩ := Option.isSome_iff_exists.mp hrecv
  obtain ⟨est0, hest1⟩ := Option.isSome_iff_exists.mp hest
  obtain ⟨avg0, havg1⟩ := Option.isSome_iff_exists.mp havg
  obtain ⟨lin, hlin1⟩ := Option.isSome_iff_exists.mp hlin
  obtain ⟨linvec, hlinvec1⟩ := Option.isSome_iff_exists.mp hlinvec
  obtain ⟨tmp, hfreq⟩ := average_pilots_freq_loop_returns F q
    (store est0 0 (REFSIGNAL_NUM_SF q.cell.nof_prb port_id)
      (vec_prod_conj_ccc (refsignal_cs_get_sf fidx q.cell port_id input recv0)
        (csr (port_id / 2) sf_idx))) hok (refsignal_cs_nof_symbols port_id) 0 tmp0
  obtain ⟨s, htime, hptr⟩ := average_pilots_time_loop_returns_ptr T q tmp
    (refsignal_cs_nof_symbols port_id) 0 (q.tmp_timeavg, avg0) hT hta
  obtain ⟨r, h1, _, hcell, hcs, hrv, hes, hav, htf, htn, htt, hffl, hff, hftl, hft, hli, hlv,
    hrsrp, _, _, _⟩ := chest_dl_estimate_port_eq F T fidx q input ce sf_idx port_id recv0 est0
      tmp0 noise0 avg0 tmp csr s lin linvec hrecv1 hcsr1 hest1 htmp1 hnoise1 havg1 hlin1
      hlinvec1 hfreq htime
  refine ⟨r, h1, ?_, hcell, ?_, s.2, ?_, ?_⟩
  · refine ⟨by rw [hcs]; exact hcsr, by rw [htf]; rfl, htn, ?_, ?_, by rw [hli]; exact hlin,
      by rw [hlv]; exact hlinvec, by rw [hftl]; exact hT, ?_⟩
    · intro j hj
      rw [htt, hptr j]
      exact hta j hj
    · intro p hpp
      rw [hcell] at hpp
      obtain ⟨a1, a2, a3⟩ := hports p hpp
      rw [hrv, hes, hav]
      by_cases hpe : p = port_id
      · subst hpe
        simp only [Function.update_same, Option.isSome_some, and_self]
      · simp only [Function.update_noteq hpe]
        exact ⟨a1, a2, a3⟩
    · simp only [freq_filter_ok, hffl]
      exact hok
  · intro p hpe
    rw [hav, hrsrp]
    simp only [Function.update_noteq hpe, and_self]
  · rw [hav, Function.update_same]
  · rw [hrsrp, Function.update_same]

/-! ### RSRP after `chest_dl_estimate` -/

/-- The mean power is the sum of the squared magnitudes divided by the number of samples. -/
theorem vec_avg_power_cf_eq (v : Buf) (n : Nat) :
    vec_avg_power_cf v n = (∑ i ∈ Finset.range n, cf_norm_sq (v i)) / n := by
  simp only [vec_avg_power_cf]
  split_ifs with h
  · subst h
    simp
  · rfl

/-- A mean power is non-negative. -/
theorem vec_avg_power_cf_nonneg (v : Buf) (n : Nat) : 0 ≤ vec_avg_power_cf v n := by
  rw [vec_avg_power_cf_eq]
  apply div_nonneg
  · apply Finset.sum_nonneg
    intro i _
    simp only [cf_norm_sq]
    exact add_nonneg (mul_self_nonneg _) (mul_self_nonneg _)
  · exact Nat.cast_nonneg n

/-- The loop of `chest_dl_estimate` over the ports `port_id .. port_id + n - 1` of an
initialised object returns; afterwards the RSRP of every port processed so far is the mean
power of the smoothed pilot estimates of that port. -/
theorem chest_dl_estimate_loop_ready (F T : Nat) (fidx : lte_cell_t → Nat → Nat → Nat)
    (input : Buf) (sf_idx : Nat) (n port_id : Nat) (q : chest_dl_t) (ce : Nat → Option Buf)
    (hr : chest_dl_ready F T q) (hn : port_id + n ≤ q.cell.nof_ports)
    (hdone : ∀ p, p < port_id → ∃ avg, q.pilot_estimates_average p = some avg ∧
      q.rsrp p = vec_avg_power_cf avg (REFSIGNAL_NUM_SF q.cell.nof_prb p)) :
    ∃ s, chest_dl_estimate_loop F T fidx input sf_idx n port_id (q, ce) = some s ∧
      s.1.cell = q.cell ∧
      ∀ p, p < port_id + n → ∃ avg, s.1.pilot_estimates_average p = some avg ∧
        s.1.rsrp p = vec_avg_power_cf avg (REFSIGNAL_NUM_SF q.cell.nof_prb p) := by
  induction n generalizing port_id q ce with
  | zero => exact ⟨(q, ce), rfl, rfl, fun p hp => hdone p (by omega)⟩
  | succ n ih =>
    obtain ⟨r, h1, hready, hcell, hothers, avg, hav, hrsrp⟩ :=
      chest_dl_estimate_port_ready F T fidx q input (ce port_id) sf_idx port_id hr (by omega)
    obtain ⟨s, h2, hcell2, hall⟩ := ih (port_id + 1) r.2.1 (Function.update ce port_id r.2.2)
      hready (by rw [hcell]; omega) (fun p hp => by
        rw [hcell]
        by_cases hpe : p = port_id
        · subst hpe
          exact ⟨avg, hav, hrsrp⟩
        · obtain ⟨a, ha1, ha2⟩ := hdone p (by omega)
          exact ⟨a, by rw [(hothers p hpe).1]; exact ha1, by rw [(hothers p hpe).2]; exact ha2⟩)
    refine ⟨s, ?_, hcell2.trans hcell, fun p hp => ?_⟩
    · simp only [chest_dl_estimate_loop, h1, Option.bind_eq_bind, Option.some_bind]
      exact h2
    · rw [← hcell]
      exact hall p (by omega)

/-- C15: on an initialised object `chest_dl_estimate` returns `LIBLTE_SUCCESS`; afterwards
`chest_dl_get_rsrp` is the sum over the ports `p < nof_ports` of `rsrp[p]`, each `rsrp[p]` is
the mean of `|x|²` over the `REFSIGNAL_NUM_SF` smoothed pilot estimates of port `p`, and every
`rsrp[p]` and the aggregate are non-negative. -/
theorem chest_dl_get_rsrp_after_estimate (F T : Nat) (fidx : lte_cell_t → Nat → Nat → Nat)
    (q : chest_dl_t) (input : Buf) (ce : Nat → Option Buf) (sf_idx : Nat)
    (hr : chest_dl_ready F T q) :
    ∃ r, chest_dl_estimate F T fidx q input ce sf_idx = some r ∧ r.1 = LIBLTE_SUCCESS ∧
      chest_dl_get_rsrp r.2.1 = ∑ p ∈ Finset.range q.cell.nof_ports, r.2.1.rsrp p ∧
      (∀ p, p < q.cell.nof_ports → ∃ avg, r.2.1.pilot_estimates_average p = some avg ∧
        r.2.1.rsrp p = (∑ i ∈ Finset.range (REFSIGNAL_NUM_SF q.cell.nof_prb p),
          cf_norm_sq (avg i)) / (REFSIGNAL_NUM_SF q.cell.nof_prb p : Nat) ∧
        0 ≤ r.2.1.rsrp p) ∧
      0 ≤ chest_dl_get_rsrp r.2.1 := by
  obtain ⟨s, h1, hcell, hall⟩ := chest_dl_estimate_loop_ready F T fidx input sf_idx
    q.cell.nof_ports 0 q ce hr (by omega) (fun p hp => by omega)
  have hports : ∀ p, p < q.cell.nof_ports → 0 ≤ s.1.rsrp p := by
    intro p hp
    obtain ⟨avg, _, h3⟩ := hall p (by omega)
    rw [h3]
    exact vec_avg_power_cf_nonneg _ _
  refine ⟨(LIBLTE_SUCCESS, s.1, s.2), ?_, rfl, ?_, ?_, ?_⟩
  · simp only [chest_dl_estimate, h1, Option.bind_eq_bind, Option.some_bind, Option.pure_def]
  · simp only [chest_dl_get_rsrp, vec_acc_ff, hcell]
  · intro p hp
    obtain ⟨avg, h2, h3⟩ := hall p (by omega)
    exact ⟨avg, h2, by rw [h3, vec_avg_power_cf_eq], hports p hp⟩
  · simp only [chest_dl_get_rsrp, vec_acc_ff, hcell]
    exact Finset.sum_nonneg (fun p hp => hports p (Finset.mem_range.mp hp))

/-- The object `q_two_ports` is initialised for its cell. -/
theorem q_two_ports_ready : chest_dl_ready 10 4 q_two_ports := by
  refine ⟨rfl, rfl, rfl, ?_, ?_, rfl, rfl, by decide, Or.inr ⟨by decide, by decide⟩⟩
  · intro j hj
    interval_cases j <;> rfl
  · intro p hp
    have hp2 : p < 2 := hp
    interval_cases p <;> exact ⟨rfl, rfl, rfl⟩

/-- Witness for C15: the two-port object `q_two_ports`, the grid `grid_seven`, no output
grids. -/
theorem chest_dl_get_rsrp_after_estimate_witness :
    ∃ r, chest_dl_estimate 10 4 fidx_zero q_two_ports grid_seven ce_null 0 = some r ∧
      r.1 = LIBLTE_SUCCESS ∧
      chest_dl_get_rsrp r.2.1 = ∑ p ∈ Finset.range q_two_ports.cell.nof_ports, r.2.1.rsrp p ∧
      (∀ p, p < q_two_ports.cell.nof_ports → ∃ avg, r.2.1.pilot_estimates_average p = some avg ∧
        r.2.1.rsrp p = (∑ i ∈ Finset.range (REFSIGNAL_NUM_SF q_two_ports.cell.nof_prb p),
          cf_norm_sq (avg i)) / (REFSIGNAL_NUM_SF q_two_ports.cell.nof_prb p : Nat) ∧
        0 ≤ r.2.1.rsrp p) ∧
      0 ≤ chest_dl_get_rsrp r.2.1 :=
  chest_dl_get_rsrp_after_estimate 10 4 fidx_zero q_two_ports grid_seven ce_null 0
    q_two_ports_ready

/-! ### The noise estimate is the residual power of the frequency stage -/

/-- The mean power of a buffer whose first `n` samples were written from `v` is the mean
power of `v`. -/
theorem vec_avg_power_cf_store (b v : Buf) (n : Nat) :
    vec_avg_power_cf (store b 0 n v) n = (∑ i ∈ Finset.range n, cf_norm_sq (v i)) / n := by
  rw [vec_avg_power_cf_eq]
  congr 1
  apply Finset.sum_congr rfl
  intro i hi
  have hi2 : i < n := Finset.mem_range.mp hi
  simp only [store, Nat.zero_le, Nat.zero_add, hi2, and_self, if_true, Nat.sub_zero]

/-- The noise estimate left by `chest_dl_estimate_port` on an initialised object, for every
time filter and every time history the object may carry: `tmp` is the output of the frequency
loop on the LS estimates. -/
theorem chest_dl_estimate_port_noise_eq (F T : Nat) (fidx : lte_cell_t → Nat → Nat → Nat)
    (q : chest_dl_t) (input : Buf) (ce : Option Buf) (sf_idx port_id : Nat)
    (hr : chest_dl_ready F T q) (hp : port_id < q.cell.nof_ports)
    (recv0 est0 tmp0 : Buf) (csr : Nat → Nat → Buf)
    (hrecv : q.pilot_recv_signal port_id = some recv0) (hcsr : q.csr_signal = some csr)
    (hest : q.pilot_estimates port_id = some est0) (htmp : q.tmp_freqavg = some tmp0) :
    ∃ tmp, average_pilots_freq_loop F q
        (store est0 0 (REFSIGNAL_NUM_SF q.cell.nof_prb port_id)
          (vec_prod_conj_ccc (refsignal_cs_get_sf fidx q.cell port_id input recv0)
            (csr (port_id / 2) sf_idx)))
        (refsignal_cs_nof_symbols port_id) 0 tmp0 = some tmp ∧
      ∀ (K : Nat) (taps : Nat → ℚ) (hist : Nat → Option Buf), K ≤ T →
        (∀ j, j < T → (hist j).isSome = true) →
        ∃ r, chest_dl_estimate_port F T fidx
            { q with filter_time_len := K, filter_time := taps, tmp_timeavg := hist }
            input ce sf_idx port_id = some r ∧
          r.2.1.noise_estimate port_id =
            (∑ i ∈ Finset.range (REFSIGNAL_NUM_SF q.cell.nof_prb port_id),
              cf_norm_sq (tmp i -
                store est0 0 (REFSIGNAL_NUM_SF q.cell.nof_prb port_id)
                  (vec_prod_conj_ccc (refsignal_cs_get_sf fidx q.cell port_id input recv0)
                    (csr (port_id / 2) sf_idx)) i))
              / (REFSIGNAL_NUM_SF q.cell.nof_prb port_id : Nat) ∧
          0 ≤ r.2.1.noise_estimate port_id := by
  obtain ⟨_, _, hnoise, _, hports, hlin, hlinvec, _, hok⟩ := hr
  obtain ⟨_, _, havg⟩ := hports port_id hp
  obtain ⟨noise0, hnoise1⟩ := Option.isSome_iff_exists.mp hnoise
  obtain ⟨avg0, havg1⟩ := Option.isSome_iff_exists.mp havg
  obtain ⟨lin, hlin1⟩ := Option.isSome_iff_exists.mp hlin
  obtain ⟨linvec, hlinvec1⟩ := Option.isSome_iff_exists.mp hlinvec
  obtain ⟨tmp, hfreq⟩ := average_pilots_freq_loop_returns F q
    (store est0 0 (REFSIGNAL_NUM_SF q.cell.nof_prb port_id)
      (vec_prod_conj_ccc (refsignal_cs_get_sf fidx q.cell port_id input recv0)
        (csr (port_id / 2) sf_idx))) hok (refsignal_cs_nof_symbols port_id) 0 tmp0
  have main : ∀ q1 : chest_dl_t, q1.cell = q.cell → q1.csr_signal = q.csr_signal →
      q1.pilot_recv_signal = q.pilot_recv_signal → q1.pilot_estimates = q.pilot_estimates →
      q1.pilot_estimates_average = q.pilot_estimates_average →
      q1.tmp_freqavg = q.tmp_freqavg → q1.tmp_noise = q.tmp_noise →
      q1.filter_freq_len = q.filter_freq_len → q1.filter_freq = q.filter_freq →
      q1.interp_lin = q.interp_lin → q1.interp_linvec = q.interp_linvec →
      q1.filter_time_len ≤ T → (∀ j, j < T → (q1.tmp_timeavg j).isSome = true) →
      ∃ r, chest_dl_estimate_port F T fidx q1 input ce sf_idx port_id = some r ∧
        r.2.1.noise_estimate port_id =
          (∑ i ∈ Finset.range (REFSIGNAL_NUM_SF q.cell.nof_prb port_id),
            cf_norm_sq (tmp i -
              store est0 0 (REFSIGNAL_NUM_SF q.cell.nof_prb port_id)
                (vec_prod_conj_ccc (refsignal_cs_get_sf fidx q.cell port_id input recv0)
                  (csr (port_id / 2) sf_idx)) i))
            / (REFSIGNAL_NUM_SF q.cell.nof_prb port_id : Nat) ∧
        0 ≤ r.2.1.noise_estimate port_id := by
    intro q1 e1 e2 e3 e4 e5 e6 e7 e8 e9 e10 e11 hK hhist
    obtain ⟨s, htime, _⟩ := average_pilots_time_loop_returns_ptr T q1 tmp
      (refsignal_cs_nof_symbols port_id) 0 (q1.tmp_timeavg, avg0) hK hhist
    have hfreq1 : average_pilots_freq_loop F q1
        (store est0 0 (REFSIGNAL_NUM_SF q1.cell.nof_prb port_id)
          (vec_prod_conj_ccc (refsignal_cs_get_sf fidx q1.cell port_id input recv0)
            (csr (port_id / 2) sf_idx)))
        (refsignal_cs_nof_symbols port_id) 0 tmp0 = some tmp := by
      rw [e1]
      exact (average_pilots_freq_loop_congr F q q1 _ e1 e8 e9 _ _ _).trans hfreq
    obtain ⟨r, h1, _, _, _, _, _, _, _, _, _, _, _, _, _, _, _, _, hn, _, _⟩ :=
      chest_dl_estimate_port_eq F T fidx q1 input ce sf_idx port_id recv0 est0 tmp0 noise0 avg0
        tmp csr s lin linvec (by rw [e3]; exact hrecv) (by rw [e2]; exact hcsr)
        (by rw [e4]; exact hest) (by rw [e6]; exact htmp) (by rw [e7]; exact hnoise1)
        (by rw [e5]; exact havg1) (by rw [e10]; exact hlin1) (by rw [e11]; exact hlinvec1)
        hfreq1 htime
    rw [e1] at hn
    refine ⟨r, h1, ?_, ?_⟩
    · rw [hn, Function.update_same]
      exact vec_avg_power_cf_store _ _ _
    · rw [hn, Function.update_same]
      exact vec_avg_power_cf_nonneg _ _
  exact ⟨tmp, hfreq, fun K taps hist hK hhist =>
    main { q with filter_time_len := K, filter_time := taps, tmp_timeavg := hist }
      rfl rfl rfl rfl rfl rfl rfl rfl rfl rfl rfl hK hhist⟩

/-- The object `q_init` is initialised for its cell. -/
theorem q_init_ready : chest_dl_ready 10 4 q_init := by
  refine ⟨rfl, rfl, rfl, q_init_timeavg, ?_, rfl, rfl, by decide, Or.inr ⟨by decide, by decide⟩⟩
  intro p hp
  have hp2 : p < 1 := hp
  interval_cases p
  exact ⟨rfl, rfl, rfl⟩

/-- C16: on an initialised object, for every port of the cell, the noise estimate set by
`chest_dl_estimate_port` is the mean of `|freq_avg_tmp[i] − ls_estimates[i]|²` over the
`REFSIGNAL_NUM_SF = 2·nof_prb·nof_pilot_symbols(port)` pilot samples of the subframe, where
`freq_avg_tmp` (`tmp`) is the output of the frequency loop on the LS estimates; it is
non-negative, and it is this same value for every time filter (length and taps) and every
time history the object carries. -/
theorem estimate_port_noise_is_residual_power (F T : Nat)
    (fidx : lte_cell_t → Nat → Nat → Nat) (q : chest_dl_t) (input : Buf) (ce : Option Buf)
    (sf_idx port_id : Nat) (hr : chest_dl_ready F T q) (hp : port_id < q.cell.nof_ports)
    (recv0 est0 tmp0 : Buf) (csr : Nat → Nat → Buf)
    (hrecv : q.pilot_recv_signal port_id = some recv0) (hcsr : q.csr_signal = some csr)
    (hest : q.pilot_estimates port_id = some est0) (htmp : q.tmp_freqavg = some tmp0) :
    ∃ tmp, average_pilots_freq_loop F q
        (store est0 0 (REFSIGNAL_NUM_SF q.cell.nof_prb port_id)
          (vec_prod_conj_ccc (refsignal_cs_get_sf fidx q.cell port_id input recv0)
            (csr (port_id / 2) sf_idx)))
        (refsignal_cs_nof_symbols port_id) 0 tmp0 = some tmp ∧
      ∀ (K : Nat) (taps : Nat → ℚ) (hist : Nat → Option Buf), K ≤ T →
        (∀ j, j < T → (hist j).isSome = true) →
        ∃ r, chest_dl_estimate_port F T fidx
            { q with filter_time_len := K, filter_time := taps, tmp_timeavg := hist }
            input ce sf_idx port_id = some r ∧
          r.2.1.noise_estimate port_id =
            (∑ i ∈ Finset.range (REFSIGNAL_NUM_SF q.cell.nof_prb port_id),
              cf_norm_sq (tmp i -
                store est0 0 (REFSIGNAL_NUM_SF q.cell.nof_prb port_id)
                  (vec_prod_conj_ccc (refsignal_cs_get_sf fidx q.cell port_id input recv0)
                    (csr (port_id / 2) sf_idx)) i))
              / (REFSIGNAL_NUM_SF q.cell.nof_prb port_id : Nat) ∧
          0 ≤ r.2.1.noise_estimate port_id :=
  chest_dl_estimate_port_noise_eq F T fidx q input ce sf_idx port_id hr hp recv0 est0 tmp0 csr
    hrecv hcsr hest htmp

/-- Witness for C16: the object `q_init`, port 0, the grid `grid_seven`. -/
theorem estimate_port_noise_is_residual_power_witness :
    ∃ tmp, average_pilots_freq_loop 10 q_init
        (store (fun _ => (7, 0)) 0 (REFSIGNAL_NUM_SF q_init.cell.nof_prb 0)
          (vec_prod_conj_ccc (refsignal_cs_get_sf fidx_zero q_init.cell 0 grid_seven
            (fun _ => (7, 0))) ((fun _ _ _ => (1, 0)) (0 / 2) 0)))
        (refsignal_cs_nof_symbols 0) 0 (fun _ => (7, 0)) = some tmp ∧
      ∀ (K : Nat) (taps : Nat → ℚ) (hist : Nat → Option Buf), K ≤ 4 →
        (∀ j, j < 4 → (hist j).isSome = true) →
        ∃ r, chest_dl_estimate_port 10 4 fidx_zero
            { q_init with filter_time_len := K, filter_time := taps, tmp_timeavg := hist }
            grid_seven none 0 0 = some r ∧
          r.2.1.noise_estimate 0 =
            (∑ i ∈ Finset.range (REFSIGNAL_NUM_SF q_init.cell.nof_prb 0),
              cf_norm_sq (tmp i -
                store (fun _ => (7, 0)) 0 (REFSIGNAL_NUM_SF q_init.cell.nof_prb 0)
                  (vec_prod_conj_ccc (refsignal_cs_get_sf fidx_zero q_init.cell 0 grid_seven
                    (fun _ => (7, 0))) ((fun _ _ _ => (1, 0)) (0 / 2) 0)) i))
              / (REFSIGNAL_NUM_SF q_init.cell.nof_prb 0 : Nat) ∧
          0 ≤ r.2.1.noise_estimate 0 :=
  estimate_port_noise_is_residual_power 10 4 fidx_zero q_init grid_seven none 0 0 q_init_ready
    (by decide) (fun _ => (7, 0)) (fun _ => (7, 0)) (fun _ => (7, 0)) (fun _ _ _ => (1, 0))
    rfl rfl rfl rfl

/-! ### The time stage: frame, and the two-tap step -/

/-- The accumulation loop writes `avg` only inside the slice `[off, off + nref)`. -/
theorem average_pilots_acc_frame (T : Nat) (q : chest_dl_t) (nref off : Nat) (n i : Nat)
    (ta : Nat → Option Buf) (avg : Buf) (s1 : (Nat → Option Buf) × Buf)
    (h : average_pilots_acc T q nref off n i (ta, avg) = some s1) (idx : Nat)
    (hidx : ¬ (off ≤ idx ∧ idx < off + nref)) : s1.2 idx = avg idx := by
  induction n generalizing i ta avg with
  | zero =>
    simp only [average_pilots_acc, Option.some.injEq] at h
    rw [← h]
  | succ n ih =>
    simp only [average_pilots_acc, Option.bind_eq_bind] at h
    cases hx : ta i with
    | none => simp [hx] at h
    | some x =>
      cases ht : tap_read T q.filter_time i with
      | none => simp [hx, ht] at h
      | some t =>
        simp only [hx, ht, Option.some_bind] at h
        rw [ih _ _ _ h]
        simp only [store, hidx, if_false]

/-- One time-filtering step writes `avg` only inside the slice of its pilot symbol. -/
theorem average_pilots_time_frame (T : Nat) (q : chest_dl_t) (tmp : Buf) (l : Nat)
    (s s1 : (Nat → Option Buf) × Buf) (h : average_pilots_time T q tmp l s = some s1)
    (idx : Nat)
    (hidx : ¬ (2 * q.cell.nof_prb * l ≤ idx ∧ idx < 2 * q.cell.nof_prb * l + 2 * q.cell.nof_prb)) :
    s1.2 idx = s.2 idx := by
  simp only [average_pilots_time, REFSIGNAL_PILOT_IDX, Nat.add_zero] at h
  split_ifs at h with hk
  · simp only [Option.bind_eq_bind] at h
    cases h1 : average_pilots_shift (2 * q.cell.nof_prb) (q.filter_time_len - 1) 0 s.1 with
    | none => simp [h1] at h
    | some ta1 =>
      cases h2 : ta1 (q.filter_time_len - 1) with
      | none => simp [h1, h2] at h
      | some last =>
        simp only [h1, h2, Option.some_bind] at h
        rw [average_pilots_acc_frame T q _ _ _ _ _ _ s1 h idx hidx]
        simp only [store, hidx, if_false]
  · simp only [Option.pure_def, Option.some.injEq] at h
    rw [← h]
    simp only [store, hidx, if_false]

/-- The time loop over the symbols `l .. l+n-1` leaves `avg` below the slice of symbol `l` as
it was. -/
theorem average_pilots_time_loop_frame (T : Nat) (q : chest_dl_t) (tmp : Buf) (n l : Nat)
    (s s1 : (Nat → Option Buf) × Buf) (h : average_pilots_time_loop T q tmp n l s = some s1)
    (idx : Nat) (hidx : idx < 2 * q.cell.nof_prb * l) : s1.2 idx = s.2 idx := by
  induction n generalizing l s with
  | zero =>
    simp only [average_pilots_time_loop, Option.some.injEq] at h
    rw [← h]
  | succ n ih =>
    simp only [average_pilots_time_loop] at h
    cases h1 : average_pilots_time T q tmp l s with
    | none => simp [h1] at h
    | some s2 =>
      simp only [h1, Option.bind] at h
      have hsucc : 2 * q.cell.nof_prb * (l + 1) = 2 * q.cell.nof_prb * l + 2 * q.cell.nof_prb :=
        Nat.mul_succ _ _
      rw [ih (l + 1) s2 h (by omega)]
      exact average_pilots_time_frame T q tmp l s s2 h1 idx (by omega)

/-- One time-filtering step with a two-tap filter `{h0, h1}`: the smoothed slice is
`h1·tmp[l] + h0·b`, where `b` is the vector found at index 1 of the history; afterwards the
history holds `h0·b` at index 0 and `h1·tmp[l]` at index 1 (the vectors are scaled in
place). -/
theorem average_pilots_time_two_taps (T : Nat) (q : chest_dl_t) (tmp : Buf) (l : Nat)
    (s : (Nat → Option Buf) × Buf) (a b : Buf) (hK : q.filter_time_len = 2) (hT : 2 ≤ T)
    (ha : s.1 0 = some a) (hb : s.1 1 = some b) :
    ∃ s1 a1 b1, average_pilots_time T q tmp l s = some s1 ∧
      s1.1 0 = some a1 ∧ s1.1 1 = some b1 ∧ (∀ j, 2 ≤ j → s1.1 j = s.1 j) ∧
      (∀ i, i < 2 * q.cell.nof_prb → a1 i = q.filter_time 0 • b i) ∧
      (∀ i, i < 2 * q.cell.nof_prb →
        b1 i = q.filter_time 1 • tmp (2 * q.cell.nof_prb * l + i)) ∧
      (∀ i, i < 2 * q.cell.nof_prb →
        s1.2 (2 * q.cell.nof_prb * l + i)
          = q.filter_time 1 • tmp (2 * q.cell.nof_prb * l + i) + q.filter_time 0 • b i) := by
  have ht0 : tap_read T q.filter_time 0 = some (q.filter_time 0) := by
    have : 0 < T := by omega
    simp only [tap_read, this, if_true]
  have ht1 : tap_read T q.filter_time 1 = some (q.filter_time 1) := by
    have : 1 < T := by omega
    simp only [tap_read, this, if_true]
  simp only [average_pilots_time, hK, average_pilots_shift, average_pilots_acc, ha, hb, ht0, ht1,
    REFSIGNAL_PILOT_IDX, Option.bind_eq_bind, Option.some_bind, Function.update_same,
    Nat.add_zero, Function.update_noteq, ne_eq, zero_add, Nat.reduceSub, gt_iff_lt,
    Nat.ofNat_pos, if_true, OfNat.ofNat_ne_zero, not_false_eq_true, one_ne_zero, zero_ne_one,
    Nat.reduceAdd]
  refine ⟨_, store (store a 0 (2 * q.cell.nof_prb) b) 0 (2 * q.cell.nof_prb)
      (vec_sc_prod_cfc (store a 0 (2 * q.cell.nof_prb) b) (q.filter_time 0)),
    store (store b 0 (2 * q.cell.nof_prb) (view tmp (2 * q.cell.nof_prb * l)))
      0 (2 * q.cell.nof_prb)
      (vec_sc_prod_cfc (store b 0 (2 * q.cell.nof_prb) (view tmp (2 * q.cell.nof_prb * l)))
        (q.filter_time 1)), rfl, ?_, ?_, ?_, ?_, ?_, ?_⟩
  all_goals dsimp only
  · rw [Function.update_noteq (by decide), Function.update_same]
  · rw [Function.update_same]
  · intro j hj
    rw [Function.update_noteq (by omega), Function.update_noteq (by omega),
      Function.update_noteq (by omega), Function.update_noteq (by omega)]
  · intro i hi
    simp only [store, Nat.zero_le, Nat.zero_add, hi, and_self, if_true, Nat.sub_zero,
      vec_sc_prod_cfc]
  · intro i hi
    simp only [store, Nat.zero_le, Nat.zero_add, hi, and_self, if_true, Nat.sub_zero,
      vec_sc_prod_cfc, view]
  · intro i hi
    have hin : 2 * q.cell.nof_prb * l ≤ 2 * q.cell.nof_prb * l + i ∧
        2 * q.cell.nof_prb * l + i < 2 * q.cell.nof_prb * l + 2 * q.cell.nof_prb := by omega
    simp only [store, hin, and_self, if_true, Nat.add_sub_cancel_left, vec_sum_ccc, view,
      Nat.zero_le, Nat.zero_add, hi, Nat.sub_zero, vec_sc_prod_cfc, add_zero]

/-- The time loop with a two-tap filter `{h0, h1}` over the symbols `l .. l+n`: the smoothed
slice of the first symbol is `h1·tmp[l] + h0·b`, where `b` is the vector found at index 1 of
the history, and the loop leaves `h1·tmp[l+n]`, the scaled vector of the last symbol, at
index 1 of the history. -/
theorem average_pilots_time_loop_two_taps (T : Nat) (q : chest_dl_t) (tmp : Buf)
    (hK : q.filter_time_len = 2) (hT : 2 ≤ T) (n l : Nat) (s : (Nat → Option Buf) × Buf)
    (a b : Buf) (ha : s.1 0 = some a) (hb : s.1 1 = some b) :
    ∃ s1 b1, average_pilots_time_loop T q tmp (n + 1) l s = some s1 ∧
      s1.1 1 = some b1 ∧
      (∀ i, i < 2 * q.cell.nof_prb →
        b1 i = q.filter_time 1 • tmp (2 * q.cell.nof_prb * (l + n) + i)) ∧
      (∀ i, i < 2 * q.cell.nof_prb →
        s1.2 (2 * q.cell.nof_prb * l + i)
          = q.filter_time 1 • tmp (2 * q.cell.nof_prb * l + i) + q.filter_time 0 • b i) := by
  induction n generalizing l s a b with
  | zero =>
    obtain ⟨s1, a1, b1, h1, _, h3, _, _, h6, h7⟩ :=
      average_pilots_time_two_taps T q tmp l s a b hK hT ha hb
    refine ⟨s1, b1, ?_, h3, h6, h7⟩
    simp only [average_pilots_time_loop, h1, Option.bind]
  | succ n ih =>
    obtain ⟨s1, a1, b1, h1, h2, h3, _, _, _, h7⟩ :=
      average_pilots_time_two_taps T q tmp l s a b hK hT ha hb
    obtain ⟨s2, b2, g1, g2, g3, _⟩ := ih (l + 1) s1 a1 b1 h2 h3
    have hsucc : 2 * q.cell.nof_prb * (l + 1) = 2 * q.cell.nof_prb * l + 2 * q.cell.nof_prb :=
      Nat.mul_succ _ _
    refine ⟨s2, b2, ?_, g2, fun i hi => ?_, fun i hi => ?_⟩
    · rw [average_pilots_time_loop, h1]
      exact g1
    · rw [g3 i hi, show l + 1 + n = l + (n + 1) by omega]
    · rw [average_pilots_time_loop_frame T q tmp (n + 1) (l + 1) s1 s2 g1 _ (by omega)]
      exact h7 i hi

/-- The function `chest_dl_estimate_port` on an initialised object with a two-tap time filter
`{h0, h1}`: the smoothed estimates of the first pilot symbol are `h1·tmp[0] + h0·b`, where
`tmp` is the output of the frequency loop and `b` the vector found at index 1 of the history;
the call leaves `h1·tmp[last]`, the scaled vector of the last pilot symbol, at index 1 of the
history; the object stays initialised with the same cell, CSR table and filters. -/
theorem chest_dl_estimate_port_two_taps (F T : Nat) (fidx : lte_cell_t → Nat → Nat → Nat)
    (q : chest_dl_t) (input : Buf) (ce : Option Buf) (sf_idx port_id : Nat)
    (hr : chest_dl_ready F T q) (hp : port_id < q.cell.nof_ports)
    (recv0 est0 tmp0 tmp : Buf) (csr : Nat → Nat → Buf) (a b : Buf)
    (hrecv : q.pilot_recv_signal port_id = some recv0) (hcsr : q.csr_signal = some csr)
    (hest : q.pilot_estimates port_id = some est0) (htmp : q.tmp_freqavg = some tmp0)
    (hfreq : average_pilots_freq_loop F q
      (store est0 0 (REFSIGNAL_NUM_SF q.cell.nof_prb port_id)
        (vec_prod_conj_ccc (refsignal_cs_get_sf fidx q.cell port_id input recv0)
          (csr (port_id / 2) sf_idx)))
      (refsignal_cs_nof_symbols port_id) 0 tmp0 = some tmp)
    (hK : q.filter_time_len = 2) (hT : 2 ≤ T)
    (ha : q.tmp_timeavg 0 = some a) (hb : q.tmp_timeavg 1 = some b) :
    ∃ r avg b1, chest_dl_estimate_port F T fidx q input ce sf_idx port_id = some r ∧
      r.2.1.pilot_estimates_average port_id = some avg ∧ r.2.1.tmp_freqavg = some tmp ∧
      r.2.1.tmp_timeavg 1 = some b1 ∧
      (∀ i, i < 2 * q.cell.nof_prb →
        avg i = q.filter_time 1 • tmp i + q.filter_time 0 • b i) ∧
      (∀ i, i < 2 * q.cell.nof_prb → b1 i = q.filter_time 1 •
        tmp (2 * q.cell.nof_prb * (refsignal_cs_nof_symbols port_id - 1) + i)) ∧
      chest_dl_ready F T r.2.1 ∧ r.2.1.cell = q.cell ∧ r.2.1.csr_signal = q.csr_signal ∧
      r.2.1.filter_freq_len = q.filter_freq_len ∧ r.2.1.filter_freq = q.filter_freq ∧
      r.2.1.filter_time_len = q.filter_time_len ∧ r.2.1.filter_time = q.filter_time ∧
      (∀ p, p ≠ port_id → r.2.1.pilot_estimates_average p = q.pilot_estimates_average p) := by
  obtain ⟨r1, g1, gready, _, gothers, _⟩ :=
    chest_dl_estimate_port_ready F T fidx q input ce sf_idx port_id hr hp
  obtain ⟨_, _, hnoise, _, hports, hlin, hlinvec, _, _⟩ := hr
  obtain ⟨_, _, havg⟩ := hports port_id hp
  obtain ⟨noise0, hnoise1⟩ := Option.isSome_iff_exists.mp hnoise
  obtain ⟨avg0, havg1⟩ := Option.isSome_iff_exists.mp havg
  obtain ⟨lin, hlin1⟩ := Option.isSome_iff_exists.mp hlin
  obtain ⟨linvec, hlinvec1⟩ := Option.isSome_iff_exists.mp hlinvec
  have hsym : refsignal_cs_nof_symbols port_id = (refsignal_cs_nof_symbols port_id - 1) + 1 := by
    simp only [refsignal_cs_nof_symbols]
    split_ifs <;> rfl
  obtain ⟨s, b1, htime, hb1, hlast, hfirst⟩ := average_pilots_time_loop_two_taps T q tmp hK hT
    (refsignal_cs_nof_symbols port_id - 1) 0 (q.tmp_timeavg, avg0) a b ha hb
  rw [← hsym] at htime
  obtain ⟨r, h1, _, hcell, hcs, _, _, hav, htf, _, htt, hffl, hff, hftl, hft, _, _, _, _, _,
    _⟩ := chest_dl_estimate_port_eq F T fidx q input ce sf_idx port_id recv0 est0
      tmp0 noise0 avg0 tmp csr s lin linvec hrecv hcsr hest htmp hnoise1 havg1 hlin1
      hlinvec1 hfreq htime
  have hrr : r1 = r := Option.some.inj (g1.symm.trans h1)
  subst hrr
  refine ⟨r1, s.2, b1, h1, ?_, htf, ?_, ?_, ?_, gready, hcell, hcs, hffl, hff, hftl, hft,
    fun p hpe => (gothers p hpe).1⟩
  · rw [hav, Function.update_same]
  · rw [htt]
    exact hb1
  · intro i hi
    have := hfirst i hi
    simp only [Nat.mul_zero, Nat.zero_add] at this
    exact this
  · intro i hi
    have := hlast i hi
    simp only [Nat.zero_add] at this
    exact this

/-- The LS estimates of a grid holding the same sample `h` at every resource element, when
every known pilot is `1 + 0j`, are `h` at every pilot of the subframe, whatever the buffers
held before. -/
theorem ls_constant_grid (fidx : lte_cell_t → Nat → Nat → Nat) (cell : lte_cell_t)
    (port_id : Nat) (h : cf_t) (recv0 est0 c : Buf) (hc : ∀ k, c k = (1, 0)) (k : Nat)
    (hk : k < REFSIGNAL_NUM_SF cell.nof_prb port_id) :
    store est0 0 (REFSIGNAL_NUM_SF cell.nof_prb port_id)
      (vec_prod_conj_ccc (refsignal_cs_get_sf fidx cell port_id (fun _ => h) recv0) c) k
      = h := by
  simp [store, vec_prod_conj_ccc, refsignal_cs_get_sf, hk, hc, cf_mul, cf_conj]

/-- The function `chest_dl_estimate_port` with the default five frequency taps and a two-tap
time filter `{h0, h1}` on a grid holding the same sample `h` everywhere (known pilots
`1 + 0j`): with `g` the gain of the frequency stage, the smoothed estimates of the first pilot
symbol are `h1·g·h + h0·b`, where `b` is the vector found at index 1 of the history, and the
call leaves `h1·g·h` at index 1 of the history. -/
theorem chest_dl_estimate_port_two_taps_const (F T : Nat)
    (fidx : lte_cell_t → Nat → Nat → Nat) (q : chest_dl_t) (h : cf_t) (ce : Option Buf)
    (sf_idx port_id : Nat) (hr : chest_dl_ready F T q) (hp : port_id < q.cell.nof_ports)
    (csr : Nat → Nat → Buf) (b : Buf) (hcsr : q.csr_signal = some csr)
    (hone : ∀ x y k, csr x y k = (1, 0)) (hF : 4 ≤ F) (hlen : q.filter_freq_len = 5)
    (htaps : ∀ j, j < 5 → q.filter_freq j = init_f j) (hprb : 2 ≤ q.cell.nof_prb)
    (hK : q.filter_time_len = 2) (hT : 2 ≤ T) (hb : q.tmp_timeavg 1 = some b) :
    ∃ r avg b1, chest_dl_estimate_port F T fidx q (fun _ => h) ce sf_idx port_id = some r ∧
      r.2.1.pilot_estimates_average port_id = some avg ∧
      r.2.1.tmp_timeavg 1 = some b1 ∧
      (∀ i, i < 2 * q.cell.nof_prb → avg i =
        q.filter_time 1 • default_edge_gain (2 * q.cell.nof_prb) i • h + q.filter_time 0 • b i) ∧
      (∀ i, i < 2 * q.cell.nof_prb →
        b1 i = q.filter_time 1 • default_edge_gain (2 * q.cell.nof_prb) i • h) ∧
      (∃ tmp, r.2.1.tmp_freqavg = some tmp ∧
        ∀ l i, l < refsignal_cs_nof_symbols port_id → i < 2 * q.cell.nof_prb →
          tmp (2 * q.cell.nof_prb * l + i) = default_edge_gain (2 * q.cell.nof_prb) i • h) ∧
      chest_dl_ready F T r.2.1 ∧ r.2.1.cell = q.cell ∧ r.2.1.csr_signal = q.csr_signal ∧
      r.2.1.filter_freq_len = q.filter_freq_len ∧ r.2.1.filter_freq = q.filter_freq ∧
      r.2.1.filter_time_len = q.filter_time_len ∧ r.2.1.filter_time = q.filter_time ∧
      (∀ p, p ≠ port_id → r.2.1.pilot_estimates_average p = q.pilot_estimates_average p) := by
  have hr0 := hr
  obtain ⟨_, htmp, _, hta, hports, _, _, _, _⟩ := hr0
  obtain ⟨hrecv, hest, _⟩ := hports port_id hp
  obtain ⟨recv0, hrecv1⟩ := Option.isSome_iff_exists.mp hrecv
  obtain ⟨est0, hest1⟩ := Option.isSome_iff_exists.mp hest
  obtain ⟨tmp0, htmp1⟩ := Option.isSome_iff_exists.mp htmp
  obtain ⟨a, ha⟩ := Option.isSome_iff_exists.mp (hta 0 (by omega))
  obtain ⟨tmp, hfreq, hval, _⟩ := average_pilots_freq_loop_default_const F q
    (store est0 0 (REFSIGNAL_NUM_SF q.cell.nof_prb port_id)
      (vec_prod_conj_ccc (refsignal_cs_get_sf fidx q.cell port_id (fun _ => h) recv0)
        (csr (port_id / 2) sf_idx)))
    h hF hlen htaps hprb (refsignal_cs_nof_symbols port_id) 0 tmp0
    (fun k hk => ls_constant_grid fidx q.cell port_id h recv0 est0 _ (hone _ _) k
      (by simpa [REFSIGNAL_NUM_SF] using hk))
  obtain ⟨r, avg, b1, h1, hav, htf, hb1, havg, hlast, hready, hrest⟩ :=
    chest_dl_estimate_port_two_taps F T fidx q (fun _ => h) ce sf_idx port_id hr hp recv0 est0
      tmp0 tmp csr a b hrecv1 hcsr hest1 htmp1 hfreq hK hT ha hb
  have hsym : 0 < refsignal_cs_nof_symbols port_id := by
    simp only [refsignal_cs_nof_symbols]
    split_ifs <;> omega
  refine ⟨r, avg, b1, h1, hav, hb1, ?_, ?_, ⟨tmp, htf, ?_⟩, hready, hrest⟩
  · intro i hi
    rw [havg i hi]
    have := hval 0 i (Nat.le_refl 0) (by omega) hi
    simp only [Nat.mul_zero, Nat.zero_add] at this
    rw [this]
  · intro i hi
    rw [hlast i hi, hval _ i (Nat.zero_le _) (by omega) hi]
  · intro l i hl hi
    exact hval l i (Nat.zero_le _) (by omega) hi

/-! ### The time history after a call -/

/-- The object `q_warm` is initialised for its cell. -/
theorem q_warm_ready : chest_dl_ready 10 4 q_warm := by
  refine ⟨rfl, rfl, rfl, q_init_timeavg, ?_, rfl, rfl, by decide, Or.inr ⟨by decide, by decide⟩⟩
  intro p hp
  have hp2 : p < 1 := hp
  interval_cases p
  exact ⟨rfl, rfl, rfl⟩

/-- The first call of `chest_dl_estimate_port` on `q_warm` with the grid `grid_seven`: the
frequency-smoothed vector of every pilot symbol holds 7 at pilot 5, and the call leaves
`0.9·7 = 6.3` at pilot 5 of the history vector of index 1. -/
theorem q_warm_first_call :
    ∃ r avg tmp b1, chest_dl_estimate_port 10 4 fidx_zero q_warm grid_seven none 0 0 = some r ∧
      r.2.1.pilot_estimates_average 0 = some avg ∧
      r.2.1.tmp_freqavg = some tmp ∧ r.2.1.tmp_timeavg 1 = some b1 ∧
      avg 5 = (63 / 10, 0) ∧
      (∀ l, l < 4 → tmp (2 * 6 * l + 5) = (7, 0)) ∧ b1 5 = (63 / 10, 0) ∧
      chest_dl_ready 10 4 r.2.1 ∧ r.2.1.cell = q_warm.cell ∧
      r.2.1.csr_signal = q_warm.csr_signal ∧
      r.2.1.filter_freq_len = q_warm.filter_freq_len ∧
      r.2.1.filter_freq = q_warm.filter_freq ∧
      r.2.1.filter_time_len = q_warm.filter_time_len ∧
      r.2.1.filter_time = q_warm.filter_time := by
  obtain ⟨r, avg, b1, h1, hav, hb1, havg, hlast, ⟨tmp, htf, hval⟩, hready, hc, hcs, hffl, hff,
    hftl, hft, _⟩ :=
    chest_dl_estimate_port_two_taps_const 10 4 fidx_zero q_warm (7, 0) none 0 0 q_warm_ready
      (by decide) (fun _ _ _ => (1, 0)) (fun j => if j < 2 * 6 then 0 else (7, 0)) rfl
      (fun _ _ _ => rfl) (by decide) rfl q_init_taps (by decide) rfl (by decide) rfl
  refine ⟨r, avg, tmp, b1, h1, hav, htf, hb1, ?_, ?_, ?_, hready, hc, hcs, hffl, hff, hftl,
    hft⟩
  · rw [havg 5 (by decide)]
    show ((9 / 10 : ℚ) • default_edge_gain 12 5 • ((7, 0) : cf_t)
      + (1 / 10 : ℚ) • (0 : cf_t)) = (63 / 10, 0)
    ext <;> norm_num [default_edge_gain]
  · intro l hl
    have := hval l 5 hl (by decide)
    rw [show 2 * q_warm.cell.nof_prb = 2 * 6 from rfl] at this
    rw [this]
    ext <;> norm_num [default_edge_gain]
  · rw [hlast 5 (by decide)]
    show ((9 / 10 : ℚ) • default_edge_gain 12 5 • ((7, 0) : cf_t)) = (63 / 10, 0)
    ext <;> norm_num [default_edge_gain]

/-- C13: after `chest_dl_estimate_port` (hence `average_pilots`) has processed the four pilot
symbols of port 0 on the object `q_warm` (two time taps `{0.1, 0.9}`, so `K − 1 = 1`) with
the grid `grid_seven`, the frequency-smoothed vector of the last processed symbol holds 7 at
pilot 5 while the history vector of index `K − 1` holds `6.3` there: the history holds the
vector scaled by its tap, not the unmodified vector. -/
theorem time_history_holds_scaled_vector :
    ∃ r tmp b1, chest_dl_estimate_port 10 4 fidx_zero q_warm grid_seven none 0 0 = some r ∧
      r.2.1.tmp_freqavg = some tmp ∧ r.2.1.tmp_timeavg (q_warm.filter_time_len - 1) = some b1 ∧
      tmp (REFSIGNAL_PILOT_IDX 5 3 q_warm.cell) = (7, 0) ∧ b1 5 = (63 / 10, 0) ∧
      b1 5 ≠ tmp (REFSIGNAL_PILOT_IDX 5 3 q_warm.cell) := by
  obtain ⟨r, avg, tmp, b1, h1, _, htf, hb1, _, hval, hb, _⟩ := q_warm_first_call
  have h7 : tmp (REFSIGNAL_PILOT_IDX 5 3 q_warm.cell) = (7, 0) := hval 3 (by decide)
  refine ⟨r, tmp, b1, h1, htf, hb1, h7, hb, ?_⟩
  rw [h7, hb]
  intro h
  have := congrArg Prod.fst h
  norm_num at this

/-! ### Warm-up of the time filter -/

/-- Two successive calls of `chest_dl_estimate_port` for port 0 on `q_warm` with the grid
`grid_seven` (subframes 0 and 1): at pilot 5 of the first pilot symbol the
frequency-smoothed value is 7 in both subframes, and the smoothed estimate of the second
subframe is `0.9·7 + 0.1·6.3 = 6.93`. -/
theorem q_warm_second_call :
    ∃ r0 r1 prev cur avg,
      chest_dl_estimate_port 10 4 fidx_zero q_warm grid_seven none 0 0 = some r0 ∧
      chest_dl_estimate_port 10 4 fidx_zero r0.2.1 grid_seven none 1 0 = some r1 ∧
      r0.2.1.tmp_freqavg = some prev ∧ r1.2.1.tmp_freqavg = some cur ∧
      r1.2.1.pilot_estimates_average 0 = some avg ∧
      prev 5 = (7, 0) ∧ cur 5 = (7, 0) ∧ avg 5 = (693 / 100, 0) := by
  obtain ⟨r0, _, prev, b1, h1, _, htf, hb1, _, hval, hb, hready, hc, hcs, hffl, hff, hftl,
    hft⟩ := q_warm_first_call
  obtain ⟨r1, avg, _, g1, gav, _, gavg, _, ⟨cur, gtf, gval⟩, _⟩ :=
    chest_dl_estimate_port_two_taps_const 10 4 fidx_zero r0.2.1 (7, 0) none 1 0 hready
      (by rw [hc]; decide) (fun _ _ _ => (1, 0)) b1 (by rw [hcs]; rfl)
      (fun _ _ _ => rfl) (by decide) (by rw [hffl]; rfl)
      (fun j hj => by rw [hff]; exact q_init_taps j hj) (by rw [hc]; decide)
      (by rw [hftl]; rfl) (by decide) hb1
  refine ⟨r0, r1, prev, cur, avg, h1, g1, htf, gtf, gav, hval 0 (by decide), ?_, ?_⟩
  · have := gval 0 5 (by decide) (by rw [hc]; decide)
    rw [hc] at this
    rw [show 2 * q_warm.cell.nof_prb * 0 + 5 = 5 from rfl] at this
    rw [this]
    show default_edge_gain 12 5 • ((7, 0) : cf_t) = (7, 0)
    ext <;> norm_num [default_edge_gain]
  · rw [gavg 5 (by rw [hc]; decide), hft, hc, hb]
    show ((9 / 10 : ℚ) • default_edge_gain 12 5 • ((7, 0) : cf_t)
      + (1 / 10 : ℚ) • ((63 / 10, 0) : cf_t)) = (693 / 100, 0)
    ext <;> norm_num [default_edge_gain]

/-- The first call after the history was zeroed, and every step of the time stage, with the
two time taps `{0.1, 0.9}`: the smoothed estimates of the first pilot symbol of the call are
`0.9·freq_avg_tmp[0]`, and each step of the time stage forms
`0.9·freq_avg_tmp[l] + 0.1·c`, where `c` is the vector found at index 1 of the history when
the step starts. -/
theorem chest_dl_estimate_port_warmup (F T : Nat) (fidx : lte_cell_t → Nat → Nat → Nat)
    (q : chest_dl_t) (input : Buf) (ce : Option Buf) (sf_idx port_id : Nat)
    (hr : chest_dl_ready F T q) (hp : port_id < q.cell.nof_ports)
    (hK : q.filter_time_len = 2) (hT : 2 ≤ T)
    (h0 : q.filter_time 0 = 1 / 10) (h1 : q.filter_time 1 = 9 / 10)
    (b : Buf) (hb : q.tmp_timeavg 1 = some b) (hzero : ∀ i, i < 2 * q.cell.nof_prb → b i = 0) :
    (∃ r avg tmp, chest_dl_estimate_port F T fidx q input ce sf_idx port_id = some r ∧
      r.2.1.pilot_estimates_average port_id = some avg ∧ r.2.1.tmp_freqavg = some tmp ∧
      ∀ i, i < 2 * q.cell.nof_prb → avg (REFSIGNAL_PILOT_IDX i 0 q.cell)
        = (9 / 10 : ℚ) • tmp (REFSIGNAL_PILOT_IDX i 0 q.cell)) ∧
    (∀ (tmp : Buf) (l : Nat) (s : (Nat → Option Buf) × Buf) (a c : Buf),
      s.1 0 = some a → s.1 1 = some c →
      ∃ s1, average_pilots_time T q tmp l s = some s1 ∧
        ∀ i, i < 2 * q.cell.nof_prb → s1.2 (REFSIGNAL_PILOT_IDX i l q.cell)
          = (9 / 10 : ℚ) • tmp (REFSIGNAL_PILOT_IDX i l q.cell) + (1 / 10 : ℚ) • c i) := by
  constructor
  · have hr0 := hr
    obtain ⟨hcsr, htmp, _, hta, hports, _, _, _, hok⟩ := hr0
    obtain ⟨hrecv, hest, _⟩ := hports port_id hp
    obtain ⟨recv0, hrecv1⟩ := Option.isSome_iff_exists.mp hrecv
    obtain ⟨est0, hest1⟩ := Option.isSome_iff_exists.mp hest
    obtain ⟨tmp0, htmp1⟩ := Option.isSome_iff_exists.mp htmp
    obtain ⟨csr, hcsr1⟩ := Option.isSome_iff_exists.mp hcsr
    obtain ⟨a, ha⟩ := Option.isSome_iff_exists.mp (hta 0 (by omega))
    obtain ⟨tmp, hfreq⟩ := average_pilots_freq_loop_returns F q
      (store est0 0 (REFSIGNAL_NUM_SF q.cell.nof_prb port_id)
        (vec_prod_conj_ccc (refsignal_cs_get_sf fidx q.cell port_id input recv0)
          (csr (port_id / 2) sf_idx)))
      hok (refsignal_cs_nof_symbols port_id) 0 tmp0
    obtain ⟨r, avg, _, g1, gav, gtf, _, gavg, _⟩ :=
      chest_dl_estimate_port_two_taps F T fidx q input ce sf_idx port_id hr hp recv0 est0
        tmp0 tmp csr a b hrecv1 hcsr1 hest1 htmp1 hfreq hK hT ha hb
    refine ⟨r, avg, tmp, g1, gav, gtf, ?_⟩
    intro i hi
    simp only [REFSIGNAL_PILOT_IDX, Nat.mul_zero, Nat.zero_add]
    rw [gavg i hi, h1, hzero i hi, smul_zero, add_zero]
  · intro tmp l s a c ha hc
    obtain ⟨s1, _, _, g1, _, _, _, _, _, gavg⟩ := average_pilots_time_two_taps T q tmp l s a c hK
      hT ha hc
    refine ⟨s1, g1, ?_⟩
    intro i hi
    simp only [REFSIGNAL_PILOT_IDX]
    rw [gavg i hi, h0, h1]

/-! ### The history ring is shared by the ports -/

/-- The object `q_warm_two_ports` is initialised for its cell. -/
theorem q_warm_two_ports_ready : chest_dl_ready 10 4 q_warm_two_ports := by
  refine ⟨rfl, rfl, rfl, ?_, ?_, rfl, rfl, by decide, Or.inr ⟨by decide, by decide⟩⟩
  · intro j hj
    interval_cases j <;> rfl
  · intro p hp
    have hp2 : p < 2 := hp
    interval_cases p <;> exact ⟨rfl, rfl, rfl⟩

/-- The five stored frequency taps of `q_warm_two_ports` are the array `f`. -/
theorem q_warm_two_ports_taps (j : Nat) (hj : j < 5) :
    q_warm_two_ports.filter_freq j = init_f j := by
  show (if j < 5 then init_f j else _) = init_f j
  rw [if_pos hj]

/-- The three calls of `two_port_run` on a grid holding `h` everywhere for port 1: pilot 5 of
the first pilot symbol of port 0 ends as `0.9·7 + 0.1·(0.9·h)`, the second term being the
scaled vector that the call for port 1 left in the history. -/
theorem two_port_run_value (h : cf_t) :
    ∃ q3 avg, two_port_run (fun _ => h) = some q3 ∧
      q3.pilot_estimates_average 0 = some avg ∧
      avg 5 = (9 / 10 : ℚ) • ((7, 0) : cf_t) + (1 / 10 : ℚ) • (9 / 10 : ℚ) • h := by
  obtain ⟨r0, _, b0, h1, _, hb0, _, _, _, hready0, hc0, hcs0, hffl0, hff0, hftl0, hft0, _⟩ :=
    chest_dl_estimate_port_two_taps_const 10 4 fidx_zero q_warm_two_ports (7, 0) none 0 0
      q_warm_two_ports_ready (by decide) (fun _ _ _ => (1, 0))
      (fun j => if j < 2 * 6 then 0 else (7, 0)) rfl (fun _ _ _ => rfl) (by decide) rfl
      q_warm_two_ports_taps (by decide) rfl (by decide) rfl
  obtain ⟨r1, _, b1, g1, _, hb1, _, hlast1, _, hready1, hc1, hcs1, hffl1, hff1, hftl1, hft1,
    _⟩ :=
    chest_dl_estimate_port_two_taps_const 10 4 fidx_zero r0.2.1 h none 0 1 hready0
      (by rw [hc0]; decide) (fun _ _ _ => (1, 0)) b0 (by rw [hcs0]; rfl)
      (fun _ _ _ => rfl) (by decide) (by rw [hffl0]; rfl)
      (fun j hj => by rw [hff0]; exact q_warm_two_ports_taps j hj) (by rw [hc0]; decide)
      (by rw [hftl0]; rfl) (by decide) hb0
  obtain ⟨r2, avg, _, k1, kav, _, kavg, _⟩ :=
    chest_dl_estimate_port_two_taps_const 10 4 fidx_zero r1.2.1 (7, 0) none 1 0 hready1
      (by rw [hc1, hc0]; decide) (fun _ _ _ => (1, 0)) b1 (by rw [hcs1, hcs0]; rfl)
      (fun _ _ _ => rfl) (by decide) (by rw [hffl1, hffl0]; rfl)
      (fun j hj => by rw [hff1, hff0]; exact q_warm_two_ports_taps j hj)
      (by rw [hc1, hc0]; decide) (by rw [hftl1, hftl0]; rfl) (by decide) hb1
  have h1s : chest_dl_estimate_port 10 4 fidx_zero q_warm_two_ports grid_seven none 0 0
      = some r0 := h1
  have k1s : chest_dl_estimate_port 10 4 fidx_zero r1.2.1 grid_seven none 1 0 = some r2 := k1
  refine ⟨r2.2.1, avg, ?_, kav, ?_⟩
  · simp only [two_port_run, h1s, g1, k1s, Option.bind_eq_bind, Option.some_bind,
      Option.pure_def]
  · rw [kavg 5 (by rw [hc1, hc0]; decide), hlast1 5 (by rw [hc0]; decide), hft1, hft0, hc1, hc0]
    show ((9 / 10 : ℚ) • default_edge_gain 12 5 • ((7, 0) : cf_t)
      + (1 / 10 : ℚ) • ((9 / 10 : ℚ) • default_edge_gain 12 5 • h)) = _
    have hg : default_edge_gain 12 5 = 1 := by norm_num [default_edge_gain]
    rw [hg, one_smul, one_smul]

/-- C14 (counterexample): on the two-port object `q_warm_two_ports` (time taps
`{0.1, 0.9}`), two runs of three calls that differ only in the grid passed to the call for
port 1 made between the two calls for port 0 (all zero in one run, all `7 + 0j` in the
other) leave different smoothed estimates for port 0: `6.3` and `6.93` at pilot 5 of the first
pilot symbol. -/
theorem other_port_grid_changes_estimates :
    ∃ qa qb a b, two_port_run grid_zero = some qa ∧ two_port_run grid_seven = some qb ∧
      qa.pilot_estimates_average 0 = some a ∧ qb.pilot_estimates_average 0 = some b ∧
      a (REFSIGNAL_PILOT_IDX 5 0 q_warm_two_ports.cell) = (63 / 10, 0) ∧
      b (REFSIGNAL_PILOT_IDX 5 0 q_warm_two_ports.cell) = (693 / 100, 0) ∧
      a (REFSIGNAL_PILOT_IDX 5 0 q_warm_two_ports.cell)
        ≠ b (REFSIGNAL_PILOT_IDX 5 0 q_warm_two_ports.cell) := by
  obtain ⟨qa, a, ha1, ha2, ha3⟩ := two_port_run_value (0, 0)
  obtain ⟨qb, b, hb1, hb2, hb3⟩ := two_port_run_value (7, 0)
  have hav : a 5 = (63 / 10, 0) := by
    rw [ha3]
    ext <;> norm_num
  have hbv : b 5 = (693 / 100, 0) := by
    rw [hb3]
    ext <;> norm_num
  refine ⟨qa, qb, a, b, ha1, hb1, ha2, hb2, hav, hbv, ?_⟩
  show a 5 ≠ b 5
  rw [hav, hbv]
  intro h
  have := congrArg Prod.fst h
  norm_num at this

/-! ### Per-port results with a time filter of at most one tap -/

/-- Reading inside the block that `store` wrote gives the written sample. -/
theorem store_inside (b : Buf) (off n : Nat) (v : Buf) (i : Nat) (h : i < n) :
    store b off n v (off + i) = v i := by
  simp only [store]
  rw [if_pos (by omega), Nat.add_sub_cancel_left]

/-- The convolution reads only the first `n` samples of its input. -/
theorem conv_same_cf_congr (x y : Buf) (f : Nat → ℚ) (n K : Nat)
    (h : ∀ k, k < n → x k = y k) (i : Nat) :
    conv_same_cf x f n K i = conv_same_cf y f n K i := by
  simp only [conv_same_cf]
  refine Finset.sum_congr rfl (fun j _ => ?_)
  split_ifs with hc
  · rw [h _ hc.2]
  · rfl

/-- One frequency-filtering step (cell of at least one PRB) writes `tmp` only inside the
slice of its pilot symbol. -/
theorem average_pilots_freq_frame (F : Nat) (q : chest_dl_t) (est : Buf) (l : Nat)
    (tmp t : Buf) (hprb : 0 < q.cell.nof_prb)
    (h : average_pilots_freq F q est l tmp = some t) (idx : Nat)
    (hidx : ¬ (2 * q.cell.nof_prb * l ≤ idx ∧ idx < 2 * q.cell.nof_prb * l + 2 * q.cell.nof_prb)) :
    t idx = tmp idx := by
  simp only [average_pilots_freq, REFSIGNAL_PILOT_IDX, Nat.add_zero] at h
  split_ifs at h with hk
  · simp only [Option.bind_eq_bind] at h
    generalize (q.filter_freq_len / 2 + 2 ^ 32 - 1) % 2 ^ 32 = k0 at h
    cases h0 : tap_read F q.filter_freq k0 with
    | none => simp [h0] at h
    | some a =>
      cases h1 : tap_read F q.filter_freq (q.filter_freq_len / 2 + 1) with
      | none => simp [h0, h1] at h
      | some b =>
        simp only [h0, h1, Option.some_bind, Option.pure_def, Option.some.injEq] at h
        rw [← h, Function.update_noteq (by omega), Function.update_noteq (by omega),
          store_outside _ _ _ _ _ (by omega)]
  · simp only [Option.pure_def, Option.some.injEq] at h
    rw [← h, store_outside _ _ _ _ _ (by omega)]

/-- Two buffers that agree on a slice still agree on it after the two edge corrections, when
the corrections agree. -/
theorem edge_update_agree (A A1 : Buf) (off n : Nat) (u u1 w w1 : cf_t)
    (hA : ∀ j, j < n → A (off + j) = A1 (off + j)) (hu : u = u1) (hw : w = w1) (hn : 0 < n)
    (j : Nat) (hj : j < n) :
    Function.update (Function.update A off (A off + u)) (off + (n - 1))
        (Function.update A off (A off + u) (off + (n - 1)) + w) (off + j)
      = Function.update (Function.update A1 off (A1 off + u1)) (off + (n - 1))
        (Function.update A1 off (A1 off + u1) (off + (n - 1)) + w1) (off + j) := by
  subst hu hw
  have h0 : A off = A1 off := hA 0 hn
  simp only [Function.update_apply]
  rw [h0, hA (n - 1) (by omega), hA j hj]

/-- The slice written by one frequency-filtering step depends only on the same slice of the
LS estimates, not on what `tmp` held before. -/
theorem average_pilots_freq_indep (F : Nat) (q : chest_dl_t) (est est1 : Buf) (l : Nat)
    (tmp tmp1 t t1 : Buf) (hprb : 0 < q.cell.nof_prb)
    (hest : ∀ i, i < 2 * q.cell.nof_prb →
      est (2 * q.cell.nof_prb * l + i) = est1 (2 * q.cell.nof_prb * l + i))
    (h : average_pilots_freq F q est l tmp = some t)
    (h1 : average_pilots_freq F q est1 l tmp1 = some t1) (i : Nat)
    (hi : i < 2 * q.cell.nof_prb) :
    t (2 * q.cell.nof_prb * l + i) = t1 (2 * q.cell.nof_prb * l + i) := by
  simp only [average_pilots_freq, REFSIGNAL_PILOT_IDX, Nat.add_zero] at h h1
  have hv : ∀ k, k < 2 * q.cell.nof_prb →
      view est (2 * q.cell.nof_prb * l) k = view est1 (2 * q.cell.nof_prb * l) k :=
    fun k hk => hest k hk
  have hc := conv_same_cf_congr _ _ q.filter_freq (2 * q.cell.nof_prb) q.filter_freq_len hv
  split_ifs at h h1 with hk
  · simp only [Option.bind_eq_bind] at h h1
    generalize (q.filter_freq_len / 2 + 2 ^ 32 - 1) % 2 ^ 32 = k0 at h h1
    cases h0 : tap_read F q.filter_freq k0 with
    | none => simp [h0] at h
    | some a =>
      cases h2 : tap_read F q.filter_freq (q.filter_freq_len / 2 + 1) with
      | none => simp [h0, h2] at h
      | some b =>
        simp only [h0, h2, Option.some_bind, Option.pure_def, Option.some.injEq] at h h1
        have e0 : est (2 * q.cell.nof_prb * l) = est1 (2 * q.cell.nof_prb * l) :=
          hest 0 (by omega)
        have e1 := hest 1 (by omega)
        have e2 := hest (2 * q.cell.nof_prb - 2) (by omega)
        have e3 := hest (2 * q.cell.nof_prb - 1) (by omega)
        rw [← h, ← h1]
        refine edge_update_agree _ _ _ _ _ _ _ _ (fun j hj => ?_) (by rw [e0, e1])
          (by rw [e2, e3]) (by omega) i hi
        rw [store_inside _ _ _ _ _ hj, store_inside _ _ _ _ _ hj]
        exact hc j
  · simp only [Option.pure_def, Option.some.injEq] at h h1
    rw [← h, ← h1, store_inside _ _ _ _ _ hi, store_inside _ _ _ _ _ hi]
    exact hv i hi

/-- The frequency loop over the symbols `l .. l+n-1` leaves `tmp` below the slice of symbol
`l` as it was. -/
theorem average_pilots_freq_loop_frame (F : Nat) (q : chest_dl_t) (est : Buf)
    (hprb : 0 < q.cell.nof_prb) (n l : Nat) (tmp t : Buf)
    (h : average_pilots_freq_loop F q est n l tmp = some t) (idx : Nat)
    (hidx : idx < 2 * q.cell.nof_prb * l) : t idx = tmp idx := by
  induction n generalizing l tmp with
  | zero =>
    simp only [average_pilots_freq_loop, Option.some.injEq] at h
    rw [← h]
  | succ n ih =>
    simp only [average_pilots_freq_loop] at h
    cases h1 : average_pilots_freq F q est l tmp with
    | none => simp [h1] at h
    | some t2 =>
      simp only [h1, Option.bind] at h
      have hsucc : 2 * q.cell.nof_prb * (l + 1) = 2 * q.cell.nof_prb * l + 2 * q.cell.nof_prb :=
        Nat.mul_succ _ _
      rw [ih (l + 1) t2 h (by omega)]
      exact average_pilots_freq_frame F q est l tmp t2 hprb h1 idx (by omega)

/-- The slices written by the frequency loop depend only on the same slices of the LS
estimates, not on what `tmp` held before. -/
theorem average_pilots_freq_loop_indep (F : Nat) (q : chest_dl_t) (est est1 : Buf)
    (hprb : 0 < q.cell.nof_prb) (n l : Nat) (tmp tmp1 t t1 : Buf)
    (hest : ∀ k, 2 * q.cell.nof_prb * l ≤ k →
      k < 2 * q.cell.nof_prb * l + 2 * q.cell.nof_prb * n → est k = est1 k)
    (h : average_pilots_freq_loop F q est n l tmp = some t)
    (h1 : average_pilots_freq_loop F q est1 n l tmp1 = some t1) (k : Nat)
    (hk0 : 2 * q.cell.nof_prb * l ≤ k)
    (hk1 : k < 2 * q.cell.nof_prb * l + 2 * q.cell.nof_prb * n) : t k = t1 k := by
  induction n generalizing l tmp tmp1 with
  | zero => omega
  | succ n ih =>
    have hsucc : 2 * q.cell.nof_prb * (l + 1) = 2 * q.cell.nof_prb * l + 2 * q.cell.nof_prb :=
      Nat.mul_succ _ _
    have hsuccn : 2 * q.cell.nof_prb * (n + 1) = 2 * q.cell.nof_prb * n + 2 * q.cell.nof_prb :=
      Nat.mul_succ _ _
    simp only [average_pilots_freq_loop] at h h1
    cases g : average_pilots_freq F q est l tmp with
    | none => simp [g] at h
    | some t2 =>
      cases g1 : average_pilots_freq F q est1 l tmp1 with
      | none => simp [g1] at h1
      | some t3 =>
        simp only [g, g1, Option.bind] at h h1
        by_cases hin : k < 2 * q.cell.nof_prb * (l + 1)
        · rw [average_pilots_freq_loop_frame F q est hprb n (l + 1) t2 t h k hin,
            average_pilots_freq_loop_frame F q est1 hprb n (l + 1) t3 t1 h1 k hin]
          have := average_pilots_freq_indep F q est est1 l tmp tmp1 t2 t3 hprb
            (fun i hi => hest _ (by omega) (by omega)) g g1 (k - 2 * q.cell.nof_prb * l)
            (by omega)
          rw [show 2 * q.cell.nof_prb * l + (k - 2 * q.cell.nof_prb * l) = k by omega] at this
          exact this
        · exact ih (l + 1) t2 t3 (fun k hk0 hk1 => hest k (by omega) (by omega)) h h1
            (by omega) (by omega)

/-- One time-filtering step with a one-tap filter `{h0}`: the smoothed slice is
`h0·tmp[l]`, whatever the history held. -/
theorem average_pilots_time_one_tap (T : Nat) (q : chest_dl_t) (tmp : Buf) (l : Nat)
    (s s1 : (Nat → Option Buf) × Buf) (hK : q.filter_time_len = 1)
    (h : average_pilots_time T q tmp l s = some s1) (i : Nat) (hi : i < 2 * q.cell.nof_prb) :
    s1.2 (2 * q.cell.nof_prb * l + i) = q.filter_time 0 • tmp (2 * q.cell.nof_prb * l + i) := by
  simp only [average_pilots_time, hK, average_pilots_shift, average_pilots_acc,
    REFSIGNAL_PILOT_IDX, Option.bind_eq_bind, Option.some_bind, Function.update_same,
    Nat.add_zero, Nat.sub_self, gt_iff_lt, Nat.lt_one_iff, Nat.pos_of_ne_zero, if_true,
    zero_lt_one] at h
  cases hx : s.1 0 with
  | none => simp [hx] at h
  | some x =>
    cases ht : tap_read T q.filter_time 0 with
    | none => simp [hx, ht] at h
    | some c =>
      simp only [hx, ht, Option.some_bind, Option.some.injEq] at h
      have hc : c = q.filter_time 0 := by
        simp only [tap_read] at ht
        split_ifs at ht
        exact (Option.some.inj ht).symm
      rw [← h, hc]
      have hin : 2 * q.cell.nof_prb * l ≤ 2 * q.cell.nof_prb * l + i ∧
          2 * q.cell.nof_prb * l + i < 2 * q.cell.nof_prb * l + 2 * q.cell.nof_prb := by omega
      simp only [store, hin, and_self, if_true, Nat.add_sub_cancel_left, vec_sum_ccc, view,
        Nat.zero_le, Nat.zero_add, hi, Nat.sub_zero, vec_sc_prod_cfc, add_zero]

/-- The time loop with a filter of at most one tap: every smoothed slice is the slice of
`tmp` (no tap) or `h0` times it (one tap), whatever the history held. -/
theorem average_pilots_time_loop_short (T : Nat) (q : chest_dl_t) (tmp : Buf)
    (hK : q.filter_time_len ≤ 1) (n l : Nat) (s s1 : (Nat → Option Buf) × Buf)
    (h : average_pilots_time_loop T q tmp n l s = some s1) (k : Nat)
    (hk0 : 2 * q.cell.nof_prb * l ≤ k)
    (hk1 : k < 2 * q.cell.nof_prb * l + 2 * q.cell.nof_prb * n) :
    s1.2 k = (if q.filter_time_len = 0 then (1 : ℚ) else q.filter_time 0) • tmp k := by
  by_cases h0 : q.filter_time_len = 0
  · rw [average_pilots_time_loop_disabled T q tmp h0 n l s.1 s.2] at h
    rw [← Option.some.inj h, if_pos h0, one_smul]
    simp only [hk0, hk1, and_self, if_true]
  · have h1 : q.filter_time_len = 1 := by omega
    rw [if_neg h0]
    induction n generalizing l s with
    | zero => omega
    | succ n ih =>
      have hsucc : 2 * q.cell.nof_prb * (l + 1) = 2 * q.cell.nof_prb * l + 2 * q.cell.nof_prb :=
        Nat.mul_succ _ _
      have hsuccn : 2 * q.cell.nof_prb * (n + 1) = 2 * q.cell.nof_prb * n + 2 * q.cell.nof_prb :=
        Nat.mul_succ _ _
      simp only [average_pilots_time_loop] at h
      cases g : average_pilots_time T q tmp l s with
      | none => simp [g] at h
      | some s2 =>
        simp only [g, Option.bind] at h
        by_cases hin : k < 2 * q.cell.nof_prb * (l + 1)
        · rw [average_pilots_time_loop_frame T q tmp n (l + 1) s2 s1 h k hin]
          have := average_pilots_time_one_tap T q tmp l s s2 h1 g (k - 2 * q.cell.nof_prb * l)
            (by omega)
          rw [show 2 * q.cell.nof_prb * l + (k - 2 * q.cell.nof_prb * l) = k by omega] at this
          exact this
        · exact ih (l + 1) s2 h (by omega) (by omega)

/-- The mean power over `n` samples depends only on those samples. -/
theorem vec_avg_power_cf_congr (v w : Buf) (n : Nat) (h : ∀ i, i < n → v i = w i) :
    vec_avg_power_cf v n = vec_avg_power_cf w n := by
  rw [vec_avg_power_cf_eq, vec_avg_power_cf_eq]
  congr 1
  exact Finset.sum_congr rfl (fun i hi => by rw [h i (Finset.mem_range.mp hi)])

/-- The function `chest_dl_estimate_port` on an initialised object returns and keeps the configuration: the
object stays initialised, with the same cell, CSR table and filters. -/
theorem chest_dl_estimate_port_config (F T : Nat) (fidx : lte_cell_t → Nat → Nat → Nat)
    (q : chest_dl_t) (input : Buf) (ce : Option Buf) (sf_idx port_id : Nat)
    (hr : chest_dl_ready F T q) (hp : port_id < q.cell.nof_ports) :
    ∃ r, chest_dl_estimate_port F T fidx q input ce sf_idx port_id = some r ∧
      chest_dl_ready F T r.2.1 ∧ r.2.1.cell = q.cell ∧ r.2.1.csr_signal = q.csr_signal ∧
      r.2.1.filter_freq_len = q.filter_freq_len ∧ r.2.1.filter_freq = q.filter_freq ∧
      r.2.1.filter_time_len = q.filter_time_len ∧ r.2.1.filter_time = q.filter_time := by
  obtain ⟨r1, g1, gready, _⟩ :=
    chest_dl_estimate_port_ready F T fidx q input ce sf_idx port_id hr hp
  obtain ⟨hcsr, htmp, hnoise, hta, hports, hlin, hlinvec, hT, hok⟩ := hr
  obtain ⟨hrecv, hest, havg⟩ := hports port_id hp
  obtain ⟨csr, hcsr1⟩ := Option.isSome_iff_exists.mp hcsr
  obtain ⟨tmp0, htmp1⟩ := Option.isSome_iff_exists.mp htmp
  obtain ⟨noise0, hnoise1⟩ := Option.isSome_iff_exists.mp hnoise
  obtain ⟨recv0, hrecv1⟩ := Option.isSome_iff_exists.mp hrecv
  obtain ⟨est0, hest1⟩ := Option.isSome_iff_exists.mp hest
  obtain ⟨avg0, havg1⟩ := Option.isSome_iff_exists.mp havg
  obtain ⟨lin, hlin1⟩ := Option.isSome_iff_exists.mp hlin
  obtain ⟨linvec, hlinvec1⟩ := Option.isSome_iff_exists.mp hlinvec
  obtain ⟨tmp, hfreq⟩ := average_pilots_freq_loop_returns F q
    (store est0 0 (REFSIGNAL_NUM_SF q.cell.nof_prb port_id)
      (vec_prod_conj_ccc (refsignal_cs_get_sf fidx q.cell port_id input recv0)
        (csr (port_id / 2) sf_idx))) hok (refsignal_cs_nof_symbols port_id) 0 tmp0
  obtain ⟨s, htime, _⟩ := average_pilots_time_loop_returns_ptr T q tmp
    (refsignal_cs_nof_symbols port_id) 0 (q.tmp_timeavg, avg0) hT hta
  obtain ⟨r, h1, _, hcell, hcs, _, _, _, _, _, _, hffl, hff, hftl, hft, _, _, _, _, _,
    _⟩ := chest_dl_estimate_port_eq F T fidx q input ce sf_idx port_id recv0 est0
      tmp0 noise0 avg0 tmp csr s lin linvec hrecv1 hcsr1 hest1 htmp1 hnoise1 havg1 hlin1
      hlinvec1 hfreq htime
  have hrr : r1 = r := Option.some.inj (g1.symm.trans h1)
  subst hrr
  exact ⟨r1, h1, gready, hcell, hcs, hffl, hff, hftl, hft⟩

/-- With a time filter of at most one tap, the smoothed estimates and the RSRP that
`chest_dl_estimate_port` produces for a port are the same on any two initialised objects that
have the same cell, CSR table and filters: they do not depend on what the buffers, the
history or the metrics of the object held before the call. -/
theorem chest_dl_estimate_port_short_indep (F T : Nat) (fidx : lte_cell_t → Nat → Nat → Nat)
    (qa qb : chest_dl_t) (input : Buf) (ce : Option Buf) (sf_idx port_id : Nat)
    (hra : chest_dl_ready F T qa) (hrb : chest_dl_ready F T qb)
    (hp : port_id < qa.cell.nof_ports)
    (hcell : qb.cell = qa.cell) (hcsr : qb.csr_signal = qa.csr_signal)
    (hffl : qb.filter_freq_len = qa.filter_freq_len) (hff : qb.filter_freq = qa.filter_freq)
    (hftl : qb.filter_time_len = qa.filter_time_len) (hft : qb.filter_time = qa.filter_time)
    (hK : qa.filter_time_len ≤ 1) :
    ∃ ra rb avga avgb,
      chest_dl_estimate_port F T fidx qa input ce sf_idx port_id = some ra ∧
      chest_dl_estimate_port F T fidx qb input ce sf_idx port_id = some rb ∧
      ra.2.1.pilot_estimates_average port_id = some avga ∧
      rb.2.1.pilot_estimates_average port_id = some avgb ∧
      (∀ i, i < REFSIGNAL_NUM_SF qa.cell.nof_prb port_id → avga i = avgb i) ∧
      ra.2.1.rsrp port_id = rb.2.1.rsrp port_id := by
  obtain ⟨hcsra, htmpa, hnoisea, htaa, hportsa, hlina, hlinveca, hTa, hoka⟩ := hra
  obtain ⟨hrecva, hesta, havga⟩ := hportsa port_id hp
  obtain ⟨csr, hcsr1⟩ := Option.isSome_iff_exists.mp hcsra
  obtain ⟨tmp0a, htmp1a⟩ := Option.isSome_iff_exists.mp htmpa
  obtain ⟨noise0a, hnoise1a⟩ := Option.isSome_iff_exists.mp hnoisea
  obtain ⟨recv0a, hrecv1a⟩ := Option.isSome_iff_exists.mp hrecva
  obtain ⟨est0a, hest1a⟩ := Option.isSome_iff_exists.mp hesta
  obtain ⟨avg0a, havg1a⟩ := Option.isSome_iff_exists.mp havga
  obtain ⟨lina, hlin1a⟩ := Option.isSome_iff_exists.mp hlina
  obtain ⟨linveca, hlinvec1a⟩ := Option.isSome_iff_exists.mp hlinveca
  obtain ⟨tmpa, hfreqa⟩ := average_pilots_freq_loop_returns F qa
    (store est0a 0 (REFSIGNAL_NUM_SF qa.cell.nof_prb port_id)
      (vec_prod_conj_ccc (refsignal_cs_get_sf fidx qa.cell port_id input recv0a)
        (csr (port_id / 2) sf_idx))) hoka (refsignal_cs_nof_symbols port_id) 0 tmp0a
  obtain ⟨sa, htimea, _⟩ := average_pilots_time_loop_returns_ptr T qa tmpa
    (refsignal_cs_nof_symbols port_id) 0 (qa.tmp_timeavg, avg0a) hTa htaa
  obtain ⟨ra, ha1, _, _, _, _, _, hava, _, _, _, _, _, _, _, _, _, hrsrpa, _, _, _⟩ :=
    chest_dl_estimate_port_eq F T fidx qa input ce sf_idx port_id recv0a est0a
      tmp0a noise0a avg0a tmpa csr sa lina linveca hrecv1a hcsr1 hest1a htmp1a hnoise1a havg1a
      hlin1a hlinvec1a hfreqa htimea
  obtain ⟨_, htmpb, hnoiseb, htab, hportsb, hlinb, hlinvecb, hTb, hokb⟩ := hrb
  obtain ⟨hrecvb, hestb, havgb⟩ := hportsb port_id (by rw [hcell]; exact hp)
  obtain ⟨tmp0b, htmp1b⟩ := Option.isSome_iff_exists.mp htmpb
  obtain ⟨noise0b, hnoise1b⟩ := Option.isSome_iff_exists.mp hnoiseb
  obtain ⟨recv0b, hrecv1b⟩ := Option.isSome_iff_exists.mp hrecvb
  obtain ⟨est0b, hest1b⟩ := Option.isSome_iff_exists.mp hestb
  obtain ⟨avg0b, havg1b⟩ := Option.isSome_iff_exists.mp havgb
  obtain ⟨linb, hlin1b⟩ := Option.isSome_iff_exists.mp hlinb
  obtain ⟨linvecb, hlinvec1b⟩ := Option.isSome_iff_exists.mp hlinvecb
  obtain ⟨tmpb, hfreqb⟩ := average_pilots_freq_loop_returns F qb
    (store est0b 0 (REFSIGNAL_NUM_SF qb.cell.nof_prb port_id)
      (vec_prod_conj_ccc (refsignal_cs_get_sf fidx qb.cell port_id input recv0b)
        (csr (port_id / 2) sf_idx))) hokb (refsignal_cs_nof_symbols port_id) 0 tmp0b
  obtain ⟨sb, htimeb, _⟩ := average_pilots_time_loop_returns_ptr T qb tmpb
    (refsignal_cs_nof_symbols port_id) 0 (qb.tmp_timeavg, avg0b) hTb htab
  obtain ⟨rb, hb1, _, _, _, _, _, havb, _, _, _, _, _, _, _, _, _, hrsrpb, _, _, _⟩ :=
    chest_dl_estimate_port_eq F T fidx qb input ce sf_idx port_id recv0b est0b
      tmp0b noise0b avg0b tmpb csr sb linb linvecb hrecv1b (hcsr.trans hcsr1) hest1b htmp1b
      hnoise1b havg1b hlin1b hlinvec1b hfreqb htimeb
  rw [average_pilots_freq_loop_congr F qa qb _ hcell hffl hff, hcell] at hfreqb
  rw [average_pilots_time_loop_congr T qa qb _ hcell hftl hft] at htimeb
  rw [hcell] at hrsrpb
  have hagree : ∀ i, i < REFSIGNAL_NUM_SF qa.cell.nof_prb port_id → sa.2 i = sb.2 i := by
    intro i hi
    have hi1 : i < 2 * qa.cell.nof_prb * 0 + 2 * qa.cell.nof_prb *
        refsignal_cs_nof_symbols port_id := by
      simpa [REFSIGNAL_NUM_SF] using hi
    have hprb : 0 < qa.cell.nof_prb := by
      rcases Nat.eq_zero_or_pos qa.cell.nof_prb with h0 | h0
      · simp [REFSIGNAL_NUM_SF, h0] at hi
      · exact h0
    rw [average_pilots_time_loop_short T qa tmpa hK _ 0 _ sa htimea i (Nat.zero_le _) hi1,
      average_pilots_time_loop_short T qa tmpb hK _ 0 _ sb htimeb i (Nat.zero_le _) hi1,
      average_pilots_freq_loop_indep F qa _ _ hprb _ 0 tmp0a tmp0b tmpa tmpb ?_ hfreqa hfreqb i
        (Nat.zero_le _) hi1]
    intro k _ hk
    have hk1 : k < REFSIGNAL_NUM_SF qa.cell.nof_prb port_id := by
      simpa [REFSIGNAL_NUM_SF] using hk
    simp only [store, vec_prod_conj_ccc, refsignal_cs_get_sf, hk1, Nat.zero_le, Nat.zero_add,
      and_self, if_true, Nat.sub_zero, true_and]
  refine ⟨ra, rb, sa.2, sb.2, ha1, hb1, ?_, ?_, hagree, ?_⟩
  · rw [hava, Function.update_same]
  · rw [havb, Function.update_same]
  · rw [hrsrpa, hrsrpb, Function.update_same, Function.update_same]
    exact vec_avg_power_cf_congr _ _ _ hagree

/-- Two runs on an initialised object with a time filter of at most one tap, which differ
only in the grid (and output pointer) of a call of `chest_dl_estimate_port` for the port
`p1` made before the call for the port `p`: both calls for `p` return, with the same smoothed
estimates on the pilots of the port and the same RSRP. -/
theorem chest_dl_estimate_port_two_runs (F T : Nat) (fidx : lte_cell_t → Nat → Nat → Nat)
    (q : chest_dl_t) (g1 g2 g : Buf) (c1 c2 ce : Option Buf) (sf1 sf p p1 : Nat)
    (hr : chest_dl_ready F T q) (hp : p < q.cell.nof_ports) (hp1 : p1 < q.cell.nof_ports)
    (hK : q.filter_time_len ≤ 1) :
    ∃ ra rb sa sb avga avgb,
      chest_dl_estimate_port F T fidx q g1 c1 sf1 p1 = some ra ∧
      chest_dl_estimate_port F T fidx q g2 c2 sf1 p1 = some rb ∧
      chest_dl_estimate_port F T fidx ra.2.1 g ce sf p = some sa ∧
      chest_dl_estimate_port F T fidx rb.2.1 g ce sf p = some sb ∧
      sa.2.1.pilot_estimates_average p = some avga ∧
      sb.2.1.pilot_estimates_average p = some avgb ∧
      (∀ i, i < REFSIGNAL_NUM_SF q.cell.nof_prb p → avga i = avgb i) ∧
      sa.2.1.rsrp p = sb.2.1.rsrp p := by
  obtain ⟨ra, ha, hra, hca, hcsa, hffla, hffa, hftla, hfta⟩ :=
    chest_dl_estimate_port_config F T fidx q g1 c1 sf1 p1 hr hp1
  obtain ⟨rb, hb, hrb, hcb, hcsb, hfflb, hffb, hftlb, hftb⟩ :=
    chest_dl_estimate_port_config F T fidx q g2 c2 sf1 p1 hr hp1
  obtain ⟨sa, sb, avga, avgb, k1, k2, k3, k4, k5, k6⟩ :=
    chest_dl_estimate_port_short_indep F T fidx ra.2.1 rb.2.1 g ce sf p hra hrb
      (by rw [hca]; exact hp) (hcb.trans hca.symm) (hcsb.trans hcsa.symm)
      (hfflb.trans hffla.symm) (hffb.trans hffa.symm) (hftlb.trans hftla.symm)
      (hftb.trans hfta.symm) (by rw [hftla]; exact hK)
  rw [hca] at k5
  exact ⟨ra, rb, sa, sb, avga, avgb, ha, hb, k1, k2, k3, k4, k5, k6⟩

/-- C14 (amended): when the time filter has at most one tap (it has none after init), the
smoothed pilot estimates and the rsrp that `chest_dl_estimate_port` produces for a port `p`
depend only on the grid of that call: two runs on an initialised object that are identical
except for the grid passed to a call for a port `p1` made before the call for `p` yield the
same `pilot_estimates_average[p]` on the pilots of the port and the same `rsrp[p]`. -/
theorem estimate_port_short_filter_port_independent (F T : Nat)
    (fidx : lte_cell_t → Nat → Nat → Nat)
    (q : chest_dl_t) (g1 g2 g : Buf) (c1 c2 ce : Option Buf) (sf1 sf p p1 : Nat)
    (hr : chest_dl_ready F T q) (hp : p < q.cell.nof_ports) (hp1 : p1 < q.cell.nof_ports)
    (hK : q.filter_time_len ≤ 1) :
    ∃ ra rb sa sb avga avgb,
      chest_dl_estimate_port F T fidx q g1 c1 sf1 p1 = some ra ∧
      chest_dl_estimate_port F T fidx q g2 c2 sf1 p1 = some rb ∧
      chest_dl_estimate_port F T fidx ra.2.1 g ce sf p = some sa ∧
      chest_dl_estimate_port F T fidx rb.2.1 g ce sf p = some sb ∧
      sa.2.1.pilot_estimates_average p = some avga ∧
      sb.2.1.pilot_estimates_average p = some avgb ∧
      (∀ i, i < REFSIGNAL_NUM_SF q.cell.nof_prb p → avga i = avgb i) ∧
      sa.2.1.rsrp p = sb.2.1.rsrp p :=
  chest_dl_estimate_port_two_runs F T fidx q g1 g2 g c1 c2 ce sf1 sf p p1 hr hp hp1 hK

/-- Witness for C14: the two-port object `q_two_ports` (time filter of length 0), port 0
estimated on `grid_seven` after port 1 was estimated on `grid_zero` or on `grid_five`. -/
theorem estimate_port_short_filter_port_independent_witness :
    ∃ ra rb sa sb avga avgb,
      chest_dl_estimate_port 10 4 fidx_zero q_two_ports grid_zero none 0 1 = some ra ∧
      chest_dl_estimate_port 10 4 fidx_zero q_two_ports grid_five none 0 1 = some rb ∧
      chest_dl_estimate_port 10 4 fidx_zero ra.2.1 grid_seven none 1 0 = some sa ∧
      chest_dl_estimate_port 10 4 fidx_zero rb.2.1 grid_seven none 1 0 = some sb ∧
      sa.2.1.pilot_estimates_average 0 = some avga ∧
      sb.2.1.pilot_estimates_average 0 = some avgb ∧
      (∀ i, i < REFSIGNAL_NUM_SF q_two_ports.cell.nof_prb 0 → avga i = avgb i) ∧
      sa.2.1.rsrp 0 = sb.2.1.rsrp 0 :=
  estimate_port_short_filter_port_independent 10 4 fidx_zero q_two_ports grid_zero grid_five
    grid_seven none none none 0 1 0 1 q_two_ports_ready (by decide) (by decide) (by decide)

/-! ### The frequency stage on a linear ramp -/

/-- The five default taps applied by `conv_same_cf` (implicit zeros past both ends) to a
linear ramp `x[k] = k`. -/
theorem conv_same_cf_default_ramp (x : Buf) (taps : Nat → ℚ) (n : Nat)
    (htaps : ∀ j, j < 5 → taps j = init_f j) (hx : ∀ k, k < n → x k = ((k : ℚ), 0))
    (i : Nat) (hi : i < n) :
    conv_same_cf x taps n 5 i =
      (if 2 ≤ i then (1 / 20 : ℚ) • ((((i + 0 - 2 : Nat) : ℚ), 0) : cf_t) else 0)
        + (if 1 ≤ i then (3 / 20 : ℚ) • ((((i + 1 - 2 : Nat) : ℚ), 0) : cf_t) else 0)
        + (3 / 5 : ℚ) • ((((i + 2 - 2 : Nat) : ℚ), 0) : cf_t)
        + (if i + 1 < n then (3 / 20 : ℚ) • ((((i + 3 - 2 : Nat) : ℚ), 0) : cf_t) else 0)
        + (if i + 2 < n then (1 / 20 : ℚ) • ((((i + 4 - 2 : Nat) : ℚ), 0) : cf_t) else 0) := by
  have term : ∀ (j : Nat) (t : ℚ),
      (if 5 / 2 ≤ i + j ∧ i + j - 5 / 2 < n then t • x (i + j - 5 / 2) else 0)
        = (if 2 ≤ i + j ∧ i + j < n + 2 then t • ((((i + j - 2 : Nat) : ℚ), 0) : cf_t)
            else 0) := by
    intro j t
    by_cases hc : 2 ≤ i + j ∧ i + j < n + 2
    · have hc2 : 5 / 2 ≤ i + j ∧ i + j - 5 / 2 < n := by omega
      rw [if_pos hc, if_pos hc2, hx _ hc2.2]
    · have hc2 : ¬ (5 / 2 ≤ i + j ∧ i + j - 5 / 2 < n) := by omega
      rw [if_neg hc, if_neg hc2]
  have e0 : (2 ≤ i + 0 ∧ i + 0 < n + 2) ↔ 2 ≤ i := by omega
  have e1 : (2 ≤ i + 1 ∧ i + 1 < n + 2) ↔ 1 ≤ i := by omega
  have e2 : (2 ≤ i + 2 ∧ i + 2 < n + 2) ↔ True := by simp; omega
  have e3 : (2 ≤ i + 3 ∧ i + 3 < n + 2) ↔ i + 1 < n := by omega
  have e4 : (2 ≤ i + 4 ∧ i + 4 < n + 2) ↔ i + 2 < n := by omega
  simp only [conv_same_cf, Finset.sum_range_succ, Finset.range_zero, Finset.sum_empty, zero_add,
    term, htaps 0 (by decide), htaps 1 (by decide), htaps 2 (by decide), htaps 3 (by decide),
    htaps 4 (by decide), init_f, e0, e1, e2, e3, e4, if_true]
  norm_num

/-- One frequency-filtering step with the default five taps on a slice where the LS estimates
are the ramp `ls[k] = k`: the step returns, the first pilot holds `0.1` and the last one
`0.95·nref − 1.05`. -/
theorem average_pilots_freq_default_ramp (F : Nat) (q : chest_dl_t) (est : Buf) (l : Nat)
    (tmp : Buf) (hF : 4 ≤ F) (hlen : q.filter_freq_len = 5)
    (htaps : ∀ j, j < 5 → q.filter_freq j = init_f j) (hprb : 2 ≤ q.cell.nof_prb)
    (hest : ∀ k, k < 2 * q.cell.nof_prb → est (2 * q.cell.nof_prb * l + k) = ((k : ℚ), 0)) :
    ∃ t, average_pilots_freq F q est l tmp = some t ∧
      t (REFSIGNAL_PILOT_IDX 0 l q.cell) = (1 / 10, 0) ∧
      t (REFSIGNAL_PILOT_IDX (2 * q.cell.nof_prb - 1) l q.cell)
        = ((19 / 20 : ℚ) * ((2 * q.cell.nof_prb : Nat) : ℚ) - 21 / 20, 0) := by
  have hi0 : (5 / 2 + 2 ^ 32 - 1) % 2 ^ 32 = 1 := by norm_num
  have hi1 : 5 / 2 + 1 = 3 := by norm_num
  have ht0 : tap_read F q.filter_freq 1 = some (3 / 20) := by
    have : 1 < F := by omega
    simp [tap_read, this, htaps 1 (by decide), init_f]
    norm_num
  have ht1 : tap_read F q.filter_freq 3 = some (3 / 20) := by
    have : 3 < F := by omega
    simp [tap_read, this, htaps 3 (by decide), init_f]
    norm_num
  have hconv := conv_same_cf_default_ramp (view est (2 * q.cell.nof_prb * l)) q.filter_freq
    (2 * q.cell.nof_prb) htaps (fun k hk => hest k hk)
  obtain ⟨m, hm⟩ : ∃ m, 2 * q.cell.nof_prb = m + 3 := ⟨2 * q.cell.nof_prb - 3, by omega⟩
  simp only [average_pilots_freq, hlen, gt_iff_lt, if_true, hi0, hi1, ht0, ht1,
    Option.bind_eq_bind, Option.some_bind, Option.pure_def, show (0 : Nat) < 5 by decide]
  refine ⟨_, rfl, ?_, ?_⟩
  · simp only [REFSIGNAL_PILOT_IDX, Nat.add_zero]
    have e1 : est (2 * q.cell.nof_prb * l + 1) = (((1 : Nat) : ℚ), 0) := hest 1 (by omega)
    have e0 : est (2 * q.cell.nof_prb * l) = (((0 : Nat) : ℚ), 0) := hest 0 (by omega)
    have hst := store_inside tmp (2 * q.cell.nof_prb * l) (2 * q.cell.nof_prb)
      (conv_same_cf (view est (2 * q.cell.nof_prb * l)) q.filter_freq (2 * q.cell.nof_prb) 5)
      0 (by omega)
    rw [Nat.add_zero] at hst
    rw [Function.update_noteq (by omega), Function.update_same, hst, hconv 0 (by omega), e0, e1]
    have c3 : 0 + 1 < 2 * q.cell.nof_prb := by omega
    have c4 : 0 + 2 < 2 * q.cell.nof_prb := by omega
    simp only [c3, c4, if_true, interp_linear_onesample]
    ext <;> norm_num
  · simp only [REFSIGNAL_PILOT_IDX, Nat.add_zero]
    have e2 : est (2 * q.cell.nof_prb * l + (2 * q.cell.nof_prb - 2))
        = (((2 * q.cell.nof_prb - 2 : Nat) : ℚ), 0) := hest _ (by omega)
    have e3 : est (2 * q.cell.nof_prb * l + (2 * q.cell.nof_prb - 1))
        = (((2 * q.cell.nof_prb - 1 : Nat) : ℚ), 0) := hest _ (by omega)
    rw [Function.update_same, Function.update_noteq (by omega),
      store_inside _ _ _ _ _ (by omega), hconv _ (by omega), e2, e3]
    have c1 : 2 ≤ 2 * q.cell.nof_prb - 1 := by omega
    have c2 : 1 ≤ 2 * q.cell.nof_prb - 1 := by omega
    have c3 : ¬ (2 * q.cell.nof_prb - 1 + 1 < 2 * q.cell.nof_prb) := by omega
    have c4 : ¬ (2 * q.cell.nof_prb - 1 + 2 < 2 * q.cell.nof_prb) := by omega
    have a0 : 2 * q.cell.nof_prb - 1 + 0 - 2 = m := by omega
    have a1 : 2 * q.cell.nof_prb - 1 + 1 - 2 = m + 1 := by omega
    have a2 : 2 * q.cell.nof_prb - 1 + 2 - 2 = m + 2 := by omega
    have a3 : 2 * q.cell.nof_prb - 2 = m + 1 := by omega
    have a4 : 2 * q.cell.nof_prb - 1 = m + 2 := by omega
    simp only [c1, c2, c3, c4, if_true, if_false, a0, a1, a2, interp_linear_onesample]
    rw [a3, a4, hm]
    ext
    · simp
      ring
    · simp

/-- C11 (counterexample): on `q_init` (default five taps, 12 pilots per symbol) with the
ramp `ls[k] = k`, the frequency step returns `freq_avg_tmp[0] = 0.1` and
`freq_avg_tmp[11] = 10.35`, not the linearly-extrapolated values 0 and 11. -/
theorem ramp_edges_not_linear :
    ∃ t, average_pilots_freq 10 q_init ls_ramp 0 (fun _ => (7, 0)) = some t ∧
      t 0 = (1 / 10, 0) ∧ t 11 = (207 / 20, 0) ∧ t 0 ≠ (0, 0) ∧ t 11 ≠ (11, 0) := by
  obtain ⟨t, h1, h2, h3⟩ := average_pilots_freq_default_ramp 10 q_init ls_ramp 0
    (fun _ => (7, 0)) (by decide) rfl q_init_taps (by decide) (fun k _ => by simp [ls_ramp])
  have h0 : t 0 = (1 / 10, 0) := h2
  have h11 : t 11 = (207 / 20, 0) := by
    have : t 11 = ((19 / 20 : ℚ) * ((2 * 6 : Nat) : ℚ) - 21 / 20, 0) := h3
    rw [this]
    ext <;> norm_num
  refine ⟨t, h1, h0, h11, ?_, ?_⟩
  · rw [h0]
    intro h
    have := congrArg Prod.fst h
    norm_num at this
  · rw [h11]
    intro h
    have := congrArg Prod.fst h
    norm_num at this

/-- C11 (amended): with the five default taps `{0.05, 0.15, 0.6, 0.15, 0.05}` (cell of at
least 2 PRB) and a linear-ramp LS sequence `ls[k] = k` on the pilots of a symbol, the
frequency step returns with `freq_avg_tmp[0] = 0.1` and
`freq_avg_tmp[nref−1] = 0.95·nref − 1.05`: the centred convolution over the ramp extended by
one linearly extrapolated sample past each end and by zeros beyond. -/
theorem average_pilots_freq_ramp_edges (F : Nat) (q : chest_dl_t) (est : Buf) (l : Nat)
    (tmp : Buf) (hF : 4 ≤ F) (hlen : q.filter_freq_len = 5)
    (htaps : ∀ j, j < 5 → q.filter_freq j = init_f j) (hprb : 2 ≤ q.cell.nof_prb)
    (hest : ∀ k, k < 2 * q.cell.nof_prb → est (2 * q.cell.nof_prb * l + k) = ((k : ℚ), 0)) :
    ∃ t, average_pilots_freq F q est l tmp = some t ∧
      t (REFSIGNAL_PILOT_IDX 0 l q.cell) = (1 / 10, 0) ∧
      t (REFSIGNAL_PILOT_IDX (2 * q.cell.nof_prb - 1) l q.cell)
        = ((19 / 20 : ℚ) * ((2 * q.cell.nof_prb : Nat) : ℚ) - 21 / 20, 0) :=
  average_pilots_freq_default_ramp F q est l tmp hF hlen htaps hprb hest

/-- Witness for C11: the object `q_init`, the ramp `ls_ramp`, pilot symbol 0. -/
theorem average_pilots_freq_ramp_edges_witness :
    ∃ t, average_pilots_freq 10 q_init ls_ramp 0 grid_zero = some t ∧
      t (REFSIGNAL_PILOT_IDX 0 0 q_init.cell) = (1 / 10, 0) ∧
      t (REFSIGNAL_PILOT_IDX (2 * q_init.cell.nof_prb - 1) 0 q_init.cell)
        = ((19 / 20 : ℚ) * ((2 * q_init.cell.nof_prb : Nat) : ℚ) - 21 / 20, 0) :=
  average_pilots_freq_ramp_edges 10 q_init ls_ramp 0 grid_zero (by decide) rfl q_init_taps
    (by decide) (fun k _ => by simp [ls_ramp])

/-! ### Time interpolation between and after the pilot rows -/

/-- One call of the vector interpolator on the grid, read at subcarrier `k` of row `r`: the
rows `out .. out+M-1` hold `a + t·(b − a)/(M + 1)` with `t = r − out + 1`, the other rows are
unchanged. -/
theorem cesymb_interp_row (q : chest_dl_t) (lv : interp_linvec_t) (ce : Buf)
    (a b out M r k : Nat) (hlv : lv.vector_len = RE_X_RB * q.cell.nof_prb)
    (hk : k < q.cell.nof_prb * RE_X_RB) :
    cesymb_interp q lv ce a b out M (RE_IDX q.cell.nof_prb r k) =
      if out ≤ r ∧ r < out + M then
        ce (RE_IDX q.cell.nof_prb a k)
          + (((r - out + 1 : Nat) : ℚ) / ((M : ℚ) + 1))
            • (ce (RE_IDX q.cell.nof_prb b k) - ce (RE_IDX q.cell.nof_prb a k))
      else ce (RE_IDX q.cell.nof_prb r k) := by
  have hW : ∀ x : Nat, x * q.cell.nof_prb * RE_X_RB = x * (q.cell.nof_prb * RE_X_RB) :=
    fun x => Nat.mul_assoc _ _ _
  have hL : lv.vector_len = q.cell.nof_prb * RE_X_RB := by rw [hlv, Nat.mul_comm]
  simp only [cesymb_interp, RE_IDX, store, hW, hL, Nat.add_zero, view, interp_linear_vector]
  generalize q.cell.nof_prb * RE_X_RB = W at hk
  have hWpos : 0 < W := by omega
  have hcond : (out * W ≤ r * W + k ∧ r * W + k < out * W + M * W) ↔ (out ≤ r ∧ r < out + M) := by
    constructor
    · rintro ⟨h1, h2⟩
      constructor
      · by_contra hc
        have : (r + 1) * W ≤ out * W := Nat.mul_le_mul_right W (by omega)
        rw [Nat.add_mul, Nat.one_mul] at this
        omega
      · by_contra hc
        have : (out + M) * W ≤ r * W := Nat.mul_le_mul_right W (by omega)
        rw [Nat.add_mul] at this
        omega
    · rintro ⟨h1, h2⟩
      constructor
      · have : out * W ≤ r * W := Nat.mul_le_mul_right W h1
        omega
      · have : (r + 1) * W ≤ (out + M) * W := Nat.mul_le_mul_right W (by omega)
        rw [Nat.add_mul, Nat.one_mul, Nat.add_mul] at this
        omega
  by_cases hc : out ≤ r ∧ r < out + M
  · rw [if_pos (hcond.mpr hc), if_pos hc]
    have hidx : r * W + k - out * W = (r - out) * W + k := by
      have : r * W = (r - out) * W + out * W := by
        rw [← Nat.add_mul, Nat.sub_add_cancel hc.1]
      omega
    have hmod : ((r - out) * W + k) % W = k := by
      rw [Nat.add_comm, Nat.add_mul_mod_self_right, Nat.mod_eq_of_lt hk]
    have hdiv : ((r - out) * W + k) / W = r - out := by
      rw [Nat.add_comm, Nat.add_mul_div_right _ _ hWpos, Nat.div_eq_of_lt hk, Nat.zero_add]
    rw [hidx, hmod, hdiv]
  · rw [if_neg (fun h => hc (hcond.mp h)), if_neg hc]

/-- The time stage, read at a row `s` strictly between the rows of two consecutive pilot
symbols `l` and `l+1` of the port: the exact linear interpolation of the two pilot rows of
the grid `F` left by the frequency loop. -/
theorem interpolate_pilots_time_between (q : chest_dl_t) (lv : interp_linvec_t)
    (port_id : Nat) (F : Buf) (hlv : lv.vector_len = RE_X_RB * q.cell.nof_prb)
    (l : Nat) (hl : l + 1 < refsignal_cs_nof_symbols port_id) (s k : Nat)
    (hs0 : refsignal_nsymbol l q.cell.cp port_id < s)
    (hs1 : s < refsignal_nsymbol (l + 1) q.cell.cp port_id)
    (hk : k < q.cell.nof_prb * RE_X_RB) :
    interpolate_pilots_time q lv (refsignal_cs_nof_symbols port_id) F
        (RE_IDX q.cell.nof_prb s k)
      = F (RE_IDX q.cell.nof_prb (refsignal_nsymbol l q.cell.cp port_id) k)
        + (((s - refsignal_nsymbol l q.cell.cp port_id : Nat) : ℚ)
            / ((refsignal_nsymbol (l + 1) q.cell.cp port_id
                - refsignal_nsymbol l q.cell.cp port_id : Nat) : ℚ))
          • (F (RE_IDX q.cell.nof_prb (refsignal_nsymbol (l + 1) q.cell.cp port_id) k)
              - F (RE_IDX q.cell.nof_prb (refsignal_nsymbol l q.cell.cp port_id) k)) := by
  have row := fun (ce : Buf) (a b out M r : Nat) =>
    cesymb_interp_row q lv ce a b out M r k hlv hk
  cases hcp : q.cell.cp with
  | CPNORM =>
    by_cases hport : port_id < 2
    · simp only [refsignal_cs_nof_symbols, hport, if_true] at hl ⊢
      simp only [refsignal_nsymbol, hcp, hport, if_true] at hs0 hs1 ⊢
      have hl3 : l < 3 := by omega
      interval_cases l <;> simp at hs0 hs1 <;> interval_cases s <;>
        simp [interpolate_pilots_time, hcp, row] <;> norm_num
    · simp only [refsignal_cs_nof_symbols, hport, if_false] at hl ⊢
      simp only [refsignal_nsymbol, hcp, hport, if_false] at hs0 hs1 ⊢
      have hl3 : l < 1 := by omega
      interval_cases l
      simp at hs0 hs1
      interval_cases s <;> simp [interpolate_pilots_time, hcp, row] <;> norm_num
  | CPEXT =>
    by_cases hport : port_id < 2
    · simp only [refsignal_cs_nof_symbols, hport, if_true] at hl ⊢
      simp only [refsignal_nsymbol, hcp, hport, if_true] at hs0 hs1 ⊢
      have hl3 : l < 3 := by omega
      interval_cases l <;> simp at hs0 hs1 <;> interval_cases s <;>
        simp [interpolate_pilots_time, hcp, row] <;> norm_num
    · simp only [refsignal_cs_nof_symbols, hport, if_false] at hl ⊢
      simp only [refsignal_nsymbol, hcp, hport, if_false] at hs0 hs1 ⊢
      have hl3 : l < 1 := by omega
      interval_cases l
      simp at hs0 hs1
      interval_cases s <;> simp [interpolate_pilots_time, hcp, row] <;> norm_num

/-- C18: for every port and cyclic prefix, every pair of consecutive pilot symbols `l`,
`l+1` of the port (rows `p < q`) and every row `s` with `p < s < q`, `interpolate_pilots`
returns a grid whose row `s` is `F_p + ((s − p)/(q − p))·(F_q − F_p)` at every subcarrier,
where `F` is the grid left by the frequency loop (the interpolators are those set by
`chest_dl_init`). -/
theorem interpolate_pilots_between_pilot_rows (fidx : lte_cell_t → Nat → Nat → Nat)
    (q : chest_dl_t) (ce avg : Buf) (lin : interp_lin_t) (port_id : Nat)
    (havg : q.pilot_estimates_average port_id = some avg) (hlin : q.interp_lin = some lin)
    (hlinvec : q.interp_linvec = some ⟨RE_X_RB * q.cell.nof_prb⟩)
    (l : Nat) (hl : l + 1 < refsignal_cs_nof_symbols port_id) (s k : Nat)
    (hs0 : refsignal_nsymbol l q.cell.cp port_id < s)
    (hs1 : s < refsignal_nsymbol (l + 1) q.cell.cp port_id)
    (hk : k < q.cell.nof_prb * RE_X_RB) :
    ∃ out, interpolate_pilots fidx q ce port_id = some out ∧
      out (RE_IDX q.cell.nof_prb s k)
        = interpolate_pilots_freq fidx q lin avg port_id (refsignal_cs_nof_symbols port_id) 0 ce
            (RE_IDX q.cell.nof_prb (refsignal_nsymbol l q.cell.cp port_id) k)
          + (((s - refsignal_nsymbol l q.cell.cp port_id : Nat) : ℚ)
              / ((refsignal_nsymbol (l + 1) q.cell.cp port_id
                  - refsignal_nsymbol l q.cell.cp port_id : Nat) : ℚ))
            • (interpolate_pilots_freq fidx q lin avg port_id (refsignal_cs_nof_symbols port_id)
                  0 ce (RE_IDX q.cell.nof_prb (refsignal_nsymbol (l + 1) q.cell.cp port_id) k)
                - interpolate_pilots_freq fidx q lin avg port_id
                    (refsignal_cs_nof_symbols port_id) 0 ce
                    (RE_IDX q.cell.nof_prb (refsignal_nsymbol l q.cell.cp port_id) k)) := by
  simp only [interpolate_pilots, havg, hlin, hlinvec, Option.bind_eq_bind, Option.some_bind,
    Option.pure_def]
  exact ⟨_, rfl, interpolate_pilots_time_between q ⟨RE_X_RB * q.cell.nof_prb⟩ port_id _ rfl l hl
    s k hs0 hs1 hk⟩

/-- Witness for C18: the object `q_init` (normal cyclic prefix), port 0, row 2 between the
pilot rows 0 and 4, subcarrier 0. -/
theorem interpolate_pilots_between_pilot_rows_witness :
    ∃ out, interpolate_pilots fidx_zero q_init grid_zero 0 = some out ∧
      out (RE_IDX q_init.cell.nof_prb 2 0)
        = interpolate_pilots_freq fidx_zero q_init ⟨12, 6⟩ (fun _ => (7, 0)) 0
            (refsignal_cs_nof_symbols 0) 0 grid_zero
            (RE_IDX q_init.cell.nof_prb (refsignal_nsymbol 0 q_init.cell.cp 0) 0)
          + (((2 - refsignal_nsymbol 0 q_init.cell.cp 0 : Nat) : ℚ)
              / ((refsignal_nsymbol (0 + 1) q_init.cell.cp 0
                  - refsignal_nsymbol 0 q_init.cell.cp 0 : Nat) : ℚ))
            • (interpolate_pilots_freq fidx_zero q_init ⟨12, 6⟩ (fun _ => (7, 0)) 0
                  (refsignal_cs_nof_symbols 0) 0 grid_zero
                  (RE_IDX q_init.cell.nof_prb (refsignal_nsymbol (0 + 1) q_init.cell.cp 0) 0)
                - interpolate_pilots_freq fidx_zero q_init ⟨12, 6⟩ (fun _ => (7, 0)) 0
                    (refsignal_cs_nof_symbols 0) 0 grid_zero
                    (RE_IDX q_init.cell.nof_prb (refsignal_nsymbol 0 q_init.cell.cp 0) 0)) :=
  interpolate_pilots_between_pilot_rows fidx_zero q_init grid_zero (fun _ => (7, 0)) ⟨12, 6⟩ 0
    rfl rfl rfl 0 (by decide) 2 0 (by decide) (by decide) (by decide)

/-- The time stage with the normal cyclic prefix and four pilot symbols, read at subcarrier
`k`: the pilot rows 7 and 11 keep the values of the grid `F` left by the frequency loop, and
the trailing rows 12 and 13 hold `F_7 + (1/3)·(F_11 − F_7)` and `F_7 + (2/3)·(F_11 − F_7)`. -/
theorem interpolate_pilots_time_normal_trailing (q : chest_dl_t) (lv : interp_linvec_t)
    (F : Buf) (hlv : lv.vector_len = RE_X_RB * q.cell.nof_prb)
    (hcp : q.cell.cp = lte_cp_t.CPNORM) (k : Nat) (hk : k < q.cell.nof_prb * RE_X_RB) :
    interpolate_pilots_time q lv 4 F (RE_IDX q.cell.nof_prb 7 k)
        = F (RE_IDX q.cell.nof_prb 7 k) ∧
    interpolate_pilots_time q lv 4 F (RE_IDX q.cell.nof_prb 11 k)
        = F (RE_IDX q.cell.nof_prb 11 k) ∧
    interpolate_pilots_time q lv 4 F (RE_IDX q.cell.nof_prb 12 k)
        = F (RE_IDX q.cell.nof_prb 7 k)
          + (1 / 3 : ℚ) • (F (RE_IDX q.cell.nof_prb 11 k) - F (RE_IDX q.cell.nof_prb 7 k)) ∧
    interpolate_pilots_time q lv 4 F (RE_IDX q.cell.nof_prb 13 k)
        = F (RE_IDX q.cell.nof_prb 7 k)
          + (2 / 3 : ℚ) • (F (RE_IDX q.cell.nof_prb 11 k) - F (RE_IDX q.cell.nof_prb 7 k)) := by
  have row := fun (ce : Buf) (a b out M r : Nat) =>
    cesymb_interp_row q lv ce a b out M r k hlv hk
  refine ⟨?_, ?_, ?_, ?_⟩ <;> simp [interpolate_pilots_time, hcp, row] <;> norm_num

/-- The function `interpolate_pilots` with the normal cyclic prefix for port 0 or 1: it returns, and the
trailing rows 12 and 13 of the output are `row7 + (1/3)·(row11 − row7)` and
`row7 + (2/3)·(row11 − row7)`, where rows 7 and 11 are the pilot rows of the output. -/
theorem interpolate_pilots_normal_trailing (fidx : lte_cell_t → Nat → Nat → Nat)
    (q : chest_dl_t) (ce avg : Buf) (lin : interp_lin_t) (port_id : Nat)
    (havg : q.pilot_estimates_average port_id = some avg) (hlin : q.interp_lin = some lin)
    (hlinvec : q.interp_linvec = some ⟨RE_X_RB * q.cell.nof_prb⟩)
    (hcp : q.cell.cp = lte_cp_t.CPNORM) (hport : port_id < 2) (k : Nat)
    (hk : k < q.cell.nof_prb * RE_X_RB) :
    ∃ out, interpolate_pilots fidx q ce port_id = some out ∧
      out (RE_IDX q.cell.nof_prb 7 k)
        = interpolate_pilots_freq fidx q lin avg port_id 4 0 ce (RE_IDX q.cell.nof_prb 7 k) ∧
      out (RE_IDX q.cell.nof_prb 11 k)
        = interpolate_pilots_freq fidx q lin avg port_id 4 0 ce (RE_IDX q.cell.nof_prb 11 k) ∧
      out (RE_IDX q.cell.nof_prb 12 k)
        = out (RE_IDX q.cell.nof_prb 7 k)
          + (1 / 3 : ℚ) • (out (RE_IDX q.cell.nof_prb 11 k) - out (RE_IDX q.cell.nof_prb 7 k)) ∧
      out (RE_IDX q.cell.nof_prb 13 k)
        = out (RE_IDX q.cell.nof_prb 7 k)
          + (2 / 3 : ℚ) • (out (RE_IDX q.cell.nof_prb 11 k)
              - out (RE_IDX q.cell.nof_prb 7 k)) := by
  have hsym : refsignal_cs_nof_symbols port_id = 4 := by
    simp [refsignal_cs_nof_symbols, hport]
  simp only [interpolate_pilots, havg, hlin, hlinvec, Option.bind_eq_bind, Option.some_bind,
    Option.pure_def, hsym]
  obtain ⟨h7, h11, h12, h13⟩ := interpolate_pilots_time_normal_trailing q
    ⟨RE_X_RB * q.cell.nof_prb⟩ (interpolate_pilots_freq fidx q lin avg port_id 4 0 ce) rfl hcp
    k hk
  refine ⟨_, rfl, h7, h11, ?_, ?_⟩
  · rw [h12, h7, h11]
  · rw [h13, h7, h11]

/-- C19 (counterexample): on the object `q_norm_steps` (normal cyclic prefix, pilot symbol
`l` holds the value `l`) and the grid `grid_five`, after `interpolate_pilots` for port 0 the
first elements of the pilot rows 7 and 11 are 2 and 3, and those of rows 12 and 13 are `7/3`
and `8/3`, values between the two pilot rows, not the extrapolated `3 + 1/4` and
`3 + 2/4`. -/
theorem trailing_rows_not_extrapolated :
    ∃ out, interpolate_pilots fidx_zero q_norm_steps grid_five 0 = some out ∧
      out (RE_IDX 6 7 0) = (2, 0) ∧ out (RE_IDX 6 11 0) = (3, 0) ∧
      out (RE_IDX 6 12 0) = (7 / 3, 0) ∧ out (RE_IDX 6 13 0) = (8 / 3, 0) ∧
      out (RE_IDX 6 12 0) ≠ out (RE_IDX 6 11 0)
        + (((12 - 11 : Nat) : ℚ) / 4) • (out (RE_IDX 6 11 0) - out (RE_IDX 6 7 0)) ∧
      out (RE_IDX 6 13 0) ≠ out (RE_IDX 6 11 0)
        + (((13 - 11 : Nat) : ℚ) / 4) • (out (RE_IDX 6 11 0) - out (RE_IDX 6 7 0)) := by
  have hcell : q_norm_steps.cell = cell_6prb := rfl
  have h504 : interpolate_pilots_freq fidx_zero q_norm_steps ⟨12, 6⟩
      (fun i => (((i / 12 : Nat) : ℚ), 0)) 0 4 0 grid_five (RE_IDX 6 7 0) = (2, 0) := by
    simp [interpolate_pilots_freq, hcell, cell_6prb, fidx_zero, store, view, RE_X_RB, RE_IDX,
      refsignal_nsymbol, interp_linear_offset_len, interp_linear_offset, REFSIGNAL_PILOT_IDX]
  have h792 : interpolate_pilots_freq fidx_zero q_norm_steps ⟨12, 6⟩
      (fun i => (((i / 12 : Nat) : ℚ), 0)) 0 4 0 grid_five (RE_IDX 6 11 0) = (3, 0) := by
    simp [interpolate_pilots_freq, hcell, cell_6prb, fidx_zero, store, view, RE_X_RB, RE_IDX,
      refsignal_nsymbol, interp_linear_offset_len, interp_linear_offset, REFSIGNAL_PILOT_IDX]
  obtain ⟨out, h1, h7, h11, h12, h13⟩ := interpolate_pilots_normal_trailing fidx_zero
    q_norm_steps grid_five (fun i => (((i / 12 : Nat) : ℚ), 0)) ⟨12, 6⟩ 0 rfl rfl rfl rfl
    (by decide) 0 (by decide)
  have g7 : out (RE_IDX 6 7 0) = (2, 0) := h7.trans h504
  have g11 : out (RE_IDX 6 11 0) = (3, 0) := h11.trans h792
  have g12 : out (RE_IDX 6 12 0) = (7 / 3, 0) := by
    have : out (RE_IDX 6 12 0) = out (RE_IDX 6 7 0)
        + (1 / 3 : ℚ) • (out (RE_IDX 6 11 0) - out (RE_IDX 6 7 0)) := h12
    rw [this, g7, g11]
    ext <;> norm_num
  have g13 : out (RE_IDX 6 13 0) = (8 / 3, 0) := by
    have : out (RE_IDX 6 13 0) = out (RE_IDX 6 7 0)
        + (2 / 3 : ℚ) • (out (RE_IDX 6 11 0) - out (RE_IDX 6 7 0)) := h13
    rw [this, g7, g11]
    ext <;> norm_num
  refine ⟨out, h1, g7, g11, g12, g13, ?_, ?_⟩
  · rw [g12, g11, g7]
    intro h
    have := congrArg Prod.fst h
    norm_num at this
  · rw [g13, g11, g7]
    intro h
    have := congrArg Prod.fst h
    norm_num at this

/-- C19 (amended): in Normal CP with 4 pilot symbols (port 0 or 1), `interpolate_pilots`
returns and the trailing output rows 12 and 13 are written by the same vector interpolator as
the rows between pilots, from the pilot rows 7 and 11 with 2 steps:
`row[12] = row[7] + (1/3)·(row[11] − row[7])` and `row[13] = row[7] + (2/3)·(row[11] − row[7])`,
values between the two pilot rows (no extrapolation past row 11). -/
theorem interpolate_pilots_trailing_rows_normal_cp (fidx : lte_cell_t → Nat → Nat → Nat)
    (q : chest_dl_t) (ce avg : Buf) (lin : interp_lin_t) (port_id : Nat)
    (havg : q.pilot_estimates_average port_id = some avg) (hlin : q.interp_lin = some lin)
    (hlinvec : q.interp_linvec = some ⟨RE_X_RB * q.cell.nof_prb⟩)
    (hcp : q.cell.cp = lte_cp_t.CPNORM) (hport : port_id < 2) (k : Nat)
    (hk : k < q.cell.nof_prb * RE_X_RB) :
    ∃ out, interpolate_pilots fidx q ce port_id = some out ∧
      out (RE_IDX q.cell.nof_prb 7 k)
        = interpolate_pilots_freq fidx q lin avg port_id 4 0 ce (RE_IDX q.cell.nof_prb 7 k) ∧
      out (RE_IDX q.cell.nof_prb 11 k)
        = interpolate_pilots_freq fidx q lin avg port_id 4 0 ce (RE_IDX q.cell.nof_prb 11 k) ∧
      out (RE_IDX q.cell.nof_prb 12 k)
        = out (RE_IDX q.cell.nof_prb 7 k)
          + (1 / 3 : ℚ) • (out (RE_IDX q.cell.nof_prb 11 k) - out (RE_IDX q.cell.nof_prb 7 k)) ∧
      out (RE_IDX q.cell.nof_prb 13 k)
        = out (RE_IDX q.cell.nof_prb 7 k)
          + (2 / 3 : ℚ) • (out (RE_IDX q.cell.nof_prb 11 k)
              - out (RE_IDX q.cell.nof_prb 7 k)) :=
  interpolate_pilots_normal_trailing fidx q ce avg lin port_id havg hlin hlinvec hcp hport k hk

/-- Witness for C19: the object `q_norm_steps`, port 0, the grid `grid_five`, subcarrier 0. -/
theorem interpolate_pilots_trailing_rows_normal_cp_witness :
    ∃ out, interpolate_pilots fidx_zero q_norm_steps grid_five 0 = some out ∧
      out (RE_IDX q_norm_steps.cell.nof_prb 7 0)
        = interpolate_pilots_freq fidx_zero q_norm_steps ⟨12, 6⟩
            (fun i => (((i / 12 : Nat) : ℚ), 0)) 0 4 0 grid_five
            (RE_IDX q_norm_steps.cell.nof_prb 7 0) ∧
      out (RE_IDX q_norm_steps.cell.nof_prb 11 0)
        = interpolate_pilots_freq fidx_zero q_norm_steps ⟨12, 6⟩
            (fun i => (((i / 12 : Nat) : ℚ), 0)) 0 4 0 grid_five
            (RE_IDX q_norm_steps.cell.nof_prb 11 0) ∧
      out (RE_IDX q_norm_steps.cell.nof_prb 12 0)
        = out (RE_IDX q_norm_steps.cell.nof_prb 7 0)
          + (1 / 3 : ℚ) • (out (RE_IDX q_norm_steps.cell.nof_prb 11 0)
              - out (RE_IDX q_norm_steps.cell.nof_prb 7 0)) ∧
      out (RE_IDX q_norm_steps.cell.nof_prb 13 0)
        = out (RE_IDX q_norm_steps.cell.nof_prb 7 0)
          + (2 / 3 : ℚ) • (out (RE_IDX q_norm_steps.cell.nof_prb 11 0)
              - out (RE_IDX q_norm_steps.cell.nof_prb 7 0)) :=
  interpolate_pilots_trailing_rows_normal_cp fidx_zero q_norm_steps grid_five
    (fun i => (((i / 12 : Nat) : ℚ), 0)) ⟨12, 6⟩ 0 rfl rfl rfl rfl (by decide) 0 (by decide)

/-! ### Offsets and extent of the frequency interpolation -/

/-- The offsets and the length of one call of `interp_linear_offset` in the frequency loop,
for a pilot offset within `0..5` and the interpolator set by `chest_dl_init` (`2·nof_prb`
pilots, rate 6): both offsets are at most 6, they sum to 6 (the trailing one, computed in
`uint32_t`, does not wrap), and the sequence written has `nof_prb·12` samples. -/
theorem interpolate_pilots_freq_offsets (fidx : lte_cell_t → Nat → Nat → Nat)
    (q : chest_dl_t) (lin : interp_lin_t) (port_id l : Nat)
    (hlen : lin.vector_len = 2 * q.cell.nof_prb) (hM : lin.M = RE_X_RB / 2)
    (hprb : 1 ≤ q.cell.nof_prb) (hf : fidx q.cell l port_id ≤ 5) :
    fidx q.cell l port_id ≤ 6 ∧
    (RE_X_RB / 2 + 2 ^ 32 - fidx q.cell l port_id) % 2 ^ 32 ≤ 6 ∧
    fidx q.cell l port_id + (RE_X_RB / 2 + 2 ^ 32 - fidx q.cell l port_id) % 2 ^ 32 = 6 ∧
    interp_linear_offset_len lin (fidx q.cell l port_id)
      ((RE_X_RB / 2 + 2 ^ 32 - fidx q.cell l port_id) % 2 ^ 32) = q.cell.nof_prb * 12 := by
  have hoff : (RE_X_RB / 2 + 2 ^ 32 - fidx q.cell l port_id) % 2 ^ 32
      = 6 - fidx q.cell l port_id := by
    simp only [RE_X_RB]
    omega
  refine ⟨by omega, by omega, by omega, ?_⟩
  simp only [interp_linear_offset_len, hlen, hM, hoff, RE_X_RB]
  omega

/-- One iteration of the frequency loop of `interpolate_pilots` under the same conditions:
it writes the `nof_prb·12` samples of the row of its pilot symbol, sample `k` of the row
being sample `k` of the interpolated sequence, and no other sample of the grid. -/
theorem interpolate_pilots_freq_step_row (fidx : lte_cell_t → Nat → Nat → Nat)
    (q : chest_dl_t) (lin : interp_lin_t) (avg ce : Buf) (port_id l : Nat)
    (hlen : lin.vector_len = 2 * q.cell.nof_prb) (hM : lin.M = RE_X_RB / 2)
    (hprb : 1 ≤ q.cell.nof_prb) (hf : fidx q.cell l port_id ≤ 5) :
    (∀ k, k < q.cell.nof_prb * 12 →
      interpolate_pilots_freq fidx q lin avg port_id 1 l ce
          (RE_IDX q.cell.nof_prb (refsignal_nsymbol l q.cell.cp port_id) k)
        = interp_linear_offset lin (view avg (REFSIGNAL_PILOT_IDX 0 l q.cell))
            (fidx q.cell l port_id) ((RE_X_RB / 2 + 2 ^ 32 - fidx q.cell l port_id) % 2 ^ 32)
            k) ∧
    (∀ i, ¬ (RE_IDX q.cell.nof_prb (refsignal_nsymbol l q.cell.cp port_id) 0 ≤ i ∧
        i < RE_IDX q.cell.nof_prb (refsignal_nsymbol l q.cell.cp port_id) 0
          + q.cell.nof_prb * 12) →
      interpolate_pilots_freq fidx q lin avg port_id 1 l ce i = ce i) := by
  obtain ⟨_, _, _, hlenq⟩ := interpolate_pilots_freq_offsets fidx q lin port_id l hlen hM hprb hf
  have hstep : interpolate_pilots_freq fidx q lin avg port_id 1 l ce
      = store ce (refsignal_nsymbol l q.cell.cp port_id * q.cell.nof_prb * RE_X_RB)
          (q.cell.nof_prb * 12)
          (interp_linear_offset lin (view avg (REFSIGNAL_PILOT_IDX 0 l q.cell))
            (fidx q.cell l port_id)
            ((RE_X_RB / 2 + 2 ^ 32 - fidx q.cell l port_id) % 2 ^ 32)) := by
    rw [← hlenq]
    rfl
  refine ⟨fun k hk => ?_, fun i hi => ?_⟩
  · rw [hstep]
    simp only [RE_IDX]
    exact store_inside _ _ _ _ _ hk
  · rw [hstep]
    simp only [RE_IDX, Nat.add_zero] at hi
    exact store_outside _ _ _ _ _ (by omega)

/-- The whole frequency loop, `n` pilot symbols starting at symbol `l`, under the same
conditions: a sample that lies in the row of none of these pilot symbols is left as it
was. -/
theorem interpolate_pilots_freq_rows_only (fidx : lte_cell_t → Nat → Nat → Nat)
    (q : chest_dl_t) (lin : interp_lin_t) (avg : Buf) (port_id : Nat)
    (hlen : lin.vector_len = 2 * q.cell.nof_prb) (hM : lin.M = RE_X_RB / 2)
    (hprb : 1 ≤ q.cell.nof_prb) (hf : ∀ l, fidx q.cell l port_id ≤ 5)
    (n l : Nat) (ce : Buf) (i : Nat)
    (hout : ∀ l1, l ≤ l1 → l1 < l + n →
      ¬ (RE_IDX q.cell.nof_prb (refsignal_nsymbol l1 q.cell.cp port_id) 0 ≤ i ∧
        i < RE_IDX q.cell.nof_prb (refsignal_nsymbol l1 q.cell.cp port_id) 0
          + q.cell.nof_prb * 12)) :
    interpolate_pilots_freq fidx q lin avg port_id n l ce i = ce i := by
  induction n generalizing l ce with
  | zero => rfl
  | succ n ih =>
    have hstep := (interpolate_pilots_freq_step_row fidx q lin avg ce port_id l hlen hM hprb
      (hf l)).2 i (hout l (Nat.le_refl l) (by omega))
    have hunfold : interpolate_pilots_freq fidx q lin avg port_id (n + 1) l ce
        = interpolate_pilots_freq fidx q lin avg port_id n (l + 1)
            (interpolate_pilots_freq fidx q lin avg port_id 1 l ce) := rfl
    rw [hunfold, ih (l + 1) _ (fun l1 h1 h2 => hout l1 (by omega) (by omega))]
    exact hstep

/-- C21: for every port, pilot symbol `l` and cell (of at least one PRB), with a pilot offset
within `0..5` and the interpolator set by `chest_dl_init`, the leading offset and the trailing
offset `6 − offset` passed to `interp_linear_offset` are both in `[0, 6]` and sum to 6, the
sequence produced from the `2·nof_prb` smoothed pilots at rate 6 has exactly `nof_prb·12`
samples, each iteration of the frequency loop fills exactly the row of its pilot symbol and
writes nothing outside it, and the whole loop leaves every sample outside the pilot rows
as it was. -/
theorem interpolate_pilots_freq_fills_one_row (fidx : lte_cell_t → Nat → Nat → Nat)
    (q : chest_dl_t) (lin : interp_lin_t) (avg ce : Buf) (port_id : Nat)
    (hlen : lin.vector_len = 2 * q.cell.nof_prb) (hM : lin.M = RE_X_RB / 2)
    (hprb : 1 ≤ q.cell.nof_prb) (hf : ∀ l, fidx q.cell l port_id ≤ 5) :
    (∀ l, fidx q.cell l port_id ≤ 6 ∧
      (RE_X_RB / 2 + 2 ^ 32 - fidx q.cell l port_id) % 2 ^ 32 ≤ 6 ∧
      fidx q.cell l port_id + (RE_X_RB / 2 + 2 ^ 32 - fidx q.cell l port_id) % 2 ^ 32 = 6 ∧
      interp_linear_offset_len lin (fidx q.cell l port_id)
        ((RE_X_RB / 2 + 2 ^ 32 - fidx q.cell l port_id) % 2 ^ 32) = q.cell.nof_prb * 12) ∧
    (∀ l (ce1 : Buf) k, k < q.cell.nof_prb * 12 →
      interpolate_pilots_freq fidx q lin avg port_id 1 l ce1
          (RE_IDX q.cell.nof_prb (refsignal_nsymbol l q.cell.cp port_id) k)
        = interp_linear_offset lin (view avg (REFSIGNAL_PILOT_IDX 0 l q.cell))
            (fidx q.cell l port_id) ((RE_X_RB / 2 + 2 ^ 32 - fidx q.cell l port_id) % 2 ^ 32)
            k) ∧
    (∀ l (ce1 : Buf) i,
      ¬ (RE_IDX q.cell.nof_prb (refsignal_nsymbol l q.cell.cp port_id) 0 ≤ i ∧
        i < RE_IDX q.cell.nof_prb (refsignal_nsymbol l q.cell.cp port_id) 0
          + q.cell.nof_prb * 12) →
      interpolate_pilots_freq fidx q lin avg port_id 1 l ce1 i = ce1 i) ∧
    (∀ i, (∀ l, l < refsignal_cs_nof_symbols port_id →
        ¬ (RE_IDX q.cell.nof_prb (refsignal_nsymbol l q.cell.cp port_id) 0 ≤ i ∧
          i < RE_IDX q.cell.nof_prb (refsignal_nsymbol l q.cell.cp port_id) 0
            + q.cell.nof_prb * 12)) →
      interpolate_pilots_freq fidx q lin avg port_id (refsignal_cs_nof_symbols port_id) 0 ce i
        = ce i) := by
  refine ⟨fun l => interpolate_pilots_freq_offsets fidx q lin port_id l hlen hM hprb (hf l),
    fun l ce1 => (interpolate_pilots_freq_step_row fidx q lin avg ce1 port_id l hlen hM hprb
      (hf l)).1,
    fun l ce1 => (interpolate_pilots_freq_step_row fidx q lin avg ce1 port_id l hlen hM hprb
      (hf l)).2,
    fun i hi => ?_⟩
  exact interpolate_pilots_freq_rows_only fidx q lin avg port_id hlen hM hprb hf _ 0 ce i
    (fun l1 _ h2 => hi l1 (by omega))

/-- Witness for C21: the object `q_init` (6 PRB), its interpolator `⟨12, 6⟩`, the pilot
offset 0, port 0, the grid `grid_five`. -/
theorem interpolate_pilots_freq_fills_one_row_witness :
    (∀ l, fidx_zero q_init.cell l 0 ≤ 6 ∧
      (RE_X_RB / 2 + 2 ^ 32 - fidx_zero q_init.cell l 0) % 2 ^ 32 ≤ 6 ∧
      fidx_zero q_init.cell l 0 + (RE_X_RB / 2 + 2 ^ 32 - fidx_zero q_init.cell l 0) % 2 ^ 32
        = 6 ∧
      interp_linear_offset_len ⟨12, 6⟩ (fidx_zero q_init.cell l 0)
        ((RE_X_RB / 2 + 2 ^ 32 - fidx_zero q_init.cell l 0) % 2 ^ 32)
        = q_init.cell.nof_prb * 12) ∧
    (∀ l (ce1 : Buf) k, k < q_init.cell.nof_prb * 12 →
      interpolate_pilots_freq fidx_zero q_init ⟨12, 6⟩ (fun _ => (7, 0)) 0 1 l ce1
          (RE_IDX q_init.cell.nof_prb (refsignal_nsymbol l q_init.cell.cp 0) k)
        = interp_linear_offset ⟨12, 6⟩
            (view (fun _ => (7, 0)) (REFSIGNAL_PILOT_IDX 0 l q_init.cell))
            (fidx_zero q_init.cell l 0)
            ((RE_X_RB / 2 + 2 ^ 32 - fidx_zero q_init.cell l 0) % 2 ^ 32) k) ∧
    (∀ l (ce1 : Buf) i,
      ¬ (RE_IDX q_init.cell.nof_prb (refsignal_nsymbol l q_init.cell.cp 0) 0 ≤ i ∧
        i < RE_IDX q_init.cell.nof_prb (refsignal_nsymbol l q_init.cell.cp 0) 0
          + q_init.cell.nof_prb * 12) →
      interpolate_pilots_freq fidx_zero q_init ⟨12, 6⟩ (fun _ => (7, 0)) 0 1 l ce1 i
        = ce1 i) ∧
    (∀ i, (∀ l, l < refsignal_cs_nof_symbols 0 →
        ¬ (RE_IDX q_init.cell.nof_prb (refsignal_nsymbol l q_init.cell.cp 0) 0 ≤ i ∧
          i < RE_IDX q_init.cell.nof_prb (refsignal_nsymbol l q_init.cell.cp 0) 0
            + q_init.cell.nof_prb * 12)) →
      interpolate_pilots_freq fidx_zero q_init ⟨12, 6⟩ (fun _ => (7, 0)) 0
          (refsignal_cs_nof_symbols 0) 0 grid_five i
        = grid_five i) :=
  interpolate_pilots_freq_fills_one_row fidx_zero q_init ⟨12, 6⟩ (fun _ => (7, 0)) grid_five 0
    rfl rfl (by decide) (fun _ => Nat.zero_le 5)

/-! ### The time filter runs over consecutive pilot symbols -/

/-- The time loop over `m + n` symbols is the loop over the first `m` symbols followed by
the loop over the next `n`, started from the state the first one returns. -/
theorem average_pilots_time_loop_add (T : Nat) (q : chest_dl_t) (tmp : Buf) (m n l : Nat)
    (s : (Nat → Option Buf) × Buf) :
    average_pilots_time_loop T q tmp (m + n) l s
      = (average_pilots_time_loop T q tmp m l s).bind
          (average_pilots_time_loop T q tmp n (l + m)) := by
  induction m generalizing l s with
  | zero =>
    rw [Nat.zero_add, Nat.add_zero]
    rfl
  | succ m ih =>
    rw [show m + 1 + n = (m + n) + 1 by omega]
    simp only [average_pilots_time_loop]
    cases h : average_pilots_time T q tmp l s with
    | none => rfl
    | some s1 =>
      simp only [Option.bind]
      rw [ih (l + 1) s1, show l + 1 + m = l + (m + 1) by omega]
      rfl

/-- The time loop with a two-tap filter returns for every number of symbols, and the two
history vectors it uses stay allocated. -/
theorem average_pilots_time_loop_two_taps_returns (T : Nat) (q : chest_dl_t) (tmp : Buf)
    (hK : q.filter_time_len = 2) (hT : 2 ≤ T) (m l : Nat) (s : (Nat → Option Buf) × Buf)
    (a b : Buf) (ha : s.1 0 = some a) (hb : s.1 1 = some b) :
    ∃ sm am bm, average_pilots_time_loop T q tmp m l s = some sm ∧
      sm.1 0 = some am ∧ sm.1 1 = some bm := by
  induction m generalizing l s a b with
  | zero => exact ⟨s, a, b, rfl, ha, hb⟩
  | succ m ih =>
    obtain ⟨s1, a1, b1, h1, h2, h3, _⟩ :=
      average_pilots_time_two_taps T q tmp l s a b hK hT ha hb
    obtain ⟨sm, am, bm, g1, g2, g3⟩ := ih (l + 1) s1 a1 b1 h2 h3
    refine ⟨sm, am, bm, ?_, g2, g3⟩
    rw [average_pilots_time_loop, h1]
    exact g1

/-- The time loop with a two-tap filter `{h0, h1}` over `m + k + 1` symbols, read at the
symbol `l + m`: the smoothed slice is `h1·tmp[l+m] + h0·c`, where `c` is the vector at index 1
of the history returned by the loop over the `m` symbols before it. -/
theorem average_pilots_time_loop_two_taps_at (T : Nat) (q : chest_dl_t) (tmp : Buf)
    (hK : q.filter_time_len = 2) (hT : 2 ≤ T) (m k l : Nat) (s : (Nat → Option Buf) × Buf)
    (a b : Buf) (ha : s.1 0 = some a) (hb : s.1 1 = some b) :
    ∃ sm c sfin, average_pilots_time_loop T q tmp m l s = some sm ∧ sm.1 1 = some c ∧
      average_pilots_time_loop T q tmp (m + (k + 1)) l s = some sfin ∧
      (∀ i, i < 2 * q.cell.nof_prb → sfin.2 (2 * q.cell.nof_prb * (l + m) + i)
        = q.filter_time 1 • tmp (2 * q.cell.nof_prb * (l + m) + i) + q.filter_time 0 • c i) := by
  obtain ⟨sm, am, c, g1, g2, g3⟩ :=
    average_pilots_time_loop_two_taps_returns T q tmp hK hT m l s a b ha hb
  obtain ⟨sfin, _, f1, _, _, f4⟩ :=
    average_pilots_time_loop_two_taps T q tmp hK hT k (l + m) sm am c g2 g3
  refine ⟨sm, c, sfin, g1, g3, ?_, f4⟩
  rw [average_pilots_time_loop_add, g1]
  exact f1

/-- The state returned by the time loop over `m + 1` symbols is the state returned by the step
for the symbol `l + m`, started from the state returned by the loop over the first `m`. -/
theorem average_pilots_time_loop_last_step (T : Nat) (q : chest_dl_t) (tmp : Buf) (m l : Nat)
    (s sm sl : (Nat → Option Buf) × Buf)
    (hm : average_pilots_time_loop T q tmp m l s = some sm)
    (hl : average_pilots_time_loop T q tmp (m + 1) l s = some sl) :
    average_pilots_time T q tmp (l + m) sm = some sl := by
  rw [average_pilots_time_loop_add, hm] at hl
  simp only [Option.bind, average_pilots_time_loop] at hl
  cases h : average_pilots_time T q tmp (l + m) sm with
  | none => simp [h] at hl
  | some s1 =>
    simp only [h] at hl
    rw [← hl]

/-- The function `chest_dl_estimate_port` on an initialised object with the time taps `{0.1, 0.9}`: the call
returns; the smoothed estimates of each pilot symbol `l` of the port are
`0.9·freq_avg_tmp[l] + 0.1·c`, where `c` is the vector at index 1 of the history after the
time loop has processed the symbols before `l`, starting from the history the object held
when the call started; for `l ≥ 1` that history is the one returned by the step for the
symbol `l − 1`; the history the object holds after the call is the one returned by the
step for the last symbol; and when the vector at index 1 of the history is zero at the start
of the call, the smoothed estimates of the first pilot symbol are `0.9·freq_avg_tmp[0]`. -/
theorem chest_dl_estimate_port_warmup_ring (F T : Nat) (fidx : lte_cell_t → Nat → Nat → Nat)
    (q : chest_dl_t) (input : Buf) (ce : Option Buf) (sf_idx port_id : Nat)
    (hr : chest_dl_ready F T q) (hp : port_id < q.cell.nof_ports)
    (hK : q.filter_time_len = 2) (hT : 2 ≤ T)
    (h0 : q.filter_time 0 = 1 / 10) (h1 : q.filter_time 1 = 9 / 10)
    (avg0 : Buf) (havg0 : q.pilot_estimates_average port_id = some avg0) :
    ∃ r avg tmp, chest_dl_estimate_port F T fidx q input ce sf_idx port_id = some r ∧
      r.2.1.pilot_estimates_average port_id = some avg ∧ r.2.1.tmp_freqavg = some tmp ∧
      (∀ b, q.tmp_timeavg 1 = some b → (∀ i, i < 2 * q.cell.nof_prb → b i = 0) →
        ∀ i, i < 2 * q.cell.nof_prb → avg (REFSIGNAL_PILOT_IDX i 0 q.cell)
          = (9 / 10 : ℚ) • tmp (REFSIGNAL_PILOT_IDX i 0 q.cell)) ∧
      (∀ l, l < refsignal_cs_nof_symbols port_id →
        ∃ sl c, average_pilots_time_loop T q tmp l 0 (q.tmp_timeavg, avg0) = some sl ∧
          sl.1 1 = some c ∧
          (∀ i, i < 2 * q.cell.nof_prb → avg (REFSIGNAL_PILOT_IDX i l q.cell)
            = (9 / 10 : ℚ) • tmp (REFSIGNAL_PILOT_IDX i l q.cell) + (1 / 10 : ℚ) • c i) ∧
          (∀ l1, l = l1 + 1 →
            ∃ sp, average_pilots_time_loop T q tmp l1 0 (q.tmp_timeavg, avg0) = some sp ∧
              average_pilots_time T q tmp l1 sp = some sl)) ∧
      (∃ sp sn, average_pilots_time_loop T q tmp (refsignal_cs_nof_symbols port_id - 1) 0
          (q.tmp_timeavg, avg0) = some sp ∧
        average_pilots_time T q tmp (refsignal_cs_nof_symbols port_id - 1) sp = some sn ∧
        average_pilots_time_loop T q tmp (refsignal_cs_nof_symbols port_id) 0
          (q.tmp_timeavg, avg0) = some sn ∧
        r.2.1.tmp_timeavg = sn.1) := by
  obtain ⟨hcsr, htmp, hnoise, hta, hports, hlin, hlinvec, _, hok⟩ := hr
  obtain ⟨hrecv, hest, _⟩ := hports port_id hp
  obtain ⟨csr, hcsr1⟩ := Option.isSome_iff_exists.mp hcsr
  obtain ⟨tmp0, htmp1⟩ := Option.isSome_iff_exists.mp htmp
  obtain ⟨noise0, hnoise1⟩ := Option.isSome_iff_exists.mp hnoise
  obtain ⟨recv0, hrecv1⟩ := Option.isSome_iff_exists.mp hrecv
  obtain ⟨est0, hest1⟩ := Option.isSome_iff_exists.mp hest
  obtain ⟨lin, hlin1⟩ := Option.isSome_iff_exists.mp hlin
  obtain ⟨linvec, hlinvec1⟩ := Option.isSome_iff_exists.mp hlinvec
  obtain ⟨a, ha⟩ := Option.isSome_iff_exists.mp (hta 0 (by omega))
  obtain ⟨b, hb⟩ := Option.isSome_iff_exists.mp (hta 1 (by omega))
  have hsym : 0 < refsignal_cs_nof_symbols port_id := by
    simp only [refsignal_cs_nof_symbols]
    split_ifs <;> omega
  obtain ⟨tmp, hfreq⟩ := average_pilots_freq_loop_returns F q
    (store est0 0 (REFSIGNAL_NUM_SF q.cell.nof_prb port_id)
      (vec_prod_conj_ccc (refsignal_cs_get_sf fidx q.cell port_id input recv0)
        (csr (port_id / 2) sf_idx))) hok (refsignal_cs_nof_symbols port_id) 0 tmp0
  obtain ⟨sn, _, _, htime, _, _⟩ := average_pilots_time_loop_two_taps_returns T q tmp hK hT
    (refsignal_cs_nof_symbols port_id) 0 (q.tmp_timeavg, avg0) a b ha hb
  obtain ⟨r, g1, _, _, _, _, _, hav, htf, _, htt, _⟩ :=
    chest_dl_estimate_port_eq F T fidx q input ce sf_idx port_id recv0 est0
      tmp0 noise0 avg0 tmp csr sn lin linvec hrecv1 hcsr1 hest1 htmp1 hnoise1 havg0 hlin1
      hlinvec1 hfreq htime
  have hring : ∀ l, l < refsignal_cs_nof_symbols port_id →
      ∃ sl c, average_pilots_time_loop T q tmp l 0 (q.tmp_timeavg, avg0) = some sl ∧
        sl.1 1 = some c ∧
        (∀ i, i < 2 * q.cell.nof_prb → sn.2 (REFSIGNAL_PILOT_IDX i l q.cell)
          = (9 / 10 : ℚ) • tmp (REFSIGNAL_PILOT_IDX i l q.cell) + (1 / 10 : ℚ) • c i) ∧
        (∀ l1, l = l1 + 1 →
          ∃ sp, average_pilots_time_loop T q tmp l1 0 (q.tmp_timeavg, avg0) = some sp ∧
            average_pilots_time T q tmp l1 sp = some sl) := by
    intro l hl
    obtain ⟨sl, c, sfin, k1, k2, k3, k4⟩ := average_pilots_time_loop_two_taps_at T q tmp hK hT
      l (refsignal_cs_nof_symbols port_id - 1 - l) 0 (q.tmp_timeavg, avg0) a b ha hb
    rw [show l + (refsignal_cs_nof_symbols port_id - 1 - l + 1)
      = refsignal_cs_nof_symbols port_id by omega, htime] at k3
    have hs : sn = sfin := Option.some.inj k3
    subst hs
    refine ⟨sl, c, k1, k2, ?_, ?_⟩
    · intro i hi
      have := k4 i hi
      simp only [Nat.zero_add, h0, h1] at this
      exact this
    · intro l1 hl1
      subst hl1
      obtain ⟨sp, _, _, m1, _, _⟩ := average_pilots_time_loop_two_taps_returns T q tmp hK hT
        l1 0 (q.tmp_timeavg, avg0) a b ha hb
      have := average_pilots_time_loop_last_step T q tmp l1 0 (q.tmp_timeavg, avg0) sp sl m1 k1
      rw [Nat.zero_add] at this
      exact ⟨sp, m1, this⟩
  refine ⟨r, sn.2, tmp, g1, by rw [hav, Function.update_same], htf, ?_, hring, ?_⟩
  · intro b1 hb1 hzero i hi
    obtain ⟨sl, c, k1, k2, k3, _⟩ := hring 0 hsym
    have hs : (q.tmp_timeavg, avg0) = sl := Option.some.inj k1
    subst hs
    have hc : b1 = c := Option.some.inj (hb1.symm.trans k2)
    subst hc
    rw [k3 i hi, hzero i hi, smul_zero, add_zero]
  · obtain ⟨sp, _, _, m1, _, _⟩ := average_pilots_time_loop_two_taps_returns T q tmp hK hT
      (refsignal_cs_nof_symbols port_id - 1) 0 (q.tmp_timeavg, avg0) a b ha hb
    have hn : average_pilots_time_loop T q tmp (refsignal_cs_nof_symbols port_id - 1 + 1) 0
        (q.tmp_timeavg, avg0) = some sn := by
      rw [show refsignal_cs_nof_symbols port_id - 1 + 1 = refsignal_cs_nof_symbols port_id
        by omega]
      exact htime
    have := average_pilots_time_loop_last_step T q tmp (refsignal_cs_nof_symbols port_id - 1) 0
      (q.tmp_timeavg, avg0) sp sn m1 hn
    rw [Nat.zero_add] at this
    exact ⟨sp, sn, m1, this, htime, htt⟩

/-- C12 (counterexample): on `q_warm` (history all zero, time taps `{0.1, 0.9}`), the first
call of `chest_dl_estimate_port` for port 0 with the grid `grid_seven`: at pilot 5 of the
second pilot symbol (`l = 1`) the frequency-smoothed value is 7, so `0.9·freq_avg_tmp[1]` is
`6.3`, and the call yields `6.93`: the step for symbol 1 adds the vector that the step for
symbol 0 left in the history. -/
theorem warmup_first_call_second_symbol :
    ∃ r avg tmp, chest_dl_estimate_port 10 4 fidx_zero q_warm grid_seven none 0 0 = some r ∧
      r.2.1.pilot_estimates_average 0 = some avg ∧ r.2.1.tmp_freqavg = some tmp ∧
      tmp (REFSIGNAL_PILOT_IDX 5 1 q_warm.cell) = (7, 0) ∧
      (9 / 10 : ℚ) • tmp (REFSIGNAL_PILOT_IDX 5 1 q_warm.cell) = (63 / 10, 0) ∧
      avg (REFSIGNAL_PILOT_IDX 5 1 q_warm.cell) = (693 / 100, 0) ∧
      avg (REFSIGNAL_PILOT_IDX 5 1 q_warm.cell)
        ≠ (9 / 10 : ℚ) • tmp (REFSIGNAL_PILOT_IDX 5 1 q_warm.cell) := by
  obtain ⟨r, avg, tmp, g1, g2, g3, _, g4, _⟩ := chest_dl_estimate_port_warmup_ring 10 4
    fidx_zero q_warm grid_seven none 0 0 q_warm_ready (by decide) rfl (by decide) rfl rfl
    (fun _ => (7, 0)) rfl
  obtain ⟨r1, _, tmp1, _, f1, _, f3, _, _, fval, _⟩ := q_warm_first_call
  have hr : r1 = r := Option.some.inj (f1.symm.trans g1)
  subst hr
  have ht : tmp1 = tmp := Option.some.inj (f3.symm.trans g3)
  subst ht
  have t0 : tmp1 (2 * 6 * 0 + 5) = (7, 0) := fval 0 (by decide)
  have t1 : tmp1 (REFSIGNAL_PILOT_IDX 5 1 q_warm.cell) = (7, 0) := fval 1 (by decide)
  obtain ⟨sl, c, k1, k2, k3, _⟩ := g4 1 (by decide)
  obtain ⟨s1, b1, m1, m2, m3, _⟩ := average_pilots_time_loop_two_taps 4 q_warm tmp1 rfl
    (by decide) 0 0 (q_warm.tmp_timeavg, fun _ => (7, 0))
    (fun j => if j < 2 * 6 then 0 else (7, 0)) (fun j => if j < 2 * 6 then 0 else (7, 0))
    rfl rfl
  have hs : s1 = sl := Option.some.inj (m1.symm.trans k1)
  subst hs
  have hc : b1 = c := Option.some.inj (m2.symm.trans k2)
  subst hc
  have hb5 : b1 5 = (9 / 10 : ℚ) • ((7, 0) : cf_t) := by
    have := m3 5 (by decide)
    rw [this]
    show (9 / 10 : ℚ) • tmp1 (2 * 6 * (0 + 0) + 5) = _
    rw [show 2 * 6 * (0 + 0) + 5 = 2 * 6 * 0 + 5 from rfl, t0]
  have havg : avg (REFSIGNAL_PILOT_IDX 5 1 q_warm.cell) = (693 / 100, 0) := by
    rw [k3 5 (by decide), t1, hb5]
    ext <;> norm_num
  have h63 : (9 / 10 : ℚ) • tmp1 (REFSIGNAL_PILOT_IDX 5 1 q_warm.cell) = (63 / 10, 0) := by
    rw [t1]
    ext <;> norm_num
  refine ⟨r1, avg, tmp1, g1, g2, g3, t1, h63, havg, ?_⟩
  rw [havg, h63]
  intro h
  have := congrArg Prod.fst h
  norm_num at this

/-- C12 (amended): on an initialised object whose time filter is `{0.1, 0.9}`,
`chest_dl_estimate_port` returns; when the history vector of index 1 is zero at the start of
the call (as right after init), the smoothed estimates of the first pilot symbol are
`0.9·freq_avg_tmp[0]`; the smoothed estimates of every pilot symbol `l` are
`0.9·freq_avg_tmp[l] + 0.1·c`, where `c` is the vector at index 1 of the single history ring
when the step for `l` starts, which for `l ≥ 1` is the history returned by the step for the
symbol `l − 1` of the same call; and the object keeps, for the next call, the history
returned by the step for the last symbol. -/
theorem estimate_port_warmup_two_taps (F T : Nat) (fidx : lte_cell_t → Nat → Nat → Nat)
    (q : chest_dl_t) (input : Buf) (ce : Option Buf) (sf_idx port_id : Nat)
    (hr : chest_dl_ready F T q) (hp : port_id < q.cell.nof_ports)
    (hK : q.filter_time_len = 2) (hT : 2 ≤ T)
    (h0 : q.filter_time 0 = 1 / 10) (h1 : q.filter_time 1 = 9 / 10)
    (avg0 : Buf) (havg0 : q.pilot_estimates_average port_id = some avg0) :
    ∃ r avg tmp, chest_dl_estimate_port F T fidx q input ce sf_idx port_id = some r ∧
      r.2.1.pilot_estimates_average port_id = some avg ∧ r.2.1.tmp_freqavg = some tmp ∧
      (∀ b, q.tmp_timeavg 1 = some b → (∀ i, i < 2 * q.cell.nof_prb → b i = 0) →
        ∀ i, i < 2 * q.cell.nof_prb → avg (REFSIGNAL_PILOT_IDX i 0 q.cell)
          = (9 / 10 : ℚ) • tmp (REFSIGNAL_PILOT_IDX i 0 q.cell)) ∧
      (∀ l, l < refsignal_cs_nof_symbols port_id →
        ∃ sl c, average_pilots_time_loop T q tmp l 0 (q.tmp_timeavg, avg0) = some sl ∧
          sl.1 1 = some c ∧
          (∀ i, i < 2 * q.cell.nof_prb → avg (REFSIGNAL_PILOT_IDX i l q.cell)
            = (9 / 10 : ℚ) • tmp (REFSIGNAL_PILOT_IDX i l q.cell) + (1 / 10 : ℚ) • c i) ∧
          (∀ l1, l = l1 + 1 →
            ∃ sp, average_pilots_time_loop T q tmp l1 0 (q.tmp_timeavg, avg0) = some sp ∧
              average_pilots_time T q tmp l1 sp = some sl)) ∧
      (∃ sp sn, average_pilots_time_loop T q tmp (refsignal_cs_nof_symbols port_id - 1) 0
          (q.tmp_timeavg, avg0) = some sp ∧
        average_pilots_time T q tmp (refsignal_cs_nof_symbols port_id - 1) sp = some sn ∧
        average_pilots_time_loop T q tmp (refsignal_cs_nof_symbols port_id) 0
          (q.tmp_timeavg, avg0) = some sn ∧
        r.2.1.tmp_timeavg = sn.1) :=
  chest_dl_estimate_port_warmup_ring F T fidx q input ce sf_idx port_id hr hp hK hT h0 h1
    avg0 havg0

/-- Witness for C12: the object `q_warm` (history zero), port 0, the grid `grid_seven`. -/
theorem estimate_port_warmup_two_taps_witness :
    ∃ r avg tmp, chest_dl_estimate_port 10 4 fidx_zero q_warm grid_seven none 0 0 = some r ∧
      r.2.1.pilot_estimates_average 0 = some avg ∧ r.2.1.tmp_freqavg = some tmp ∧
      q_warm.tmp_timeavg 1 = some (fun j => if j < 2 * 6 then 0 else (7, 0)) ∧
      (∀ i, i < 2 * q_warm.cell.nof_prb → avg (REFSIGNAL_PILOT_IDX i 0 q_warm.cell)
        = (9 / 10 : ℚ) • tmp (REFSIGNAL_PILOT_IDX i 0 q_warm.cell)) ∧
      (∀ l, l < refsignal_cs_nof_symbols 0 →
        ∃ sl c, average_pilots_time_loop 4 q_warm tmp l 0
            (q_warm.tmp_timeavg, fun _ => (7, 0)) = some sl ∧
          sl.1 1 = some c ∧
          (∀ i, i < 2 * q_warm.cell.nof_prb → avg (REFSIGNAL_PILOT_IDX i l q_warm.cell)
            = (9 / 10 : ℚ) • tmp (REFSIGNAL_PILOT_IDX i l q_warm.cell) + (1 / 10 : ℚ) • c i) ∧
          (∀ l1, l = l1 + 1 →
            ∃ sp, average_pilots_time_loop 4 q_warm tmp l1 0
                (q_warm.tmp_timeavg, fun _ => (7, 0)) = some sp ∧
              average_pilots_time 4 q_warm tmp l1 sp = some sl)) ∧
      (∃ sp sn, average_pilots_time_loop 4 q_warm tmp (refsignal_cs_nof_symbols 0 - 1) 0
          (q_warm.tmp_timeavg, fun _ => (7, 0)) = some sp ∧
        average_pilots_time 4 q_warm tmp (refsignal_cs_nof_symbols 0 - 1) sp = some sn ∧
        average_pilots_time_loop 4 q_warm tmp (refsignal_cs_nof_symbols 0) 0
          (q_warm.tmp_timeavg, fun _ => (7, 0)) = some sn ∧
        r.2.1.tmp_timeavg = sn.1) := by
  obtain ⟨r, avg, tmp, g1, g2, g3, g4, g5, g6⟩ := estimate_port_warmup_two_taps 10 4 fidx_zero
    q_warm grid_seven none 0 0 q_warm_ready (by decide) rfl (by decide) rfl rfl
    (fun _ => (7, 0)) rfl
  exact ⟨r, avg, tmp, g1, g2, g3, rfl, g4 _ rfl (fun _ hi => if_pos hi), g5, g6⟩

end ChestDl
